import Mathlib

/-!
# Node-graph view of the card canvas (`src/js/graph.js`)

A shallow embedding of the `GraphView` module together with the parts of
`DataManager` (`src/js/data.js`), `CardRenderer.renderGraphNode`
(`src/js/cards.js`) and `Utils.clamp` (`src/js/utils.js`) it calls.

Modelling conventions.

* JavaScript numbers are modelled by exact rationals `ℚ`.  Division by zero is
  `0` in `ℚ` and `Infinity`/`NaN` in JavaScript, so a statement whose truth
  depends on the value of a quotient assumes the divisor is non-zero.
* `element.style.left = v + "px"` followed by `parseFloat(element.style.left)`
  is modelled by storing the number `v` in the field `left`.
* DOM elements are references: the module keeps the same element in the node
  registry, in `dragNode` and in the closure of the element's `mousedown`
  listener.  Elements therefore live in a heap (`State.elements`) and are
  named by their index (`Handle`).
* The module-level variables of `GraphView` and of `DataManager` are the fields
  of `State`; what the browser supplies at call time (bounding rectangles,
  canvas size, clock) is a `Host`.
* Canvas drawing is output only; `drawConnections` returns the list of
  `drawConnection` calls it makes, `drawConnection` the curve and label of one
  edge, and `updateMinimap` the list of calls on the minimap context.
* Three ghost fields record effects the source performs on collaborators:
  `createdLog` (calls of `CardRenderer.renderGraphNode`), `removedLog`
  (calls of `element.remove()`), `writeLog` (calls of
  `DataManager.updateCard` with a position).
* A function that can raise a `TypeError` on a `null` canvas returns
  `Except State State`; the error value is the module state at the throw.
  For `updateMinimap` the value, returned or thrown, is the list of drawing
  calls issued.
-/

namespace GraphView

/-! ## Data model -/

/-- A point `{x, y}`. -/
structure Position where
  x : ℚ
  y : ℚ
deriving DecidableEq, Repr

/-- The pan/zoom state `transform = {x, y, scale}` (graph.js 19-23). -/
structure Transform where
  x : ℚ
  y : ℚ
  scale : ℚ
deriving DecidableEq, Repr

/-- An entry of `card.connections`. -/
structure Connection where
  targetId : String
  relation : String
  bidirectional : Bool
deriving DecidableEq, Repr

/-- A card of the store (data.js 118-135); `position` and `color` may be absent
on imported cards. -/
structure Card where
  id : String
  title : String
  typeId : String
  summary : String
  color : Option String
  isFavorite : Bool
  position : Option Position
  connections : List Connection
  updatedAt : Nat
deriving DecidableEq, Repr

/-- A card type of the store. -/
structure CardType where
  id : String
  name : String
  icon : String
  color : String
deriving DecidableEq, Repr

/-- Index of a DOM element in `State.elements`. -/
abbrev Handle := Nat

/-- A `div.graph-node` element built by `renderGraphNode` (cards.js 202-225).
`card` is the card object the element was rendered from; it is also the card
captured by the element's `mousedown` listener (graph.js 173-180), and
`dataset.cardId` is `card.id`. -/
structure Element where
  card : Card
  nodeColor : String
  left : ℚ
  top : ℚ
  dragging : Bool
  selected : Bool
  attached : Bool
  offsetWidth : ℚ
  offsetHeight : ℚ
deriving DecidableEq, Repr

/-- The value of `dragNode = { element, card }` (graph.js 317). -/
structure DragNode where
  element : Handle
  card : Card
deriving DecidableEq, Repr

/-- What the browser supplies when a function of the module runs. -/
structure Host where
  graphContainer : Bool
  graphNodes : Bool
  graphCanvas : Bool
  minimapCanvas : Bool
  containerLeft : ℚ
  containerTop : ℚ
  canvasWidth : ℚ
  canvasHeight : ℚ
  now : Nat
  nodeWidth : Card → ℚ
  nodeHeight : Card → ℚ

/-- The module variables of `GraphView` (graph.js 11-39), the card and type
lists of `DataManager` (data.js 45-46), and the ghost logs. -/
structure State where
  container : Bool
  nodesContainer : Bool
  canvas : Bool
  ctx : Bool
  minimapCanvas : Bool
  minimapCtx : Bool
  listening : Bool
  subscribed : Bool
  transform : Transform
  isDragging : Bool
  isPanning : Bool
  dragNode : Option DragNode
  dragOffset : Position
  lastMousePos : Position
  selectedNodes : List String
  nodeElements : List (String × Handle)
  elements : List Element
  nodesTransform : Option Transform
  cursor : String
  cards : List Card
  types : List CardType
  createdLog : List String
  removedLog : List String
  writeLog : List (String × Position)
deriving DecidableEq, Repr

/-! ## Constants and `Utils.clamp` -/

/-- `MIN_SCALE = 0.25` (graph.js 37). -/
def MIN_SCALE : ℚ := 1 / 4

/-- `MAX_SCALE = 2` (graph.js 38). -/
def MAX_SCALE : ℚ := 2

/-- `ZOOM_SPEED = 0.1` (graph.js 39). -/
def ZOOM_SPEED : ℚ := 1 / 10

/-- `Utils.clamp` (utils.js 227-229): `Math.min(Math.max(value, min), max)`. -/
def clamp (value lo hi : ℚ) : ℚ := min (max value lo) hi

/-! ## The `Map` and `Set` of the module -/

/-- `Map.prototype.get`. -/
def mapGet {α : Type} : List (String × α) → String → Option α
  | [], _ => none
  | (k, v) :: rest, key => if k = key then some v else mapGet rest key

/-- `Map.prototype.delete`. -/
def mapDelete {α : Type} : List (String × α) → String → List (String × α)
  | [], _ => []
  | (k, v) :: rest, key => if k = key then mapDelete rest key else (k, v) :: mapDelete rest key

/-- `Map.prototype.set`: an existing key keeps its place, a new key goes last. -/
def mapSet {α : Type} : List (String × α) → String → α → List (String × α)
  | [], key, val => [(key, val)]
  | (k, v) :: rest, key, val =>
    if k = key then (k, val) :: rest else (k, v) :: mapSet rest key val

/-- The keys of the registry, in insertion order. -/
def mapKeys {α : Type} (m : List (String × α)) : List String := m.map Prod.fst

/-- `Set.prototype.add`. -/
def setAdd (s : List String) (k : String) : List String :=
  if k ∈ s then s else s ++ [k]

/-- Apply `f` to the element behind a handle (a write through the reference). -/
def modifyElement (f : Element → Element) : List Element → Handle → List Element
  | [], _ => []
  | e :: rest, 0 => f e :: rest
  | e :: rest, n + 1 => e :: modifyElement f rest n

/-! ## Coordinate transform -/

/-- `applyTransform` (graph.js 300-305): writes the CSS transform of the nodes
container. -/
def applyTransform (s : State) : State :=
  if !s.nodesContainer then s else { s with nodesTransform := some s.transform }

/-- The screen-to-world conversion `(screen - (x, y)) / scale` that
`handleMouseMove` computes inline (graph.js 354-355), the inverse of
`screen = world * scale + (x, y)`; the specification names it `toWorld`. -/
def toWorld (t : Transform) (p : Position) : Position :=
  { x := (p.x - t.x) / t.scale, y := (p.y - t.y) / t.scale }

/-- `zoomAt` (graph.js 552-568). -/
def zoomAt (s : State) (direction x y : ℚ) : State :=
  let oldScale := s.transform.scale
  let newScale := clamp (oldScale * (1 + direction * ZOOM_SPEED)) MIN_SCALE MAX_SCALE
  let scaleDelta := newScale / oldScale
  applyTransform { s with transform :=
    { x := x - (x - s.transform.x) * scaleDelta
      y := y - (y - s.transform.y) * scaleDelta
      scale := newScale } }

/-- `resetZoom` (graph.js 573-577). -/
def resetZoom (s : State) : State :=
  applyTransform { s with transform := { s.transform with scale := 1 } }

/-- `setTransform` of the public API (graph.js 754-758). -/
def setTransform (s : State) (t : Transform) : State :=
  applyTransform { s with transform := t }

/-- `zoom` (graph.js 540-544); reading `canvas.width` throws when `canvas` is
`null`. -/
def zoom (h : Host) (s : State) (direction : ℚ) : Except State State :=
  if !s.canvas then .error s
  else .ok (zoomAt s direction (h.canvasWidth / 2) (h.canvasHeight / 2))

/-- A call of `zoomAt`: direction and screen point. -/
structure ZoomCall where
  direction : ℚ
  x : ℚ
  y : ℚ
deriving DecidableEq, Repr

/-! ## Node registry -/

/-- `DataManager.getTypeById` (data.js 334-336). -/
def getTypeById (types : List CardType) (typeId : String) : Option CardType :=
  types.find? (fun t => decide (t.id = typeId))

/-- `DataManager.getCardById` (data.js 200-202). -/
def getCardById (cards : List Card) (cardId : String) : Option Card :=
  cards.find? (fun c => decide (c.id = cardId))

/-- The JavaScript `a || b` on an optional string: an absent or empty `a`
gives `b`. -/
def stringOr (a : Option String) (b : String) : String :=
  match a with
  | some v => if v = "" then b else v
  | none => b

/-- The JavaScript `v || 100` on an optional number: an absent or zero `v`
gives `100` (cards.js 207-208, graph.js 160-161). -/
def coordOr100 (v : Option ℚ) : ℚ :=
  match v with
  | some q => if q = 0 then 100 else q
  | none => 100

/-- `CardRenderer.renderGraphNode` (cards.js 202-225).  The element is not yet
in the document; its layout size is what the host will report for it. -/
def renderGraphNode (h : Host) (types : List CardType) (card : Card) : Element :=
  { card := card
    nodeColor := stringOr card.color
      (stringOr ((getTypeById types card.typeId).map (fun t => t.color)) "#6366f1")
    left := coordOr100 (card.position.map (fun p => p.x))
    top := coordOr100 (card.position.map (fun p => p.y))
    dragging := false
    selected := false
    attached := false
    offsetWidth := h.nodeWidth card
    offsetHeight := h.nodeHeight card }

/-- The body of the first loop of `renderNodes` (graph.js 142-147), for one
entry `(id, element)` of the registry. -/
def removeStale (cards : List Card) (s : State) (entry : String × Handle) : State :=
  if (cards.find? (fun c => decide (c.id = entry.1))).isNone then
    { s with
      elements := modifyElement (fun e => { e with attached := false }) s.elements entry.2
      nodeElements := mapDelete s.nodeElements entry.1
      removedLog := s.removedLog ++ [entry.1] }
  else s

/-- The body of the second loop of `renderNodes` (graph.js 150-163), for one
card. -/
def addOrUpdate (h : Host) (s : State) (card : Card) : State :=
  match mapGet s.nodeElements card.id with
  | none =>
    { s with
      elements := s.elements ++ [{ renderGraphNode h s.types card with attached := true }]
      nodeElements := mapSet s.nodeElements card.id s.elements.length
      createdLog := s.createdLog ++ [card.id] }
  | some element =>
    { s with
      elements := modifyElement
        (fun e => { e with
          left := coordOr100 (card.position.map (fun p => p.x))
          top := coordOr100 (card.position.map (fun p => p.y)) })
        s.elements element }

/-- `renderNodes` (graph.js 136-166).  `Map.prototype.forEach` visits the
entries present when it reaches them; the callback deletes only the entry it
is visiting, so the loop runs over the entries the registry had at the start. -/
def renderNodes (h : Host) (s : State) : State :=
  if !s.nodesContainer then s
  else
    let cards := s.cards
    let s1 := s.nodeElements.foldl (removeStale cards) s
    let s2 := cards.foldl (addOrUpdate h) s1
    applyTransform s2

/-- `refresh` (graph.js 128-131): `renderNodes` and then `render`, which only
draws. -/
def refresh (h : Host) (s : State) : State := renderNodes h s

/-- Replace the first card with the given id (`cards[index] = updatedCard`,
data.js 152-161). -/
def replaceCard (cards : List Card) (cardId : String) (f : Card → Card) : List Card :=
  match cards with
  | [] => []
  | c :: rest => if c.id = cardId then f c :: rest else c :: replaceCard rest cardId f

/-- `DataManager.updateCard(cardId, { position })` (data.js 151-166) as called
by the graph view.  The call is recorded in `writeLog`.  When the card exists
the store emits `card:updated`, to which `init` subscribed `refresh`
(graph.js 65).  The listeners of other modules are not modelled. -/
def updateCard (h : Host) (s : State) (cardId : String) (position : Position) : State :=
  let s1 := { s with writeLog := s.writeLog ++ [(cardId, position)] }
  match getCardById s1.cards cardId with
  | none => s1
  | some _ =>
    let updated := replaceCard s1.cards cardId
      (fun c => { c with position := some position, updatedAt := h.now })
    let s2 := { s1 with cards := updated }
    if s2.subscribed then refresh h s2 else s2

/-! ## Edge renderer -/

/-- The arguments of one call `drawConnection(from, to, connection)`
(graph.js 223). -/
structure EdgeCall where
  source : Position
  target : Position
  connection : Connection
deriving DecidableEq, Repr

/-- `getNodeCenter` (graph.js 291-295). -/
def getNodeCenter (e : Element) : Position :=
  { x := e.left + e.offsetWidth / 2, y := e.top + e.offsetHeight / 2 }

/-- The inner loop body of `drawConnections` (graph.js 217-224).  A registry
entry always refers to an allocated element, so the heap lookup succeeds. -/
def drawCardConnection (s : State) (sourcePos : Position) (calls : List EdgeCall)
    (conn : Connection) : List EdgeCall :=
  match mapGet s.nodeElements conn.targetId with
  | none => calls
  | some targetElement =>
    match s.elements[targetElement]? with
    | none => calls
    | some te => calls ++ [{ source := sourcePos, target := getNodeCenter te, connection := conn }]

/-- The outer loop body of `drawConnections` (graph.js 211-225). -/
def drawCardConnections (s : State) (calls : List EdgeCall) (card : Card) : List EdgeCall :=
  match mapGet s.nodeElements card.id with
  | none => calls
  | some sourceElement =>
    match s.elements[sourceElement]? with
    | none => calls
    | some se => card.connections.foldl (drawCardConnection s (getNodeCenter se)) calls

/-- `drawConnections` (graph.js 208-226): the calls of `drawConnection`, in
order. -/
def drawConnections (s : State) : List EdgeCall :=
  s.cards.foldl (drawCardConnections s) []

/-! ## Interaction controller -/

/-- The fields of a `MouseEvent` the handlers read.  `onBackground` is
`e.target === container || e.target === canvas` (graph.js 336). -/
structure MouseEvent where
  clientX : ℚ
  clientY : ℚ
  button : Nat
  onBackground : Bool
deriving DecidableEq, Repr

/-- The fields of a `WheelEvent` that `handleWheel` reads. -/
structure WheelEvent where
  deltaY : ℚ
  clientX : ℚ
  clientY : ℚ
deriving DecidableEq, Repr

/-- `selectNode` (graph.js 515-521). -/
def selectNode (s : State) (cardId : String) : State :=
  match mapGet s.nodeElements cardId with
  | none => s
  | some element =>
    { s with
      elements := modifyElement (fun e => { e with selected := true }) s.elements element
      selectedNodes := setAdd s.selectedNodes cardId }

/-- The loop body of `deselectAll` (graph.js 527-530). -/
def deselectOne (s : State) (id : String) : State :=
  match mapGet s.nodeElements id with
  | none => s
  | some element =>
    { s with elements := modifyElement (fun e => { e with selected := false }) s.elements element }

/-- `deselectAll` (graph.js 526-532). -/
def deselectAll (s : State) : State :=
  { s.selectedNodes.foldl deselectOne s with selectedNodes := [] }

/-- `startDragNode` (graph.js 315-329); `rect` is the top-left corner of
`element.getBoundingClientRect()`. -/
def startDragNode (s : State) (element : Handle) (card : Card) (e : MouseEvent)
    (rect : Position) : State :=
  let s1 := { s with
    isDragging := true
    dragNode := some { element := element, card := card }
    dragOffset := { x := e.clientX - rect.x, y := e.clientY - rect.y }
    elements := modifyElement (fun el => { el with dragging := true }) s.elements element }
  selectNode s1 card.id

/-- `handleMouseDown` (graph.js 335-344). -/
def handleMouseDown (s : State) (e : MouseEvent) : State :=
  if e.onBackground then
    deselectAll { s with
      isPanning := true
      lastMousePos := { x := e.clientX, y := e.clientY }
      cursor := "grabbing" }
  else s

/-- `handleMouseMove` (graph.js 350-374); `render` only draws. -/
def handleMouseMove (h : Host) (s : State) (e : MouseEvent) : State :=
  match s.isDragging, s.dragNode with
  | true, some dn =>
    let x := (e.clientX - h.containerLeft - s.transform.x) / s.transform.scale - s.dragOffset.x
    let y := (e.clientY - h.containerTop - s.transform.y) / s.transform.scale - s.dragOffset.y
    let moved := modifyElement (fun el => { el with left := x, top := y }) s.elements dn.element
    { s with elements := moved }
  | _, _ =>
    if s.isPanning then
      let dx := e.clientX - s.lastMousePos.x
      let dy := e.clientY - s.lastMousePos.y
      applyTransform { s with
        transform := { s.transform with x := s.transform.x + dx, y := s.transform.y + dy }
        lastMousePos := { x := e.clientX, y := e.clientY } }
    else s

/-- The first block of `handleMouseUp` (graph.js 381-391): commit the dragged
element's position to the store and clear its `dragging` class.  `dragNode`
always refers to an allocated element, so the lookup succeeds. -/
def commitDrag (h : Host) (s : State) : State :=
  match s.isDragging, s.dragNode with
  | true, some dn =>
    match s.elements[dn.element]? with
    | none => s
    | some el =>
      let s1 := updateCard h s dn.card.id { x := el.left, y := el.top }
      let cleared := modifyElement (fun e => { e with dragging := false }) s1.elements dn.element
      { s1 with elements := cleared }
  | _, _ => s

/-- `handleMouseUp` (graph.js 380-397), the listener of both `mouseup` and
`mouseleave`. -/
def handleMouseUp (h : Host) (s : State) : State :=
  { commitDrag h s with
    isDragging := false
    isPanning := false
    dragNode := none
    cursor := "grab" }

/-- `handleWheel` (graph.js 403-412). -/
def handleWheel (h : Host) (s : State) (e : WheelEvent) : State :=
  let delta : ℚ := if e.deltaY > 0 then -1 else 1
  zoomAt s delta (e.clientX - h.containerLeft) (e.clientY - h.containerTop)

/-! ## Navigation and layout -/

/-- The JavaScript `v || d` on an optional number. -/
def numberOr (v : Option ℚ) (d : ℚ) : ℚ :=
  match v with
  | some q => if q = 0 then d else q
  | none => d

/-- The accumulators `minX, minY, maxX, maxY` of `centerGraph`
(graph.js 593-594); `none` is the initial `Infinity` or `-Infinity`. -/
structure Bounds where
  minX : Option ℚ
  minY : Option ℚ
  maxX : Option ℚ
  maxY : Option ℚ
deriving DecidableEq, Repr

/-- `Math.min(acc, v)` with `acc` possibly `Infinity`. -/
def minInto (acc : Option ℚ) (v : ℚ) : Option ℚ :=
  match acc with
  | none => some v
  | some a => some (min a v)

/-- `Math.max(acc, v)` with `acc` possibly `-Infinity`. -/
def maxInto (acc : Option ℚ) (v : ℚ) : Option ℚ :=
  match acc with
  | none => some v
  | some a => some (max a v)

/-- `card.position || { x: 0, y: 0 }`. -/
def positionOrOrigin (card : Card) : Position :=
  match card.position with
  | some p => p
  | none => { x := 0, y := 0 }

/-- The loop body of the bounding box of `centerGraph` (graph.js 596-606). -/
def growBounds (s : State) (b : Bounds) (card : Card) : Bounds :=
  let pos := positionOrOrigin card
  let element := (mapGet s.nodeElements card.id).bind (fun el => s.elements[el]?)
  let width := numberOr (element.map (fun e => e.offsetWidth)) 180
  let height := numberOr (element.map (fun e => e.offsetHeight)) 80
  { minX := minInto b.minX pos.x
    minY := minInto b.minY pos.y
    maxX := maxInto b.maxX (pos.x + width)
    maxY := maxInto b.maxY (pos.y + height) }

/-- `centerGraph` (graph.js 582-617).  With cards present the accumulators are
finite after the loop; reading `canvas.width` throws when `canvas` is `null`. -/
def centerGraph (h : Host) (s : State) : Except State State :=
  let cards := s.cards
  if cards.length = 0 then
    .ok (applyTransform { s with transform := { s.transform with x := 0, y := 0 } })
  else
    let b := cards.foldl (growBounds s) { minX := none, minY := none, maxX := none, maxY := none }
    let centerX := (b.minX.getD 0 + b.maxX.getD 0) / 2
    let centerY := (b.minY.getD 0 + b.maxY.getD 0) / 2
    if !s.canvas then .error s
    else
      .ok (applyTransform { s with transform :=
        { s.transform with
          x := h.canvasWidth / 2 - centerX * s.transform.scale
          y := h.canvasHeight / 2 - centerY * s.transform.scale } })

/-- `focusOnCard` (graph.js 728-741). -/
def focusOnCard (h : Host) (s : State) (cardId : String) : Except State State :=
  match getCardById s.cards cardId with
  | none => .ok s
  | some card =>
    let pos := positionOrOrigin card
    if !s.canvas then .error s
    else
      let s1 := applyTransform { s with transform :=
        { s.transform with
          x := h.canvasWidth / 2 - pos.x * s.transform.scale
          y := h.canvasHeight / 2 - pos.y * s.transform.scale } }
      .ok (selectNode s1 cardId)

/-- The value of a decimal digit. -/
def digitOf (c : Char) : Option Nat :=
  if 48 ≤ c.toNat ∧ c.toNat ≤ 57 then some (c.toNat - 48) else none

/-- The number written by a list of decimal digits, continuing from `acc`. -/
def digitsValue : List Char → Nat → Option Nat
  | [], acc => some acc
  | c :: rest, acc =>
    match digitOf c with
    | none => none
    | some d => digitsValue rest (acc * 10 + d)

/-- A property key that is an array index: the canonical decimal string (no
leading zero) of a number below `2^32 - 1`.  `Object.entries` lists such keys
first, in ascending numeric order. -/
def arrayIndex (key : String) : Option Nat :=
  match key.data with
  | [] => none
  | c :: rest =>
    if c = '0' ∧ rest ≠ [] then none
    else
      match digitsValue (c :: rest) 0 with
      | some n => if n < 4294967295 then some n else none
      | none => none

/-- The assignment `groups[key] = value` on a plain object (graph.js 631).  The
key `__proto__` goes to the prototype setter and creates no own property. -/
def objectAssign (groups : List (String × List Card)) (key : String) (value : List Card) :
    List (String × List Card) :=
  if key = "__proto__" then groups else mapSet groups key value

/-- `Object.entries(groups)`: array-index keys in ascending numeric order, then
the other keys in the order they were first assigned. -/
def objectEntries (groups : List (String × List Card)) : List (String × List Card) :=
  (groups.filter (fun e => (arrayIndex e.1).isSome)).insertionSort
      (fun a b => (arrayIndex a.1).getD 0 ≤ (arrayIndex b.1).getD 0)
    ++ groups.filter (fun e => (arrayIndex e.1).isNone)

/-- The loop `types.forEach(type => groups[type.id] = cards.filter(...))`
(graph.js 628-632). -/
def groupByType (cards : List Card) (types : List CardType) : List (String × List Card) :=
  types.foldl
    (fun groups type => objectAssign groups type.id (cards.filter (fun c => decide (c.typeId = type.id))))
    []

/-- The body of `typeCards.forEach((card, index) => ...)` (graph.js 643-656). -/
def layoutCard (h : Host) (columnX : ℚ) (s : State) (entry : Nat × Card) : State :=
  let newPosition : Position := { x := columnX, y := 50 + (entry.1 : ℚ) * (100 + 30) }
  let s1 := updateCard h s entry.2.id newPosition
  match mapGet s1.nodeElements entry.2.id with
  | none => s1
  | some element =>
    let moved := modifyElement
      (fun e => { e with left := newPosition.x, top := newPosition.y }) s1.elements element
    { s1 with elements := moved }

/-- The body of `Object.entries(groups).forEach(...)` (graph.js 640-659); the
second component is `columnX`. -/
def layoutGroup (h : Host) (acc : State × ℚ) (entry : String × List Card) : State × ℚ :=
  if entry.2.length = 0 then acc
  else (entry.2.enum.foldl (layoutCard h acc.2) acc.1, acc.2 + 250)

/-- `autoLayout` (graph.js 622-665); the closing toast is not modelled. -/
def autoLayout (h : Host) (s : State) : Except State State :=
  let cards := s.cards
  if cards.length = 0 then .ok s
  else
    let groups := groupByType cards s.types
    let s1 := ((objectEntries groups).foldl (layoutGroup h) (s, 50)).1
    centerGraph h s1

/-! ## Initialisation and the event loop -/

/-- The module state when the script has been loaded (graph.js 11-34), over a
store holding `cards` and `types`. -/
def initialState (cards : List Card) (types : List CardType) : State :=
  { container := false
    nodesContainer := false
    canvas := false
    ctx := false
    minimapCanvas := false
    minimapCtx := false
    listening := false
    subscribed := false
    transform := { x := 0, y := 0, scale := 1 }
    isDragging := false
    isPanning := false
    dragNode := none
    dragOffset := { x := 0, y := 0 }
    lastMousePos := { x := 0, y := 0 }
    selectedNodes := []
    nodeElements := []
    elements := []
    nodesTransform := none
    cursor := ""
    cards := cards
    types := types
    createdLog := []
    removedLog := []
    writeLog := [] }

/-- `init` (graph.js 46-70): looks the elements up, and only with a container
and a canvas installs the listeners and the event-bus subscriptions. -/
def init (h : Host) (s : State) : State :=
  let s1 := { s with
    container := h.graphContainer
    nodesContainer := h.graphNodes
    canvas := h.graphCanvas
    minimapCanvas := h.minimapCanvas }
  if !s1.container || !s1.canvas then s1
  else { s1 with ctx := true, minimapCtx := s1.minimapCanvas, listening := true, subscribed := true }

/-- The state a function leaves behind, whether it returned or threw. -/
def settle (r : Except State State) : State :=
  match r with
  | .ok s => s
  | .error s => s

/-- What can happen to the module after `init`: a call of the public API
(graph.js 744-759), a DOM event, or a change of the store by its owner. -/
inductive Event where
  | refresh
  | render
  | zoom (direction : ℚ)
  | resetZoom
  | centerGraph
  | autoLayout
  | focusOnCard (cardId : String)
  | setTransform (t : Transform)
  | nodeMouseDown (element : Handle) (e : MouseEvent) (rect : Position)
  | mouseDown (e : MouseEvent)
  | mouseMove (e : MouseEvent)
  | mouseUp
  | mouseLeave
  | wheel (e : WheelEvent)
  | storeChanged (cards : List Card) (types : List CardType) (notify : Bool)

/-- The `mousedown` listener of a node (graph.js 174-179).  With the primary
button it stops propagation and starts the drag; otherwise the event bubbles to
the container, whose handler sees a target that is not the background. -/
def nodeMouseDown (s : State) (element : Handle) (e : MouseEvent) (rect : Position) : State :=
  match s.elements[element]? with
  | none => s
  | some el =>
    if !el.attached then s
    else if e.button = 0 then startDragNode s element el.card e rect
    else if s.listening then handleMouseDown s { e with onBackground := false }
    else s

/-- One event.  The container's listeners exist only after a successful `init`
(graph.js 52-61); `storeChanged` is a write by the store's owner, followed by
`refresh` when it emits an event the view subscribed to (graph.js 64-67). -/
def step (h : Host) (s : State) (ev : Event) : State :=
  match ev with
  | .refresh => refresh h s
  | .render => s
  | .zoom d => settle (zoom h s d)
  | .resetZoom => resetZoom s
  | .centerGraph => settle (centerGraph h s)
  | .autoLayout => settle (autoLayout h s)
  | .focusOnCard cardId => settle (focusOnCard h s cardId)
  | .setTransform t => setTransform s t
  | .nodeMouseDown element e rect => nodeMouseDown s element e rect
  | .mouseDown e => if s.listening then handleMouseDown s e else s
  | .mouseMove e => if s.listening then handleMouseMove h s e else s
  | .mouseUp => if s.listening then handleMouseUp h s else s
  | .mouseLeave => if s.listening then handleMouseUp h s else s
  | .wheel e => if s.listening then handleWheel h s e else s
  | .storeChanged cards types notify =>
    let s1 := { s with cards := cards, types := types }
    if notify && s1.subscribed then refresh h s1 else s1

/-- The state after a sequence of events, each with the host of its moment. -/
def run (s : State) (evs : List (Host × Event)) : State :=
  evs.foldl (fun acc he => step he.1 acc he.2) s

/-- The state after a sequence of `zoomAt` calls. -/
def zoomSeq (s : State) (calls : List ZoomCall) : State :=
  calls.foldl (fun acc c => zoomAt acc c.direction c.x c.y) s

/-! ## Frames and well-formedness -/

/-- `t` differs from `s` at most in the element heap, the registry, the
creation and removal logs and the applied CSS transform. -/
def RenderFrame (s t : State) : Prop :=
  t = { s with
    elements := t.elements
    nodeElements := t.nodeElements
    createdLog := t.createdLog
    removedLog := t.removedLog
    nodesTransform := t.nodesTransform }

/-- The registry is a JavaScript `Map` from ids to distinct allocated elements:
no key twice, no element under two keys, every handle inside the heap. -/
def RegistryWF (s : State) : Prop :=
  (mapKeys s.nodeElements).Nodup
    ∧ (s.nodeElements.map Prod.snd).Nodup
    ∧ ∀ e ∈ s.nodeElements, e.2 < s.elements.length

/-- The write of the update branch of `renderNodes` (graph.js 160-161) for
`card`, as a function on the element. -/
def placeAt (card : Card) (e : Element) : Element :=
  { e with
    left := coordOr100 (card.position.map (fun p => p.x))
    top := coordOr100 (card.position.map (fun p => p.y)) }

/-- The last card of a list whose registry entry is the element `hd`: the card
whose position the second loop of `renderNodes` leaves in that element. -/
def lastWriter (reg : List (String × Handle)) (hd : Handle) : List Card → Option Card
  | [] => none
  | c :: rest =>
    match lastWriter reg hd rest with
    | some c2 => some c2
    | none => if mapGet reg c.id = some hd then some c else none

/-- The second loop of `renderNodes` when every card already has a node: only
position writes, through a fixed registry. -/
def writeCard (reg : List (String × Handle)) (es : List Element) (c : Card) : List Element :=
  match mapGet reg c.id with
  | some hd => modifyElement (placeAt c) es hd
  | none => es

/-- Every element that some card of `l` writes to already carries the position
of the last such card. -/
def Settled (reg : List (String × Handle)) (es : List Element) (l : List Card) : Prop :=
  ∀ j e c, es[j]? = some e → lastWriter reg j l = some c → placeAt c e = e

/-! ## Concrete inputs -/

/-- A page with all four elements, the container at the viewport origin, an
`800 x 600` canvas and nodes laid out at `180 x 80`. -/
def demoHost : Host :=
  { graphContainer := true
    graphNodes := true
    graphCanvas := true
    minimapCanvas := true
    containerLeft := 0
    containerTop := 0
    canvasWidth := 800
    canvasHeight := 600
    now := 1
    nodeWidth := fun _ => 180
    nodeHeight := fun _ => 80 }

/-- Card `a` at `(10, 20)`, connected to the missing id `ghost` and to `b`. -/
def demoCardA : Card :=
  { id := "a"
    title := "A"
    typeId := "npc"
    summary := ""
    color := none
    isFavorite := false
    position := some { x := 10, y := 20 }
    connections :=
      [ { targetId := "ghost", relation := "haunts", bidirectional := false },
        { targetId := "b", relation := "knows", bidirectional := true } ]
    updatedAt := 0 }

/-- Card `b` at `(300, 40)`, without connections. -/
def demoCardB : Card :=
  { demoCardA with id := "b", title := "B", position := some { x := 300, y := 40 }, connections := [] }

/-- Card `z` at `(0, 50)`: its x-coordinate is zero. -/
def demoCardZero : Card :=
  { demoCardA with id := "z", title := "Z", position := some { x := 0, y := 50 }, connections := [] }

/-- The module after `init` on `demoHost`, over the cards `a` and `b`. -/
def demoState : State := init demoHost (initialState [demoCardA, demoCardB] [])

/-- The graph of `demoState` after a first `refresh`: nodes `0` (for `a`) and
`1` (for `b`). -/
def demoGraph : State := refresh demoHost demoState

/-- A primary-button event at `(x, y)` on a node. -/
def pointerAt (x y : ℚ) : MouseEvent :=
  { clientX := x, clientY := y, button := 0, onBackground := false }

/-- `demoGraph` in the middle of a drag: node `a`, whose rectangle starts at
`(10, 20)`, was pressed at `(15, 25)` and the pointer then moved to `(60, 71)`,
which puts the node's working position at `(55, 66)`. -/
def demoDrag : State :=
  handleMouseMove demoHost
    (nodeMouseDown demoGraph 0 (pointerAt 15 25) { x := 10, y := 20 })
    (pointerAt 60 71)

/-- The scale invariant of the transform: `MIN_SCALE ≤ scale ≤ MAX_SCALE`. -/
def ScaleOk (s : State) : Prop :=
  MIN_SCALE ≤ s.transform.scale ∧ s.transform.scale ≤ MAX_SCALE

/-- Three events after `init`: zoom in, install the transform
`{3, 4, scale 1/2}`, wheel up at `(100, 100)`. -/
def demoEvents : List (Host × Event) :=
  [ (demoHost, Event.zoom 1),
    (demoHost, Event.setTransform { x := 3, y := 4, scale := 1 / 2 }),
    (demoHost, Event.wheel { deltaY := -1, clientX := 100, clientY := 100 }) ]

/-! ## The edges the specification asks for -/

/-- The node of a card id: the element behind its registry entry. -/
def nodeOf (s : State) (id : String) : Option Element :=
  (mapGet s.nodeElements id).bind (fun hd => s.elements[hd]?)

/-- The edge for a card and one of its connections: present exactly when both
ends have a node, and then drawn between the centres of the two nodes. -/
def edgeOf (s : State) (card : Card) (conn : Connection) : Option EdgeCall :=
  match nodeOf s card.id, nodeOf s conn.targetId with
  | some se, some te =>
    some { source := getNodeCenter se, target := getNodeCenter te, connection := conn }
  | _, _ => none

/-- The edges to draw: for every card, in list order, and every connection of
the card, in list order, the edge of that pair if it has one. -/
def expectedEdges (s : State) : List EdgeCall :=
  s.cards.flatMap (fun card => card.connections.filterMap (edgeOf s card))

/-- Both ends of a connection of `card` have an entry in the registry. -/
def bothRegistered (s : State) (card : Card) (conn : Connection) : Bool :=
  decide (card.id ∈ mapKeys s.nodeElements) && decide (conn.targetId ∈ mapKeys s.nodeElements)

/-! ## The drag gesture -/

/-- The pointer moves of a gesture, each with the host of its moment. -/
def movePointer (s : State) (moves : List (Host × MouseEvent)) : State :=
  moves.foldl (fun acc m => handleMouseMove m.1 acc m.2) s

/-- A whole drag: the press on a node (`startDragNode`), the pointer moves
`moves` followed by the move `last`, and the release under host `up`. -/
def dragGesture (s : State) (element : Handle) (card : Card) (press : MouseEvent)
    (rect : Position) (moves : List (Host × MouseEvent)) (last : Host × MouseEvent)
    (up : Host) : State :=
  handleMouseUp up (movePointer (startDragNode s element card press rect) (moves ++ [last]))

/-- What stays fixed between the press and the release of a drag that started
in `s`: the flags and target of the drag, the grab offset, the transform, the
log of store writes and the size of the element heap. -/
def MidDrag (s : State) (element : Handle) (card : Card) (off : Position) (t : State) : Prop :=
  t.isDragging = true
    ∧ t.dragNode = some { element := element, card := card }
    ∧ t.dragOffset = off
    ∧ t.transform = s.transform
    ∧ t.writeLog = s.writeLog
    ∧ t.elements.length = s.elements.length

/-- The write `element.style.left = x; element.style.top = y` of
`handleMouseMove` (graph.js 357-358). -/
def moveElement (x y : ℚ) (el : Element) : Element := { el with left := x, top := y }

/-- The `x` computed by `handleMouseMove` (graph.js 354). -/
def dragX (h : Host) (t : State) (e : MouseEvent) : ℚ :=
  (e.clientX - h.containerLeft - t.transform.x) / t.transform.scale - t.dragOffset.x

/-- The `y` computed by `handleMouseMove` (graph.js 355). -/
def dragY (h : Host) (t : State) (e : MouseEvent) : ℚ :=
  (e.clientY - h.containerTop - t.transform.y) / t.transform.scale - t.dragOffset.y

/-- `demoGraph` zoomed to scale `2` with no pan: node `a`, stored at
`(10, 20)`, has its rectangle's top-left corner at `(20, 40)` on screen. -/
def demoZoomed : State := setTransform demoGraph { x := 0, y := 0, scale := 2 }

/-! ## The bounding box of `centerGraph` -/

/-- The bounding-box accumulators of `centerGraph` after its loop
(graph.js 593-606). -/
def graphBounds (s : State) : Bounds :=
  s.cards.foldl (growBounds s) { minX := none, minY := none, maxX := none, maxY := none }

/-- The width of a card's node, as the bounding box of the graph takes it: the
`offsetWidth` of the element registered for the card when there is one and its
width is not zero, and `180` otherwise.  Written out case by case, without the
helpers of `growBounds`. -/
def widthOf (s : State) (card : Card) : ℚ :=
  match mapGet s.nodeElements card.id with
  | none => 180
  | some el =>
    match s.elements[el]? with
    | none => 180
    | some e => if e.offsetWidth = 0 then 180 else e.offsetWidth

/-- The height of a card's node, as the bounding box of the graph takes it: the
`offsetHeight` of the element registered for the card when there is one and its
height is not zero, and `80` otherwise. -/
def heightOf (s : State) (card : Card) : ℚ :=
  match mapGet s.nodeElements card.id with
  | none => 80
  | some el =>
    match s.elements[el]? with
    | none => 80
    | some e => if e.offsetHeight = 0 then 80 else e.offsetHeight

/-- A page on which every node is laid out `200 x 90`. -/
def demoHostSized : Host :=
  { demoHost with nodeWidth := fun _ => 200, nodeHeight := fun _ => 90 }

/-- The graph of the cards `a` at `(10, 20)` and `b` at `(300, 40)` on the page
with `200 x 90` nodes, after `init` and a first `refresh`. -/
def demoSized : State :=
  refresh demoHostSized (init demoHostSized (initialState [demoCardA, demoCardB] []))

/-- `m` is the least value of `f` over the cards. -/
def IsMinOver (cards : List Card) (f : Card → ℚ) (m : ℚ) : Prop :=
  (∃ c ∈ cards, f c = m) ∧ ∀ c ∈ cards, m ≤ f c

/-- `m` is the greatest value of `f` over the cards. -/
def IsMaxOver (cards : List Card) (f : Card → ℚ) (m : ℚ) : Prop :=
  (∃ c ∈ cards, f c = m) ∧ ∀ c ∈ cards, f c ≤ m

/-- Node `a` of `demoGraph` pressed and released in place: the selection is
`{a}` and no gesture is in progress. -/
def demoClicked : State :=
  run demoGraph
    [ (demoHost, Event.nodeMouseDown 0 (pointerAt 15 25) { x := 10, y := 20 }),
      (demoHost, Event.mouseUp) ]

/-! ## Gestures: presses and releases -/

/-- The element behind handle `j` carries the `dragging` class. -/
def Marked (es : List Element) (j : Handle) : Prop :=
  ∃ el, es[j]? = some el ∧ el.dragging = true

/-- `t` has the interaction flags, the drag target and the listeners of `s`,
and no `dragging` mark that `s` does not have. -/
def Quiet (s t : State) : Prop :=
  t.isDragging = s.isDragging
    ∧ t.isPanning = s.isPanning
    ∧ t.dragNode = s.dragNode
    ∧ t.listening = s.listening
    ∧ ∀ j, Marked t.elements j → Marked s.elements j

/-- Presses and releases alternate in a sequence of events: no `mousedown`
(on a node or on the container) arrives while an earlier one has not been
followed by a `mouseup` or `mouseleave`.  The flag says whether a press is
pending when the sequence starts. -/
def alternates : Bool → List (Host × Event) → Bool
  | _, [] => true
  | pressed, (_, Event.mouseDown _) :: rest => !pressed && alternates true rest
  | pressed, (_, Event.nodeMouseDown _ _ _) :: rest => !pressed && alternates true rest
  | _, (_, Event.mouseUp) :: rest => alternates false rest
  | _, (_, Event.mouseLeave) :: rest => alternates false rest
  | pressed, (_, Event.refresh) :: rest => alternates pressed rest
  | pressed, (_, Event.render) :: rest => alternates pressed rest
  | pressed, (_, Event.zoom _) :: rest => alternates pressed rest
  | pressed, (_, Event.resetZoom) :: rest => alternates pressed rest
  | pressed, (_, Event.centerGraph) :: rest => alternates pressed rest
  | pressed, (_, Event.autoLayout) :: rest => alternates pressed rest
  | pressed, (_, Event.focusOnCard _) :: rest => alternates pressed rest
  | pressed, (_, Event.setTransform _) :: rest => alternates pressed rest
  | pressed, (_, Event.mouseMove _) :: rest => alternates pressed rest
  | pressed, (_, Event.wheel _) :: rest => alternates pressed rest
  | pressed, (_, Event.storeChanged _ _ _) :: rest => alternates pressed rest

/-- What holds of the interaction state along sequences in which presses and
releases alternate; `pressed` says whether a press is pending.  Panning needs
the container's listeners; with listeners and no pending press the module is
idle and no element is marked; dragging and panning exclude each other; with
listeners, a marked element is the target of the drag in progress. -/
def GestureInv (pressed : Bool) (s : State) : Prop :=
  (s.isPanning = true → s.listening = true)
    ∧ (s.listening = true → pressed = false →
        s.isDragging = false ∧ s.isPanning = false ∧ ∀ j, ¬ Marked s.elements j)
    ∧ ¬ (s.isDragging = true ∧ s.isPanning = true)
    ∧ (s.listening = true → ∀ j, Marked s.elements j →
        s.isDragging = true ∧ ∃ dn, s.dragNode = some dn ∧ dn.element = j)

/-- A press on the background with the secondary button. -/
def backgroundPress : MouseEvent :=
  { clientX := 500, clientY := 400, button := 2, onBackground := true }

/-- After `init` and a first `refresh`: the secondary button goes down on the
background and, while it is held, the primary button goes down on node `a`. -/
def demoTwoButtons : List (Host × Event) :=
  [ (demoHost, Event.refresh),
    (demoHost, Event.mouseDown backgroundPress),
    (demoHost, Event.nodeMouseDown 0 (pointerAt 15 25) { x := 10, y := 20 }) ]

/-- After `init` and a first `refresh`: a primary press on node `a`, a second
primary press on node `b` with no release in between, then the release. -/
def demoTwoPresses : List (Host × Event) :=
  [ (demoHost, Event.refresh),
    (demoHost, Event.nodeMouseDown 0 (pointerAt 15 25) { x := 10, y := 20 }),
    (demoHost, Event.nodeMouseDown 1 (pointerAt 305 45) { x := 300, y := 40 }),
    (demoHost, Event.mouseUp) ]

/-- After `init` and a first `refresh`: a pan gesture, then a drag of node `a`
that is still in progress. -/
def demoGestures : List (Host × Event) :=
  [ (demoHost, Event.refresh),
    (demoHost, Event.mouseDown backgroundPress),
    (demoHost, Event.mouseMove (pointerAt 510 410)),
    (demoHost, Event.mouseUp),
    (demoHost, Event.nodeMouseDown 0 (pointerAt 15 25) { x := 10, y := 20 }),
    (demoHost, Event.mouseMove (pointerAt 60 71)) ]

/-! ## Public operations after a failed `init` -/

/-- The call threw. -/
def threw (r : Except State State) : Bool :=
  match r with
  | .ok _ => false
  | .error _ => true

/-- The event is a call of a public operation that throws in state `s`. -/
def stepThrew (h : Host) (s : State) : Event → Bool
  | Event.zoom d => threw (zoom h s d)
  | Event.centerGraph => threw (centerGraph h s)
  | Event.autoLayout => threw (autoLayout h s)
  | Event.focusOnCard cardId => threw (focusOnCard h s cardId)
  | _ => false

/-- The public operations `refresh`, `render` and `resetZoom`. -/
def isPassiveOp : Event → Bool
  | Event.refresh => true
  | Event.render => true
  | Event.resetZoom => true
  | _ => false

/-- The public operations other than `zoom` and `setTransform`. -/
def isOpExceptZoom : Event → Bool
  | Event.refresh => true
  | Event.render => true
  | Event.resetZoom => true
  | Event.centerGraph => true
  | Event.autoLayout => true
  | Event.focusOnCard _ => true
  | _ => false

/-- The type `npc`. -/
def demoType : CardType := { id := "npc", name := "NPC", icon := "", color := "#f59e0b" }

/-- A page with the container and the nodes element but no canvas. -/
def demoHostNoCanvas : Host := { demoHost with graphCanvas := false }

/-- A page with neither canvas nor nodes element. -/
def demoHostBare : Host := { demoHost with graphCanvas := false, graphNodes := false }

/-- The module after `init` on the page without canvas, over cards `a` and `b`
of type `npc`. -/
def demoDisabled : State := init demoHostNoCanvas (initialState [demoCardA, demoCardB] [demoType])

/-- With no card, no node and the initial transform, nothing a public operation
other than `zoom` does can be seen in the transform, the registry or the
store. -/
def EmptyGraph (s : State) : Prop :=
  s.cards = [] ∧ s.nodeElements = [] ∧ s.transform = { x := 0, y := 0, scale := 1 }

/-! ## The layout `autoLayout` computes -/

/-- The non-empty groups, in the order in which `autoLayout` visits them. -/
def placedGroups (cards : List Card) (types : List CardType) : List (String × List Card) :=
  (objectEntries (groupByType cards types)).filter (fun g => !g.2.isEmpty)

/-- The position writes for the cards of column `k`: the card of index `i`
goes to `(50 + 250 * k, 50 + 130 * i)`. -/
def columnWrites (k : Nat) (cs : List Card) : List (String × Position) :=
  cs.enum.map (fun e => (e.2.id, { x := 50 + 250 * (k : ℚ), y := 50 + 130 * (e.1 : ℚ) }))

/-- The position writes of a whole layout: column `k` is the `k`-th non-empty
group. -/
def layoutPlan (cards : List Card) (types : List CardType) : List (String × Position) :=
  (placedGroups cards types).enum.flatMap (fun e => columnWrites e.1 e.2.2)

/-- The writes of the loop over the groups (graph.js 640-659), started at
`columnX = x`. -/
def planFrom (x : ℚ) : List (String × List Card) → List (String × Position)
  | [] => []
  | g :: rest =>
    if g.2.length = 0 then planFrom x rest
    else g.2.enum.map (fun e => (e.2.id, { x := x, y := 50 + (e.1 : ℚ) * (100 + 30) }))
      ++ planFrom (x + 250) rest

/-- A card with the given id and type id, stored at `(7, 7)`. -/
def cardOf (id typeId : String) : Card :=
  { demoCardA with
    id := id
    title := id
    typeId := typeId
    position := some { x := 7, y := 7 }
    connections := [] }

/-- A type with the given id. -/
def typeOf (id : String) : CardType := { id := id, name := id, icon := "", color := "" }

/-- Three types `t1`, `t2`, `t3` holding two, zero and three cards. -/
def demoLayoutState : State :=
  init demoHost (initialState
    [cardOf "c1" "t1", cardOf "c2" "t3", cardOf "c3" "t1", cardOf "c4" "t3", cardOf "c5" "t3"]
    [typeOf "t1", typeOf "t2", typeOf "t3"])

/-- Two types whose ids are array indices, declared in the order `10`, `2`, with
one card each. -/
def demoIndexState : State :=
  init demoHost (initialState [cardOf "k10" "10", cardOf "k2" "2"] [typeOf "10", typeOf "2"])

/-- Card `a1` of the declared type `npc` and card `o1` whose type id `orphan`
matches no type. -/
def demoOrphanState : State :=
  init demoHost (initialState [cardOf "a1" "npc", cardOf "o1" "orphan"] [typeOf "npc"])

/-- The update `{ ...card, position, updatedAt: Date.now() }` of
`DataManager.updateCard` (data.js 155-159). -/
def withPosition (now : Nat) (p : Position) (c : Card) : Card :=
  { c with position := some p, updatedAt := now }

/-- The store after a sequence of position writes. -/
def applyWrites (now : Nat) (cards : List Card) (writes : List (String × Position)) : List Card :=
  writes.foldl (fun cs w => replaceCard cs w.1 (withPosition now w.2)) cards

/-- The card's type id is the id of a declared type. -/
def hasDeclaredType (types : List CardType) (c : Card) : Bool :=
  decide (c.typeId ∈ types.map (fun t => t.id))

/-! ## One edge: `drawConnection` -/

/-- The path `moveTo(start)` then `bezierCurveTo(control1, control2, stop)`
(graph.js 241-252). -/
structure Curve where
  start : Position
  control1 : Position
  control2 : Position
  stop : Position
deriving DecidableEq, Repr

/-- A call `fillText(text, x, y)` (graph.js 282). -/
structure Label where
  text : String
  x : ℚ
  y : ℚ
deriving DecidableEq, Repr

/-- What one call of `drawConnection` draws: the curve and, when present, the
relation label.  The two arrowhead strokes (graph.js 259-273) leave `to` along
angles computed with `Math.atan2`, `Math.cos` and `Math.sin`, which have no
rational values; they are not part of the record. -/
structure EdgeDrawing where
  curve : Curve
  label : Option Label
deriving DecidableEq, Repr

/-- `drawConnection(from, to, connection)` (graph.js 234-284); `0.3` is `3/10`
and `0.6` is `3/5`.  A string is truthy when it is not empty. -/
def drawConnection (s : State) (fromPos toPos : Position) (connection : Connection) :
    EdgeDrawing :=
  let dx := toPos.x - fromPos.x
  let dy := toPos.y - fromPos.y
  let midX := (fromPos.x + toPos.x) / 2
  let midY := (fromPos.y + toPos.y) / 2
  let offset := min (abs dx) (abs dy) * (3 / 10)
  { curve :=
      { start := fromPos
        control1 := { x := midX, y := fromPos.y + offset }
        control2 := { x := midX, y := toPos.y - offset }
        stop := toPos }
    label :=
      if connection.relation ≠ "" ∧ s.transform.scale > 3 / 5 then
        some { text := connection.relation, x := midX, y := midY - 5 }
      else none }

/-- What `render` draws for the edges (graph.js 198, 208-226): one
`drawConnection` per call collected by `drawConnections`. -/
def drawnEdges (s : State) : List EdgeDrawing :=
  (drawConnections s).map (fun c => drawConnection s c.source c.target c.connection)

/-- The point at parameter `t` of the cubic Bezier curve that the Canvas 2D
`bezierCurveTo` adds to the path:
`(1-t)^3 P0 + 3 (1-t)^2 t P1 + 3 (1-t) t^2 P2 + t^3 P3`. -/
def bezierPoint (c : Curve) (t : ℚ) : Position :=
  { x := (1 - t) ^ 3 * c.start.x + 3 * (1 - t) ^ 2 * t * c.control1.x
      + 3 * (1 - t) * t ^ 2 * c.control2.x + t ^ 3 * c.stop.x
    y := (1 - t) ^ 3 * c.start.y + 3 * (1 - t) ^ 2 * t * c.control1.y
      + 3 * (1 - t) * t ^ 2 * c.control2.y + t ^ 3 * c.stop.y }

/-- Point `p` lies on the straight line through `a` and `b`: the vectors
`b - a` and `p - a` are parallel. -/
def onLine (a b p : Position) : Prop :=
  (b.x - a.x) * (p.y - a.y) = (b.y - a.y) * (p.x - a.x)

/-! ## Minimap -/

/-- A drawing call on the 2D context of the minimap. -/
inductive DrawOp where
  | clearRect (x y w h : ℚ)
  | fillRect (fillStyle : String) (x y w h : ℚ)
  | strokeRect (strokeStyle : String) (x y w h : ℚ)
deriving DecidableEq, Repr

/-- The `minimapCanvas.width` that `updateMinimap` reads.  `minimapCtx` is only
assigned by an `init` that goes on to call `resizeCanvas` (graph.js 56-59, 76),
which sets the width to `160` (graph.js 91); past the guard of `updateMinimap`
the width is therefore `160`. -/
def minimapWidth : ℚ := 160

/-- The `minimapCanvas.height` that `updateMinimap` reads, set to `120` by
`resizeCanvas` (graph.js 92). -/
def minimapHeight : ℚ := 120

/-- The body of the first loop of `updateMinimap` (graph.js 684-690). -/
def minimapGrow (b : Bounds) (card : Card) : Bounds :=
  let pos := positionOrOrigin card
  { minX := minInto b.minX pos.x
    minY := minInto b.minY pos.y
    maxX := maxInto b.maxX (pos.x + 180)
    maxY := maxInto b.maxY (pos.y + 80) }

/-- The accumulators `minX, minY, maxX, maxY` of `updateMinimap` after its first
loop (graph.js 681-690). -/
def minimapBounds (cards : List Card) : Bounds :=
  cards.foldl minimapGrow { minX := none, minY := none, maxX := none, maxY := none }

/-- The `scale` of `updateMinimap` (graph.js 692-697) from the finished
accumulators. -/
def minimapScale (minX minY maxX maxY : ℚ) : ℚ :=
  let worldWidth := maxX - minX + 100
  let worldHeight := maxY - minY + 100
  min (minimapWidth / worldWidth) (minimapHeight / worldHeight)

/-- The body of the second loop of `updateMinimap` (graph.js 700-711): the
`fillRect` of one card. -/
def minimapNode (types : List CardType) (minX minY scale : ℚ) (card : Card) : DrawOp :=
  let pos := positionOrOrigin card
  let type := getTypeById types card.typeId
  let fillStyle := stringOr card.color (stringOr (type.map (fun t => t.color)) "#6366f1")
  .fillRect fillStyle ((pos.x - minX) * scale + 5) ((pos.y - minY) * scale + 5)
    (180 * scale) (80 * scale)

/-- `updateMinimap` (graph.js 672-722): the drawing calls issued on the minimap
context, in order.  With cards present the accumulators are finite after the
loop.  Reading `canvas.width` throws when `canvas` is `null`; the error value
holds the calls issued before the throw.  A division by a zero
`transform.scale` gives `0` here and an infinite or `NaN` viewport in the
browser. -/
def updateMinimap (h : Host) (s : State) : Except (List DrawOp) (List DrawOp) :=
  if !s.minimapCtx || !s.minimapCanvas then .ok []
  else
    let cleared := [DrawOp.clearRect 0 0 minimapWidth minimapHeight]
    let cards := s.cards
    if cards.length = 0 then .ok cleared
    else
      let b := minimapBounds cards
      let minX := b.minX.getD 0
      let minY := b.minY.getD 0
      let maxX := b.maxX.getD 0
      let maxY := b.maxY.getD 0
      let scale := minimapScale minX minY maxX maxY
      let nodes := cards.map (minimapNode s.types minX minY scale)
      let viewportX := (-s.transform.x / s.transform.scale - minX) * scale + 5
      let viewportY := (-s.transform.y / s.transform.scale - minY) * scale + 5
      if !s.canvas then .error (cleared ++ nodes)
      else
        let viewportW := (h.canvasWidth / s.transform.scale) * scale
        let viewportH := (h.canvasHeight / s.transform.scale) * scale
        .ok (cleared ++ nodes ++ [DrawOp.strokeRect "#6366f1" viewportX viewportY viewportW viewportH])

/-- The calls issued by a run that returned or threw. -/
def issued (r : Except (List DrawOp) (List DrawOp)) : List DrawOp :=
  match r with
  | .ok ops => ops
  | .error ops => ops

/-- The call fills or strokes, that is, it draws. -/
def DrawOp.draws (op : DrawOp) : Bool :=
  match op with
  | .clearRect _ _ _ _ => false
  | .fillRect _ _ _ _ _ => true
  | .strokeRect _ _ _ _ _ => true

/-- The rectangles `(x, y, w, h)` of the `fillRect` calls, in order. -/
def fillRects (ops : List DrawOp) : List (ℚ × ℚ × ℚ × ℚ) :=
  ops.filterMap (fun op =>
    match op with
    | .fillRect _ x y w h => some (x, y, w, h)
    | _ => none)

/-- The rectangle `(x, y, w, h)` lies within the minimap canvas
`[0, 160] x [0, 120]`. -/
def insideMinimap (r : ℚ × ℚ × ℚ × ℚ) : Prop :=
  0 ≤ r.1 ∧ 0 ≤ r.2.1 ∧ r.1 + r.2.2.1 ≤ minimapWidth ∧ r.2.1 + r.2.2.2 ≤ minimapHeight

/-! ## The store's `updateCard` with its return value -/

/-- `DataManager.updateCard(cardId, { position })` (data.js 151-166) on the card
array: the array afterwards and the returned value, `none` for `null`. -/
def dataUpdateCard (now : Nat) (cards : List Card) (cardId : String) (position : Position) :
    List Card × Option Card :=
  match cards.findIdx? (fun c => decide (c.id = cardId)) with
  | none => (cards, none)
  | some index =>
    match cards[index]? with
    | none => (cards, none)
    | some card =>
      let updatedCard := { card with position := some position, updatedAt := now }
      (cards.set index updatedCard, some updatedCard)

/-- Card `d` agrees with card `c` on every field other than `position` and
`updatedAt`. -/
def sameButPosition (c d : Card) : Prop :=
  d.id = c.id ∧ d.title = c.title ∧ d.typeId = c.typeId ∧ d.summary = c.summary
    ∧ d.color = c.color ∧ d.isFavorite = c.isFavorite ∧ d.connections = c.connections

/-- A pointer event at `(x, y)` on the background. -/
def panTo (x y : ℚ) : MouseEvent :=
  { clientX := x, clientY := y, button := 0, onBackground := true }

/-- Two cards `4000` apart in x: `w0` at the origin and `w1` at `(4000, 0)`. -/
def demoWide : State :=
  init demoHost (initialState
    [ { demoCardB with id := "w0", position := some { x := 0, y := 0 } },
      { demoCardB with id := "w1", position := some { x := 4000, y := 0 } } ] [])

/-- The module after `init` on `demoHost` with an empty store. -/
def demoEmpty : State := init demoHost (initialState [] [])

/-- The `worldWidth` of `updateMinimap` (graph.js 692). -/
def worldWidth (cards : List Card) : ℚ :=
  (minimapBounds cards).maxX.getD 0 - (minimapBounds cards).minX.getD 0 + 100

/-- The `worldHeight` of `updateMinimap` (graph.js 693). -/
def worldHeight (cards : List Card) : ℚ :=
  (minimapBounds cards).maxY.getD 0 - (minimapBounds cards).minY.getD 0 + 100

/-- Two cards that share the id `x`, both of type `t1` and stored at `(7, 7)`. -/
def demoTwinState : State :=
  init demoHost (initialState [cardOf "x" "t1", cardOf "x" "t1"] [typeOf "t1"])

/-! # Properties -/

/-! ## Coordinate transform: zoom -/

@[simp]
theorem applyTransform_transform (s : State) : (applyTransform s).transform = s.transform := by
  unfold applyTransform
  split <;> rfl

theorem clamp_ge (v lo hi : ℚ) (h : lo ≤ hi) : lo ≤ clamp v lo hi := by
  unfold clamp
  exact le_min (le_max_right v lo) h

theorem clamp_le (v lo hi : ℚ) : clamp v lo hi ≤ hi := by
  unfold clamp
  exact min_le_right _ _

theorem min_le_max_scale : MIN_SCALE ≤ MAX_SCALE := by
  unfold MIN_SCALE MAX_SCALE
  norm_num

theorem zoomAt_scale (s : State) (d px py : ℚ) :
    (zoomAt s d px py).transform.scale
      = clamp (s.transform.scale * (1 + d * ZOOM_SPEED)) MIN_SCALE MAX_SCALE := by
  simp [zoomAt]

theorem zoomAt_scale_pos (s : State) (d px py : ℚ) : 0 < (zoomAt s d px py).transform.scale := by
  rw [zoomAt_scale]
  have h := clamp_ge (s.transform.scale * (1 + d * ZOOM_SPEED)) MIN_SCALE MAX_SCALE min_le_max_scale
  have h0 : (0 : ℚ) < MIN_SCALE := by unfold MIN_SCALE; norm_num
  exact lt_of_lt_of_le h0 h

/-- C1.  Zoom keeps the point under the cursor fixed: for every transform
`(x, y, s)` with `s ≠ 0`, every screen point `(px, py)` and every direction (in
particular `+1` and `-1`), the transform `(x', y', s')` after `zoomAt` satisfies
`((px - x') / s', (py - y') / s') = ((px - x) / s, (py - y) / s)`, over exact
rational arithmetic, also when the new scale is clamped. -/
theorem zoomAt_keeps_cursor_point (s : State) (d px py : ℚ) (hs : s.transform.scale ≠ 0) :
    ((px - (zoomAt s d px py).transform.x) / (zoomAt s d px py).transform.scale,
      (py - (zoomAt s d px py).transform.y) / (zoomAt s d px py).transform.scale)
      = ((px - s.transform.x) / s.transform.scale, (py - s.transform.y) / s.transform.scale) := by
  have hpos := zoomAt_scale_pos s d px py
  have hne : clamp (s.transform.scale * (1 + d * ZOOM_SPEED)) MIN_SCALE MAX_SCALE ≠ 0 := by
    rw [← zoomAt_scale s d px py]
    exact ne_of_gt hpos
  simp only [zoomAt, applyTransform_transform]
  congr 1 <;> field_simp <;> ring

/-- C2.  For every starting state and every sequence of `zoomAt` calls, the
scale after each call (the call `c` that follows any prefix `pre`) is
`clamp(oldScale * (1 + d * 0.1), 0.25, 2)` and lies in `[0.25, 2]`; so repeated
zoom-out never goes below `0.25` and repeated zoom-in never exceeds `2`. -/
theorem zoomSeq_scale_clamped (s : State) (pre : List ZoomCall) (c : ZoomCall) :
    (zoomSeq s (pre ++ [c])).transform.scale
        = clamp ((zoomSeq s pre).transform.scale * (1 + c.direction * (1 / 10))) (1 / 4) 2
      ∧ (1 / 4 : ℚ) ≤ (zoomSeq s (pre ++ [c])).transform.scale
      ∧ (zoomSeq s (pre ++ [c])).transform.scale ≤ 2 := by
  have hstep : zoomSeq s (pre ++ [c]) = zoomAt (zoomSeq s pre) c.direction c.x c.y := by
    simp [zoomSeq, List.foldl_append]
  rw [hstep, zoomAt_scale]
  refine ⟨by simp [ZOOM_SPEED, MIN_SCALE, MAX_SCALE], ?_, ?_⟩
  · have h := clamp_ge ((zoomSeq s pre).transform.scale * (1 + c.direction * ZOOM_SPEED))
      MIN_SCALE MAX_SCALE min_le_max_scale
    simpa [MIN_SCALE] using h
  · have h := clamp_le ((zoomSeq s pre).transform.scale * (1 + c.direction * ZOOM_SPEED))
      MIN_SCALE MAX_SCALE
    simpa [MAX_SCALE] using h

/-! ## Frames -/

theorem RenderFrame.refl (s : State) : RenderFrame s s := rfl

theorem RenderFrame.trans {s t u : State} (h1 : RenderFrame s t) (h2 : RenderFrame t u) :
    RenderFrame s u := by
  unfold RenderFrame at *
  rw [h2, h1]

theorem RenderFrame.foldl {α : Type} (f : State → α → State)
    (hf : ∀ s a, RenderFrame s (f s a)) (l : List α) (s : State) :
    RenderFrame s (l.foldl f s) := by
  induction l generalizing s with
  | nil => exact RenderFrame.refl s
  | cons a l ih => exact RenderFrame.trans (hf s a) (ih (f s a))

theorem applyTransform_frame (s : State) : RenderFrame s (applyTransform s) := by
  unfold applyTransform RenderFrame
  split <;> rfl

theorem removeStale_frame (cards : List Card) (s : State) (e : String × Handle) :
    RenderFrame s (removeStale cards s e) := by
  unfold removeStale RenderFrame
  split <;> rfl

theorem addOrUpdate_frame (h : Host) (s : State) (c : Card) :
    RenderFrame s (addOrUpdate h s c) := by
  unfold addOrUpdate RenderFrame
  split <;> rfl

theorem renderNodes_frame (h : Host) (s : State) : RenderFrame s (renderNodes h s) := by
  unfold renderNodes
  split
  · exact RenderFrame.refl s
  · exact RenderFrame.trans
      (RenderFrame.trans (RenderFrame.foldl _ (removeStale_frame s.cards) _ s)
        (RenderFrame.foldl _ (addOrUpdate_frame h) _ _))
      (applyTransform_frame _)

/-! ## The registry as a map -/

theorem mapGet_eq_none_iff {α : Type} (m : List (String × α)) (k : String) :
    mapGet m k = none ↔ k ∉ mapKeys m := by
  induction m with
  | nil => simp [mapGet, mapKeys]
  | cons e m ih =>
    obtain ⟨k0, v0⟩ := e
    unfold mapGet
    by_cases hk : k0 = k
    · simp [hk, mapKeys]
    · have hk2 : ¬ k = k0 := fun h => hk h.symm
      simp only [hk, if_false, ih]
      simp [mapKeys, hk2]

theorem mapGet_mem {α : Type} (m : List (String × α)) (k : String) (v : α)
    (h : mapGet m k = some v) : (k, v) ∈ m := by
  induction m with
  | nil => simp [mapGet] at h
  | cons e m ih =>
    obtain ⟨k0, v0⟩ := e
    unfold mapGet at h
    by_cases hk : k0 = k
    · simp only [hk, if_true, Option.some.injEq] at h
      simp [hk, h]
    · simp only [hk, if_false] at h
      exact List.mem_cons_of_mem _ (ih h)

theorem mapGet_of_mem {α : Type} (m : List (String × α)) (k : String) (v : α)
    (hnd : (mapKeys m).Nodup) (h : (k, v) ∈ m) : mapGet m k = some v := by
  induction m with
  | nil => simp at h
  | cons e m ih =>
    obtain ⟨k0, v0⟩ := e
    simp only [mapKeys, List.map_cons, List.nodup_cons] at hnd
    unfold mapGet
    rcases List.mem_cons.mp h with heq | hin
    · simp only [Prod.mk.injEq] at heq
      simp [heq.1, heq.2]
    · have hne : k0 ≠ k := by
        intro hk
        apply hnd.1
        rw [hk]
        exact List.mem_map_of_mem Prod.fst hin
      simp only [hne, if_false]
      exact ih hnd.2 hin

theorem mapDelete_eq_filter {α : Type} (m : List (String × α)) (k : String) :
    mapDelete m k = m.filter (fun e => !decide (e.1 = k)) := by
  induction m with
  | nil => rfl
  | cons e m ih =>
    obtain ⟨k0, v0⟩ := e
    unfold mapDelete
    by_cases hk : k0 = k
    · simp [hk, ih]
    · simp [hk, ih]

theorem mapSet_of_not_mem {α : Type} (m : List (String × α)) (k : String) (v : α)
    (h : k ∉ mapKeys m) : mapSet m k v = m ++ [(k, v)] := by
  induction m with
  | nil => rfl
  | cons e m ih =>
    obtain ⟨k0, v0⟩ := e
    simp only [mapKeys, List.map_cons, List.mem_cons, not_or] at h
    unfold mapSet
    have hne : ¬ k0 = k := fun hk => h.1 hk.symm
    simp only [hne, if_false, List.cons_append, List.cons.injEq, true_and]
    exact ih h.2

theorem mapGet_append_single {α : Type} (m : List (String × α)) (k k2 : String) (v : α) :
    mapGet (m ++ [(k, v)]) k2
      = match mapGet m k2 with
        | some w => some w
        | none => if k = k2 then some v else none := by
  induction m with
  | nil => simp [mapGet]
  | cons e m ih =>
    obtain ⟨k0, v0⟩ := e
    simp only [List.cons_append]
    unfold mapGet
    by_cases hk : k0 = k2
    · simp [hk]
    · simp only [hk, if_false]
      exact ih

theorem modifyElement_length (f : Element → Element) (es : List Element) (i : Handle) :
    (modifyElement f es i).length = es.length := by
  induction es generalizing i with
  | nil => rfl
  | cons e es ih =>
    cases i with
    | zero => rfl
    | succ n => simp [modifyElement, ih]

theorem getElem?_modifyElement (f : Element → Element) (es : List Element) (i j : Handle) :
    (modifyElement f es i)[j]? = if i = j then (es[j]?).map f else es[j]? := by
  induction es generalizing i j with
  | nil => cases i <;> simp [modifyElement]
  | cons e es ih =>
    cases i with
    | zero =>
      cases j with
      | zero => simp [modifyElement]
      | succ m => simp [modifyElement]
    | succ n =>
      cases j with
      | zero => simp [modifyElement]
      | succ m => simp [modifyElement, ih]

/-! ## The two loops of `renderNodes` -/

theorem find_isNone_iff (cards : List Card) (id : String) :
    (cards.find? (fun c => decide (c.id = id))).isNone = true ↔ id ∉ cards.map (fun c => c.id) := by
  induction cards with
  | nil => simp
  | cons c cards ih =>
    by_cases hc : c.id = id
    · simp [List.find?, hc]
    · have hc2 : ¬ id = c.id := fun h => hc h.symm
      simp only [List.find?, hc, decide_False, List.map_cons, List.mem_cons, hc2, false_or]
      exact ih

theorem removeStale_nodeElements (cards : List Card) (s : State) (e : String × Handle) :
    (removeStale cards s e).nodeElements
      = s.nodeElements.filter
          (fun x => !(decide (x.1 = e.1) && (cards.find? (fun c => decide (c.id = e.1))).isNone)) := by
  unfold removeStale
  split
  · rename_i hst
    simp [mapDelete_eq_filter, hst]
  · rename_i hst
    simp only [Bool.not_eq_true] at hst
    simp [hst]

theorem removeStale_elements_length (cards : List Card) (s : State) (e : String × Handle) :
    (removeStale cards s e).elements.length = s.elements.length := by
  unfold removeStale
  split
  · simp [modifyElement_length]
  · rfl

theorem foldl_removeStale_elements_length (cards : List Card) (l : List (String × Handle))
    (s : State) : (l.foldl (removeStale cards) s).elements.length = s.elements.length := by
  induction l generalizing s with
  | nil => rfl
  | cons a l ih => simp [List.foldl, ih, removeStale_elements_length]

theorem foldl_removeStale_sublist (cards : List Card) (l : List (String × Handle)) (s : State) :
    (l.foldl (removeStale cards) s).nodeElements.Sublist s.nodeElements := by
  induction l generalizing s with
  | nil => exact List.Sublist.refl _
  | cons a l ih =>
    refine List.Sublist.trans (ih (removeStale cards s a)) ?_
    rw [removeStale_nodeElements]
    exact List.filter_sublist _

theorem foldl_removeStale_mem (cards : List Card) (l : List (String × Handle)) (s : State)
    (x : String × Handle) :
    x ∈ (l.foldl (removeStale cards) s).nodeElements
      ↔ x ∈ s.nodeElements
        ∧ ¬ (x.1 ∈ mapKeys l ∧ x.1 ∉ cards.map (fun c => c.id)) := by
  induction l generalizing s with
  | nil => simp [mapKeys]
  | cons a l ih =>
    simp only [List.foldl]
    rw [ih, removeStale_nodeElements, List.mem_filter]
    simp only [Bool.not_eq_true', Bool.and_eq_false_imp, decide_eq_true_eq, mapKeys,
      List.map_cons, List.mem_cons]
    have hst := find_isNone_iff cards a.1
    constructor
    · rintro ⟨⟨hx, hna⟩, hnl⟩
      refine ⟨hx, ?_⟩
      rintro ⟨h1 | h1, h2⟩
      · have := hna h1
        rw [h1] at h2
        have h3 := hst.mpr h2
        rw [h3] at this
        exact Bool.noConfusion this
      · exact hnl ⟨h1, h2⟩
    · rintro ⟨hx, hn⟩
      refine ⟨⟨hx, ?_⟩, ?_⟩
      · intro h1
        by_contra hc
        have h2 : (cards.find? (fun c => decide (c.id = a.1))).isNone = true := by
          cases hh : (cards.find? (fun c => decide (c.id = a.1))).isNone
          · exact absurd hh hc
          · rfl
        exact hn ⟨Or.inl h1, h1 ▸ hst.mp h2⟩
      · rintro ⟨h1, h2⟩
        exact hn ⟨Or.inr h1, h2⟩

theorem addOrUpdate_keys (h : Host) (s : State) (c : Card) :
    mapKeys (addOrUpdate h s c).nodeElements
      = if c.id ∈ mapKeys s.nodeElements then mapKeys s.nodeElements
        else mapKeys s.nodeElements ++ [c.id] := by
  unfold addOrUpdate
  split
  · rename_i hget
    have hnot := (mapGet_eq_none_iff _ _).mp hget
    rw [if_neg hnot]
    show mapKeys (mapSet s.nodeElements c.id s.elements.length) = _
    rw [mapSet_of_not_mem _ _ _ hnot]
    simp [mapKeys]
  · rename_i el hget
    have hin : c.id ∈ mapKeys s.nodeElements := by
      by_contra hc
      rw [(mapGet_eq_none_iff _ _).mpr hc] at hget
      exact Option.noConfusion hget
    simp [hin]

theorem foldl_addOrUpdate_keys_mem (h : Host) (l : List Card) (s : State) (id : String) :
    id ∈ mapKeys (l.foldl (addOrUpdate h) s).nodeElements
      ↔ id ∈ mapKeys s.nodeElements ∨ id ∈ l.map (fun c => c.id) := by
  induction l generalizing s with
  | nil => simp
  | cons c l ih =>
    simp only [List.foldl]
    rw [ih, addOrUpdate_keys]
    by_cases hc : c.id ∈ mapKeys s.nodeElements
    · simp only [hc, if_true, List.map_cons, List.mem_cons]
      constructor
      · rintro (h1 | h1)
        · exact Or.inl h1
        · exact Or.inr (Or.inr h1)
      · rintro (h1 | h1 | h1)
        · exact Or.inl h1
        · exact Or.inl (h1 ▸ hc)
        · exact Or.inr h1
    · simp only [hc, if_false, List.mem_append, List.mem_singleton, List.map_cons, List.mem_cons]
      tauto

theorem foldl_addOrUpdate_keys_nodup (h : Host) (l : List Card) (s : State)
    (hnd : (mapKeys s.nodeElements).Nodup) :
    (mapKeys (l.foldl (addOrUpdate h) s).nodeElements).Nodup := by
  induction l generalizing s with
  | nil => exact hnd
  | cons c l ih =>
    simp only [List.foldl]
    apply ih
    rw [addOrUpdate_keys]
    by_cases hc : c.id ∈ mapKeys s.nodeElements
    · simpa [hc] using hnd
    · simp only [hc, if_false]
      rw [List.nodup_append]
      refine ⟨hnd, List.nodup_singleton _, ?_⟩
      intro x hx hx2
      rw [List.mem_singleton] at hx2
      exact hc (hx2 ▸ hx)

theorem applyTransform_nodeElements (s : State) :
    (applyTransform s).nodeElements = s.nodeElements := by
  unfold applyTransform
  split <;> rfl

theorem applyTransform_elements (s : State) : (applyTransform s).elements = s.elements := by
  unfold applyTransform
  split <;> rfl

/-! ## Reconcile is idempotent -/

theorem addOrUpdate_some (h : Host) (s : State) (c : Card) (hd : Handle)
    (hget : mapGet s.nodeElements c.id = some hd) :
    addOrUpdate h s c = { s with elements := modifyElement (placeAt c) s.elements hd } := by
  unfold addOrUpdate
  rw [hget]
  rfl

theorem addOrUpdate_none (h : Host) (s : State) (c : Card)
    (hget : mapGet s.nodeElements c.id = none) :
    addOrUpdate h s c = { s with
      elements := s.elements ++ [{ renderGraphNode h s.types c with attached := true }]
      nodeElements := s.nodeElements ++ [(c.id, s.elements.length)]
      createdLog := s.createdLog ++ [c.id] } := by
  unfold addOrUpdate
  rw [hget]
  simp only
  rw [mapSet_of_not_mem _ _ _ ((mapGet_eq_none_iff _ _).mp hget)]

theorem lastWriter_append (reg : List (String × Handle)) (hd : Handle) (l : List Card) (c : Card) :
    lastWriter reg hd (l ++ [c])
      = if mapGet reg c.id = some hd then some c else lastWriter reg hd l := by
  induction l with
  | nil => simp [lastWriter]
  | cons a l ih =>
    show (match lastWriter reg hd (l ++ [c]) with
      | some c2 => some c2
      | none => if mapGet reg a.id = some hd then some a else none) = _
    rw [ih]
    simp only [lastWriter]
    by_cases hc : mapGet reg c.id = some hd
    · simp [hc]
    · simp [hc]

theorem lastWriter_congr (reg reg2 : List (String × Handle)) (hd : Handle) (l : List Card)
    (hcongr : ∀ c ∈ l, (mapGet reg c.id = some hd ↔ mapGet reg2 c.id = some hd)) :
    lastWriter reg hd l = lastWriter reg2 hd l := by
  induction l with
  | nil => rfl
  | cons a l ih =>
    simp only [lastWriter]
    rw [ih (fun c hc => hcongr c (List.mem_cons_of_mem _ hc))]
    have ha := hcongr a (List.mem_cons_self _ _)
    by_cases h1 : mapGet reg a.id = some hd
    · rw [if_pos h1, if_pos (ha.mp h1)]
    · rw [if_neg h1, if_neg (fun h2 => h1 (ha.mpr h2))]

theorem getElem?_foldl_writeCard (reg : List (String × Handle)) (l : List Card)
    (es : List Element) (j : Handle) :
    (l.foldl (writeCard reg) es)[j]?
      = (es[j]?).map (fun e =>
          match lastWriter reg j l with
          | some c => placeAt c e
          | none => e) := by
  induction l generalizing es with
  | nil => simp [lastWriter]
  | cons c l ih =>
    simp only [List.foldl]
    rw [ih]
    unfold writeCard
    simp only [lastWriter]
    cases hget : mapGet reg c.id with
    | none =>
      simp only
      cases lastWriter reg j l <;> simp
    | some hd =>
      simp only [getElem?_modifyElement]
      by_cases hj : hd = j
      · subst hj
        simp only [if_true, Option.map_map]
        cases lastWriter reg hd l with
        | none => rfl
        | some c2 =>
          congr 1
      · have hne : ¬ (some hd = some j) := fun hh => hj (Option.some.inj hh)
        simp only [hj, if_false, hne]
        cases lastWriter reg j l <;> rfl

theorem foldl_writeCard_of_settled (reg : List (String × Handle)) (l : List Card)
    (es : List Element) (hs : Settled reg es l) : l.foldl (writeCard reg) es = es := by
  apply List.ext_getElem?
  intro j
  rw [getElem?_foldl_writeCard]
  cases he : es[j]? with
  | none => rfl
  | some e =>
    simp only [Option.map_some', Option.some.injEq]
    cases hl : lastWriter reg j l with
    | none => rfl
    | some c => exact hs j e c he hl

theorem mapGet_of_mem_keys {α : Type} (m : List (String × α)) (k : String)
    (h : k ∈ mapKeys m) : ∃ v, mapGet m k = some v := by
  cases hget : mapGet m k with
  | none => exact absurd h ((mapGet_eq_none_iff m k).mp hget)
  | some v => exact ⟨v, rfl⟩

theorem foldl_addOrUpdate_settled (h : Host) (l : List Card) (s : State) :
    Settled (l.foldl (addOrUpdate h) s).nodeElements (l.foldl (addOrUpdate h) s).elements l := by
  induction l using List.reverseRecOn with
  | nil =>
    intro j e c _ hl
    simp [lastWriter] at hl
  | append_singleton l c ih =>
    rw [List.foldl_append]
    simp only [List.foldl]
    generalize l.foldl (addOrUpdate h) s = t at ih ⊢
    intro j e c0 he hl
    rw [lastWriter_append] at hl
    cases hget : mapGet t.nodeElements c.id with
    | some hd =>
      rw [addOrUpdate_some h t c hd hget] at he hl
      simp only at he hl
      rw [hget] at hl
      rw [getElem?_modifyElement] at he
      by_cases hj : hd = j
      · subst hj
        simp only [if_true, Option.some.injEq] at hl he
        subst hl
        cases he0 : t.elements[hd]? with
        | none => rw [he0] at he; simp at he
        | some e0 =>
          rw [he0] at he
          simp only [Option.map_some', Option.some.injEq] at he
          rw [← he]
          rfl
      · have hne : ¬ (some hd = some j) := fun hh => hj (Option.some.inj hh)
        simp only [hj, if_false, hne] at he hl
        exact ih j e c0 he hl
    | none =>
      rw [addOrUpdate_none h t c hget] at he hl
      simp only at he hl
      have hnew : mapGet (t.nodeElements ++ [(c.id, t.elements.length)]) c.id
          = some t.elements.length := by
        rw [mapGet_append_single, hget]
        simp
      rw [hnew] at hl
      by_cases hj : t.elements.length = j
      · subst hj
        simp only [if_true, Option.some.injEq] at hl
        subst hl
        rw [List.getElem?_append_right (le_refl _)] at he
        simp only [Nat.sub_self, List.getElem?_cons_zero, Option.some.injEq] at he
        rw [← he]
        rfl
      · have hne : ¬ (some t.elements.length = some j) := fun hh => hj (Option.some.inj hh)
        simp only [hne, if_false] at hl
        have hcongr : lastWriter (t.nodeElements ++ [(c.id, t.elements.length)]) j l
            = lastWriter t.nodeElements j l := by
          apply lastWriter_congr
          intro c1 _
          rw [mapGet_append_single]
          cases h1 : mapGet t.nodeElements c1.id with
          | some w => simp
          | none =>
            by_cases h2 : c.id = c1.id
            · simp [h2, hj]
            · simp [h2]
        rw [hcongr] at hl
        have hlt : j < t.elements.length := by
          by_contra hge
          have hge2 : t.elements.length < j := lt_of_le_of_ne (not_lt.mp hge) hj
          rw [List.getElem?_eq_none (by simp; omega)] at he
          exact Option.noConfusion he
        rw [List.getElem?_append_left hlt] at he
        exact ih j e c0 he hl

theorem foldl_addOrUpdate_registered (h : Host) (l : List Card) (t : State)
    (hreg : ∀ c ∈ l, c.id ∈ mapKeys t.nodeElements) :
    l.foldl (addOrUpdate h) t
      = { t with elements := l.foldl (writeCard t.nodeElements) t.elements } := by
  induction l generalizing t with
  | nil => rfl
  | cons c l ih =>
    obtain ⟨hd, hget⟩ := mapGet_of_mem_keys _ _ (hreg c (List.mem_cons_self _ _))
    simp only [List.foldl]
    rw [addOrUpdate_some h t c hd hget]
    rw [ih { t with elements := modifyElement (placeAt c) t.elements hd }
      (fun c1 hc1 => hreg c1 (List.mem_cons_of_mem _ hc1))]
    have hw : writeCard t.nodeElements t.elements c = modifyElement (placeAt c) t.elements hd := by
      simp [writeCard, hget]
    rw [hw]

theorem foldl_removeStale_id (cards : List Card) (l : List (String × Handle)) (s : State)
    (hl : ∀ e ∈ l, e.1 ∈ cards.map (fun c => c.id)) : l.foldl (removeStale cards) s = s := by
  induction l generalizing s with
  | nil => rfl
  | cons a l ih =>
    simp only [List.foldl]
    have ha : removeStale cards s a = s := by
      unfold removeStale
      have hmem := hl a (List.mem_cons_self _ _)
      have hnone : ¬ (cards.find? (fun c => decide (c.id = a.1))).isNone = true :=
        fun hh => (find_isNone_iff cards a.1).mp hh hmem
      rw [if_neg hnone]
    rw [ha]
    exact ih s (fun e he => hl e (List.mem_cons_of_mem _ he))

theorem renderNodes_of_container (h : Host) (s : State) (hn : s.nodesContainer = true) :
    renderNodes h s
      = applyTransform (s.cards.foldl (addOrUpdate h) (s.nodeElements.foldl (removeStale s.cards) s)) := by
  simp [renderNodes, hn]

theorem applyTransform_of_applied (t : State) (h1 : t.nodesContainer = true)
    (h2 : t.nodesTransform = some t.transform) : applyTransform t = t := by
  cases t
  simp only [applyTransform] at *
  simp_all

theorem renderNodes_keys_mem (h : Host) (s : State) (hn : s.nodesContainer = true) (id : String) :
    id ∈ mapKeys (renderNodes h s).nodeElements ↔ id ∈ s.cards.map (fun c => c.id) := by
  unfold renderNodes
  simp only [hn, Bool.not_true, Bool.false_eq_true, if_false, applyTransform_nodeElements]
  rw [foldl_addOrUpdate_keys_mem]
  constructor
  · rintro (h1 | h1)
    · simp only [mapKeys, List.mem_map] at h1
      obtain ⟨x, hx, rfl⟩ := h1
      have hx2 := (foldl_removeStale_mem s.cards s.nodeElements s x).mp hx
      by_contra hc
      exact hx2.2 ⟨List.mem_map_of_mem Prod.fst hx2.1, hc⟩
    · exact h1
  · intro h1
    exact Or.inr h1

/-- C4.  Reconcile tracks entity set membership exactly: when the nodes
container exists (so that `renderNodes` runs its two loops) and the registry
is a map (no key twice), after `renderNodes` the key set of the registry is
the set of ids occurring in the card list, with no key twice: no node for an
absent card, no card without a node, no id with two nodes. -/
theorem renderNodes_registry_tracks_cards (h : Host) (s : State)
    (hn : s.nodesContainer = true) (hnd : (mapKeys s.nodeElements).Nodup) :
    (∀ id, id ∈ mapKeys (renderNodes h s).nodeElements ↔ id ∈ s.cards.map (fun c => c.id))
      ∧ (mapKeys (renderNodes h s).nodeElements).Nodup := by
  refine ⟨renderNodes_keys_mem h s hn, ?_⟩
  rw [renderNodes_of_container h s hn, applyTransform_nodeElements]
  apply foldl_addOrUpdate_keys_nodup
  exact List.Nodup.sublist
    (List.Sublist.map Prod.fst (foldl_removeStale_sublist s.cards s.nodeElements s)) hnd

theorem renderNodes_settled (h : Host) (s : State) (hn : s.nodesContainer = true) :
    Settled (renderNodes h s).nodeElements (renderNodes h s).elements s.cards := by
  unfold renderNodes
  simp only [hn, Bool.not_true, Bool.false_eq_true, if_false, applyTransform_nodeElements,
    applyTransform_elements]
  exact foldl_addOrUpdate_settled h s.cards _

theorem renderNodes_fields (h : Host) (s : State) :
    (renderNodes h s).cards = s.cards ∧ (renderNodes h s).nodesContainer = s.nodesContainer
      ∧ (renderNodes h s).transform = s.transform := by
  have hf := renderNodes_frame h s
  unfold RenderFrame at hf
  refine ⟨?_, ?_, ?_⟩ <;> rw [hf]

theorem renderNodes_nodesTransform (h : Host) (s : State) (hn : s.nodesContainer = true) :
    (renderNodes h s).nodesTransform = some s.transform := by
  have ht : ∀ t : State, t.nodesContainer = true →
      (applyTransform t).nodesTransform = some t.transform := by
    intro t htn
    simp [applyTransform, htn]
  unfold renderNodes
  simp only [hn, Bool.not_true, Bool.false_eq_true, if_false]
  have hf := RenderFrame.trans (RenderFrame.foldl _ (removeStale_frame s.cards) s.nodeElements s)
    (RenderFrame.foldl _ (addOrUpdate_frame h) s.cards _)
  generalize (s.cards.foldl (addOrUpdate h) (s.nodeElements.foldl (removeStale s.cards) s)) = t
    at hf ⊢
  unfold RenderFrame at hf
  have h1 : t.nodesContainer = true := by rw [hf]; exact hn
  have h2 : t.transform = s.transform := by rw [hf]
  rw [ht t h1, h2]

/-- C5.  Reconcile is idempotent: for every state and card list, a second
`renderNodes` right after a first one, with the store unchanged, returns the
state of the first run unchanged.  In particular it creates no node
(`createdLog`), removes no node (`removedLog`), and leaves the registry and
every stored node position as they were. -/
theorem renderNodes_idempotent (h h2 : Host) (s : State) :
    renderNodes h2 (renderNodes h s) = renderNodes h s
      ∧ (renderNodes h2 (renderNodes h s)).createdLog = (renderNodes h s).createdLog
      ∧ (renderNodes h2 (renderNodes h s)).removedLog = (renderNodes h s).removedLog
      ∧ (renderNodes h2 (renderNodes h s)).nodeElements = (renderNodes h s).nodeElements
      ∧ (renderNodes h2 (renderNodes h s)).elements = (renderNodes h s).elements := by
  have key : renderNodes h2 (renderNodes h s) = renderNodes h s := by
    cases hn : s.nodesContainer with
    | false =>
      have h1 : renderNodes h s = s := by simp [renderNodes, hn]
      rw [h1]
      simp [renderNodes, hn]
    | true =>
      obtain ⟨hcards, hnc, htr⟩ := renderNodes_fields h s
      have hset := renderNodes_settled h s hn
      have hkeys := renderNodes_keys_mem h s hn
      have hnt := renderNodes_nodesTransform h s hn
      generalize renderNodes h s = s1 at hcards hnc htr hset hkeys hnt
      rw [hn] at hnc
      rw [← hcards] at hset hkeys
      rw [renderNodes_of_container h2 s1 hnc]
      rw [foldl_removeStale_id s1.cards s1.nodeElements s1]
      · rw [foldl_addOrUpdate_registered h2 s1.cards s1]
        · rw [foldl_writeCard_of_settled _ _ _ hset]
          exact applyTransform_of_applied s1 hnc (by rw [hnt, htr])
        · intro c hc
          exact (hkeys c.id).mpr (List.mem_map_of_mem (fun c => c.id) hc)
      · intro e he
        exact (hkeys e.1).mp (List.mem_map_of_mem Prod.fst he)
  refine ⟨key, ?_, ?_, ?_, ?_⟩ <;> rw [key]

/-! ## Well-formedness of the registry is kept by `renderNodes` -/

theorem foldl_removeStale_wf (cards : List Card) (s : State) (hwf : RegistryWF s) :
    RegistryWF (s.nodeElements.foldl (removeStale cards) s) := by
  obtain ⟨hk, hh, hv⟩ := hwf
  have hsub := foldl_removeStale_sublist cards s.nodeElements s
  refine ⟨?_, ?_, ?_⟩
  · exact List.Nodup.sublist (List.Sublist.map Prod.fst hsub) hk
  · exact List.Nodup.sublist (List.Sublist.map Prod.snd hsub) hh
  · intro e he
    rw [foldl_removeStale_elements_length]
    exact hv e (hsub.subset he)

theorem addOrUpdate_wf (h : Host) (s : State) (c : Card) (hwf : RegistryWF s) :
    RegistryWF (addOrUpdate h s c) := by
  obtain ⟨hk, hh, hv⟩ := hwf
  cases hget : mapGet s.nodeElements c.id with
  | some hd =>
    rw [addOrUpdate_some h s c hd hget]
    refine ⟨hk, hh, ?_⟩
    intro e he
    simp only [modifyElement_length]
    exact hv e he
  | none =>
    rw [addOrUpdate_none h s c hget]
    have hnot := (mapGet_eq_none_iff _ _).mp hget
    refine ⟨?_, ?_, ?_⟩
    · simp only [mapKeys, List.map_append, List.map_cons, List.map_nil]
      rw [List.nodup_append]
      refine ⟨hk, List.nodup_singleton _, ?_⟩
      intro x hx hx2
      rw [List.mem_singleton] at hx2
      exact hnot (hx2 ▸ hx)
    · simp only [List.map_append, List.map_cons, List.map_nil]
      rw [List.nodup_append]
      refine ⟨hh, List.nodup_singleton _, ?_⟩
      intro x hx hx2
      rw [List.mem_singleton] at hx2
      rw [List.mem_map] at hx
      obtain ⟨e, he, rfl⟩ := hx
      have hlt := hv e he
      rw [hx2] at hlt
      exact lt_irrefl _ hlt
    · intro e he
      simp only [List.mem_append, List.mem_singleton] at he
      simp only [List.length_append, List.length_singleton]
      rcases he with he | he
      · exact Nat.lt_succ_of_lt (hv e he)
      · rw [he]
        exact Nat.lt_succ_self _

theorem foldl_addOrUpdate_wf (h : Host) (l : List Card) (s : State) (hwf : RegistryWF s) :
    RegistryWF (l.foldl (addOrUpdate h) s) := by
  induction l generalizing s with
  | nil => exact hwf
  | cons c l ih => exact ih _ (addOrUpdate_wf h s c hwf)

theorem renderNodes_wf (h : Host) (s : State) (hwf : RegistryWF s) :
    RegistryWF (renderNodes h s) := by
  cases hn : s.nodesContainer with
  | false =>
    have h1 : renderNodes h s = s := by simp [renderNodes, hn]
    rw [h1]
    exact hwf
  | true =>
    rw [renderNodes_of_container h s hn]
    have h2 := foldl_addOrUpdate_wf h s.cards _ (foldl_removeStale_wf s.cards s hwf)
    unfold RegistryWF at h2 ⊢
    rw [applyTransform_nodeElements, applyTransform_elements]
    exact h2

theorem foldl_addOrUpdate_mapGet (h : Host) (l : List Card) (s : State) (k : String)
    (j : Handle) (hget : mapGet s.nodeElements k = some j) :
    mapGet (l.foldl (addOrUpdate h) s).nodeElements k = some j := by
  induction l generalizing s with
  | nil => exact hget
  | cons c l ih =>
    apply ih
    cases hc : mapGet s.nodeElements c.id with
    | some hd =>
      rw [addOrUpdate_some h s c hd hc]
      exact hget
    | none =>
      rw [addOrUpdate_none h s c hc]
      simp only
      rw [mapGet_append_single, hget]

theorem renderNodes_mapGet (h : Host) (s : State) (hn : s.nodesContainer = true)
    (hwf : RegistryWF s) (c : Card) (hc : c ∈ s.cards) (j : Handle)
    (hget : mapGet s.nodeElements c.id = some j) :
    mapGet (renderNodes h s).nodeElements c.id = some j := by
  rw [renderNodes_of_container h s hn, applyTransform_nodeElements]
  apply foldl_addOrUpdate_mapGet
  apply mapGet_of_mem _ _ _ (foldl_removeStale_wf s.cards s hwf).1
  rw [foldl_removeStale_mem]
  refine ⟨mapGet_mem _ _ _ hget, ?_⟩
  rintro ⟨_, h2⟩
  exact h2 (List.mem_map_of_mem (fun c => c.id) hc)

theorem lastWriter_some (reg : List (String × Handle)) (hd : Handle) (l : List Card) (c : Card)
    (h : lastWriter reg hd l = some c) : c ∈ l ∧ mapGet reg c.id = some hd := by
  induction l with
  | nil => simp [lastWriter] at h
  | cons a l ih =>
    simp only [lastWriter] at h
    cases hl : lastWriter reg hd l with
    | some c2 =>
      rw [hl] at h
      simp only [Option.some.injEq] at h
      subst h
      exact ⟨List.mem_cons_of_mem _ (ih hl).1, (ih hl).2⟩
    | none =>
      rw [hl] at h
      simp only at h
      by_cases ha : mapGet reg a.id = some hd
      · rw [if_pos ha] at h
        simp only [Option.some.injEq] at h
        subst h
        exact ⟨List.mem_cons_self _ _, ha⟩
      · rw [if_neg ha] at h
        exact Option.noConfusion h

theorem lastWriter_isSome (reg : List (String × Handle)) (hd : Handle) (l : List Card) (c : Card)
    (hc : c ∈ l) (hget : mapGet reg c.id = some hd) : ∃ c2, lastWriter reg hd l = some c2 := by
  induction l with
  | nil => simp at hc
  | cons a l ih =>
    simp only [lastWriter]
    cases hl : lastWriter reg hd l with
    | some c2 => exact ⟨c2, rfl⟩
    | none =>
      rcases List.mem_cons.mp hc with hca | hcl
      · subst hca
        exact ⟨c, by simp [hget]⟩
      · obtain ⟨c2, hc2⟩ := ih hcl
        rw [hl] at hc2
        exact Option.noConfusion hc2

/-- After `renderNodes`, the node of a card whose id occurs once in the list
carries the position the update branch writes for that card. -/
theorem renderNodes_position (h : Host) (s : State) (hn : s.nodesContainer = true)
    (hwf : RegistryWF s) (c : Card) (hc : c ∈ s.cards)
    (huniq : ∀ c2 ∈ s.cards, c2.id = c.id → c2 = c) (j : Handle)
    (hget : mapGet (renderNodes h s).nodeElements c.id = some j) :
    ∃ e, (renderNodes h s).elements[j]? = some e ∧ placeAt c e = e := by
  have hwf2 := renderNodes_wf h s hwf
  have hset := renderNodes_settled h s hn
  obtain ⟨hk, hh, hv⟩ := hwf2
  have hmem := mapGet_mem _ _ _ hget
  have hlt := hv _ hmem
  simp only at hlt
  obtain ⟨c2, hc2⟩ := lastWriter_isSome _ j s.cards c hc hget
  obtain ⟨hc2mem, hc2get⟩ := lastWriter_some _ _ _ _ hc2
  have hmem2 := mapGet_mem _ _ _ hc2get
  have hid : c2.id = c.id := by
    have hinj := List.inj_on_of_nodup_map hh hmem2 hmem rfl
    exact congrArg Prod.fst hinj
  have hcc : c2 = c := huniq c2 hc2mem hid
  subst hcc
  refine ⟨(renderNodes h s).elements[j], ?_, ?_⟩
  · exact List.getElem?_eq_getElem hlt
  · exact hset j _ c2 (List.getElem?_eq_getElem hlt) hc2

/-! ## Registry claims at concrete inputs, and the dragged node -/

/-- Witness for C1 at `demoState` (scale `1`), zooming in at `(30, 40)`. -/
theorem zoomAt_keeps_cursor_point_witness :
    demoState.transform.scale ≠ 0
      ∧ ((30 - (zoomAt demoState 1 30 40).transform.x) / (zoomAt demoState 1 30 40).transform.scale,
          (40 - (zoomAt demoState 1 30 40).transform.y) / (zoomAt demoState 1 30 40).transform.scale)
        = ((30 - demoState.transform.x) / demoState.transform.scale,
            (40 - demoState.transform.y) / demoState.transform.scale) :=
  ⟨by decide, zoomAt_keeps_cursor_point demoState 1 30 40 (by decide)⟩

/-- Witness for C4 at `demoGraph` after the store replaced card `a` by card
`z`: the registry had keys `a, b` and no key twice. -/
theorem renderNodes_registry_tracks_cards_witness :
    ({ demoGraph with cards := [demoCardB, demoCardZero] } : State).nodesContainer = true
      ∧ (mapKeys ({ demoGraph with cards := [demoCardB, demoCardZero] } : State).nodeElements).Nodup
      ∧ (mapKeys (renderNodes demoHost
            { demoGraph with cards := [demoCardB, demoCardZero] }).nodeElements).Nodup :=
  ⟨by decide, by decide,
    (renderNodes_registry_tracks_cards demoHost
      { demoGraph with cards := [demoCardB, demoCardZero] } (by decide) (by decide)).2⟩

/-- C6, the code at the failing input.  Card `z` is stored at `(0, 50)`; after
`renderNodes` its node is at `(100, 50)`, both when the node is created (first
pass) and when it already exists (second pass): `card.position?.x || 100`
takes the coordinate `0` for a missing one. -/
theorem renderNodes_zero_coordinate_becomes_100 :
    (init demoHost (initialState [demoCardZero] [])).cards.map (fun c => c.position)
        = [some { x := 0, y := 50 }]
      ∧ (renderNodes demoHost (init demoHost (initialState [demoCardZero] []))).elements.map
          (fun e => (e.left, e.top)) = [(100, 50)]
      ∧ (renderNodes demoHost
          (renderNodes demoHost (init demoHost (initialState [demoCardZero] [])))).elements.map
          (fun e => (e.left, e.top)) = [(100, 50)] := by
  refine ⟨by decide, by decide, by decide⟩

/-- C7 as stated fails.  In `demoDrag` node `a` is being dragged, its working
position is `(55, 66)` and its card is stored at `(10, 20)`; after
`renderNodes` the dragged node is at `(10, 20)`. -/
theorem renderNodes_overwrites_working_position :
    demoDrag.isDragging = true
      ∧ demoDrag.dragNode = some { element := 0, card := demoCardA }
      ∧ demoDrag.elements.map (fun e => (e.left, e.top)) = [(55, 66), (300, 40)]
      ∧ demoDrag.cards.map (fun c => c.position)
          = [some { x := 10, y := 20 }, some { x := 300, y := 40 }]
      ∧ (renderNodes demoHost demoDrag).elements.map (fun e => (e.left, e.top))
          = [(10, 20), (300, 40)] := by
  refine ⟨?_, ?_, ?_, ?_, ?_⟩ <;> with_unfolding_all decide

/-- C7, amended.  A reconcile pass resets a dragged node to its card's stored
position: if the dragged element is the registry's node for its card, the card
is the only one of the list with its id and is stored at `(x, y)` with
`x ≠ 0` and `y ≠ 0`, then after `renderNodes` the dragged node's left/top are
`x` and `y`, whatever the drag's working position was, while `isDragging`,
`dragNode` and `dragOffset` are unchanged. -/
theorem renderNodes_resets_dragged_node (h : Host) (s : State) (dn : DragNode) (c : Card)
    (p : Position) (hn : s.nodesContainer = true) (hwf : RegistryWF s)
    (hdrag : s.isDragging = true) (hdn : s.dragNode = some dn)
    (hreg : mapGet s.nodeElements dn.card.id = some dn.element)
    (hc : c ∈ s.cards) (hid : c.id = dn.card.id)
    (huniq : ∀ c2 ∈ s.cards, c2.id = c.id → c2 = c)
    (hp : c.position = some p) (hx : p.x ≠ 0) (hy : p.y ≠ 0) :
    ((renderNodes h s).elements[dn.element]?).map (fun e => (e.left, e.top)) = some (p.x, p.y)
      ∧ (renderNodes h s).isDragging = true
      ∧ (renderNodes h s).dragNode = some dn
      ∧ (renderNodes h s).dragOffset = s.dragOffset := by
  have hf := renderNodes_frame h s
  unfold RenderFrame at hf
  refine ⟨?_, ?_, ?_, ?_⟩
  · rw [← hid] at hreg
    have hget := renderNodes_mapGet h s hn hwf c hc dn.element hreg
    obtain ⟨e, he, hpl⟩ := renderNodes_position h s hn hwf c hc huniq dn.element hget
    have h1 : (placeAt c e).left = e.left := by rw [hpl]
    have h2 : (placeAt c e).top = e.top := by rw [hpl]
    rw [he, Option.map_some', ← h1, ← h2]
    simp [placeAt, hp, coordOr100, hx, hy]
  · rw [hf]
    exact hdrag
  · rw [hf]
    exact hdn
  · rw [hf]

/-- Witness for the amended C7 at `demoDrag`: node `a` is reset to `(10, 20)`. -/
theorem renderNodes_resets_dragged_node_witness :
    ((renderNodes demoHost demoDrag).elements[0]?).map (fun e => (e.left, e.top)) = some (10, 20)
      ∧ (renderNodes demoHost demoDrag).isDragging = true
      ∧ (renderNodes demoHost demoDrag).dragNode = some { element := 0, card := demoCardA }
      ∧ (renderNodes demoHost demoDrag).dragOffset = demoDrag.dragOffset :=
  renderNodes_resets_dragged_node demoHost demoDrag { element := 0, card := demoCardA }
    demoCardA { x := 10, y := 20 }
    (by decide) (by unfold RegistryWF; with_unfolding_all decide)
    (by decide) (by with_unfolding_all decide) (by decide) (by decide) rfl
    (by with_unfolding_all decide) rfl (by decide) (by decide)

/-! ## The scale along the event loop -/

theorem foldl_invariant {α β : Type} (P : β → Prop) (f : β → α → β)
    (hf : ∀ b a, P b → P (f b a)) (l : List α) (b : β) (hb : P b) : P (l.foldl f b) := by
  induction l generalizing b with
  | nil => exact hb
  | cons a l ih => exact ih (f b a) (hf b a hb)

theorem renderNodes_transform (h : Host) (s : State) :
    (renderNodes h s).transform = s.transform := (renderNodes_fields h s).2.2

theorem updateCard_transform (h : Host) (s : State) (cardId : String) (p : Position) :
    (updateCard h s cardId p).transform = s.transform := by
  unfold updateCard
  simp only
  split
  · rfl
  · split
    · rw [refresh, renderNodes_transform]
    · rfl

theorem selectNode_transform (s : State) (cardId : String) :
    (selectNode s cardId).transform = s.transform := by
  unfold selectNode
  split <;> rfl

theorem deselectOne_transform (s : State) (id : String) :
    (deselectOne s id).transform = s.transform := by
  unfold deselectOne
  split <;> rfl

theorem deselectAll_transform (s : State) : (deselectAll s).transform = s.transform := by
  unfold deselectAll
  exact foldl_invariant (fun t => t.transform = s.transform) deselectOne
    (fun b a hb => (deselectOne_transform b a).trans hb) s.selectedNodes s rfl

theorem startDragNode_transform (s : State) (el : Handle) (card : Card) (e : MouseEvent)
    (rect : Position) : (startDragNode s el card e rect).transform = s.transform := by
  unfold startDragNode
  rw [selectNode_transform]

theorem handleMouseDown_transform (s : State) (e : MouseEvent) :
    (handleMouseDown s e).transform = s.transform := by
  unfold handleMouseDown
  split
  · rw [deselectAll_transform]
  · rfl

theorem nodeMouseDown_transform (s : State) (el : Handle) (e : MouseEvent) (rect : Position) :
    (nodeMouseDown s el e rect).transform = s.transform := by
  unfold nodeMouseDown
  split
  · rfl
  · split
    · rfl
    · split
      · rw [startDragNode_transform]
      · split
        · rw [handleMouseDown_transform]
        · rfl

theorem handleMouseMove_scale (h : Host) (s : State) (e : MouseEvent) :
    (handleMouseMove h s e).transform.scale = s.transform.scale := by
  unfold handleMouseMove
  split
  · rfl
  · split
    · rw [applyTransform_transform]
    · rfl

theorem commitDrag_transform (h : Host) (s : State) :
    (commitDrag h s).transform = s.transform := by
  unfold commitDrag
  split
  · split
    · rfl
    · simp only
      rw [updateCard_transform]
  · rfl

theorem handleMouseUp_transform (h : Host) (s : State) :
    (handleMouseUp h s).transform = s.transform := by
  unfold handleMouseUp
  exact commitDrag_transform h s

theorem centerGraph_scale (h : Host) (s : State) :
    (settle (centerGraph h s)).transform.scale = s.transform.scale := by
  unfold centerGraph
  simp only
  split
  · simp [settle]
  · split
    · rfl
    · simp [settle]

theorem focusOnCard_scale (h : Host) (s : State) (cardId : String) :
    (settle (focusOnCard h s cardId)).transform.scale = s.transform.scale := by
  unfold focusOnCard
  split
  · rfl
  · simp only
    split
    · rfl
    · simp [settle, selectNode_transform]

theorem layoutCard_transform (h : Host) (columnX : ℚ) (s : State) (entry : Nat × Card) :
    (layoutCard h columnX s entry).transform = s.transform := by
  unfold layoutCard
  simp only
  split
  · rw [updateCard_transform]
  · simp only
    rw [updateCard_transform]

theorem layoutGroup_transform (h : Host) (acc : State × ℚ) (entry : String × List Card) :
    (layoutGroup h acc entry).1.transform = acc.1.transform := by
  unfold layoutGroup
  split
  · rfl
  · exact foldl_invariant (fun t => t.transform = acc.1.transform) (layoutCard h acc.2)
      (fun b a hb => (layoutCard_transform h acc.2 b a).trans hb) _ acc.1 rfl

theorem autoLayout_scale (h : Host) (s : State) :
    (settle (autoLayout h s)).transform.scale = s.transform.scale := by
  unfold autoLayout
  simp only
  split
  · rfl
  · rw [centerGraph_scale]
    have hinv := foldl_invariant (fun (acc : State × ℚ) => acc.1.transform = s.transform)
      (layoutGroup h) (fun b a hb => (layoutGroup_transform h b a).trans hb)
      (objectEntries (groupByType s.cards s.types)) (s, 50) rfl
    rw [hinv]


theorem zoomAt_scaleOk (s : State) (d px py : ℚ) : ScaleOk (zoomAt s d px py) := by
  unfold ScaleOk
  rw [zoomAt_scale]
  exact ⟨clamp_ge _ _ _ min_le_max_scale, clamp_le _ _ _⟩

theorem init_scaleOk (h : Host) (cards : List Card) (types : List CardType) :
    ScaleOk (init h (initialState cards types)) := by
  have hs : (init h (initialState cards types)).transform.scale = 1 := by
    unfold init
    simp only
    split <;> rfl
  unfold ScaleOk
  rw [hs]
  unfold MIN_SCALE MAX_SCALE
  norm_num

theorem step_scaleOk (h : Host) (s : State) (ev : Event) (hok : ScaleOk s)
    (hset : ∀ t, ev = Event.setTransform t → MIN_SCALE ≤ t.scale ∧ t.scale ≤ MAX_SCALE) :
    ScaleOk (step h s ev) := by
  have keep : ∀ t : State, t.transform.scale = s.transform.scale → ScaleOk t := by
    intro t ht
    unfold ScaleOk at hok ⊢
    rw [ht]
    exact hok
  cases ev with
  | refresh => exact keep _ (by simp only [step, refresh]; rw [renderNodes_transform])
  | render => exact hok
  | zoom d =>
    simp only [step, zoom]
    split
    · exact hok
    · exact zoomAt_scaleOk _ _ _ _
  | resetZoom =>
    simp only [step, resetZoom, ScaleOk, applyTransform_transform]
    unfold MIN_SCALE MAX_SCALE
    norm_num
  | centerGraph => exact keep _ (centerGraph_scale h s)
  | autoLayout => exact keep _ (autoLayout_scale h s)
  | focusOnCard cardId => exact keep _ (focusOnCard_scale h s cardId)
  | setTransform t =>
    simp only [step, setTransform, ScaleOk, applyTransform_transform]
    exact hset t rfl
  | nodeMouseDown el e rect =>
    exact keep _ (by simp only [step]; rw [nodeMouseDown_transform])
  | mouseDown e =>
    simp only [step]
    split
    · exact keep _ (by rw [handleMouseDown_transform])
    · exact hok
  | mouseMove e =>
    simp only [step]
    split
    · exact keep _ (handleMouseMove_scale h s e)
    · exact hok
  | mouseUp =>
    simp only [step]
    split
    · exact keep _ (by rw [handleMouseUp_transform])
    · exact hok
  | mouseLeave =>
    simp only [step]
    split
    · exact keep _ (by rw [handleMouseUp_transform])
    · exact hok
  | wheel e =>
    simp only [step]
    split
    · exact zoomAt_scaleOk _ _ _ _
    · exact hok
  | storeChanged cards types notify =>
    simp only [step]
    split
    · exact keep _ (by rw [refresh, renderNodes_transform])
    · exact hok

/-- C3 as stated fails.  After `init`, the single call
`setTransform({x: 0, y: 0, scale: 5})` leaves the scale at `5`, above
`MAX_SCALE = 2`. -/
theorem setTransform_leaves_scale_unclamped :
    (run (init demoHost (initialState [] []))
        [(demoHost, Event.setTransform { x := 0, y := 0, scale := 5 })]).transform.scale = 5
      ∧ ¬ ((run (init demoHost (initialState [] []))
        [(demoHost, Event.setTransform { x := 0, y := 0, scale := 5 })]).transform.scale ≤ 2) := by
  have hs : (run (init demoHost (initialState [] []))
      [(demoHost, Event.setTransform { x := 0, y := 0, scale := 5 })]).transform.scale = 5 := by
    decide
  refine ⟨hs, ?_⟩
  rw [hs]
  norm_num

/-- C3, amended.  From the state after `init` (transform `{0, 0, 1}`), over any
store and any sequence of public operations, DOM events and store changes in
which every `setTransform` call is given a scale within `[0.25, 2]`, the scale
stays within `[0.25, 2]`: zoom and wheel clamp, `resetZoom` sets `1`, every
other operation leaves the scale alone, and `setTransform` installs the scale it
is given. -/
theorem scale_clamped_along_events (h0 : Host) (cards : List Card) (types : List CardType)
    (evs : List (Host × Event))
    (hset : ∀ he ∈ evs, ∀ t, he.2 = Event.setTransform t → (1 / 4 : ℚ) ≤ t.scale ∧ t.scale ≤ 2) :
    (1 / 4 : ℚ) ≤ (run (init h0 (initialState cards types)) evs).transform.scale
      ∧ (run (init h0 (initialState cards types)) evs).transform.scale ≤ 2 := by
  have hgen : ∀ (l : List (Host × Event)) (s : State), ScaleOk s →
      (∀ he ∈ l, ∀ t, he.2 = Event.setTransform t → MIN_SCALE ≤ t.scale ∧ t.scale ≤ MAX_SCALE) →
      ScaleOk (run s l) := by
    intro l
    induction l with
    | nil => intro s hs _; exact hs
    | cons he l ih =>
      intro s hs hl
      simp only [run, List.foldl] at ih ⊢
      apply ih
      · exact step_scaleOk he.1 s he.2 hs (hl he (List.mem_cons_self _ _))
      · intro he2 hmem
        exact hl he2 (List.mem_cons_of_mem _ hmem)
  have hres := hgen evs _ (init_scaleOk h0 cards types)
    (by simpa [MIN_SCALE, MAX_SCALE] using hset)
  simpa [ScaleOk, MIN_SCALE, MAX_SCALE] using hres

/-- Witness for the amended C3 on `demoEvents`. -/
theorem scale_clamped_along_events_witness :
    (1 / 4 : ℚ) ≤ (run (init demoHost (initialState [demoCardA] [])) demoEvents).transform.scale
      ∧ (run (init demoHost (initialState [demoCardA] [])) demoEvents).transform.scale ≤ 2 :=
  scale_clamped_along_events demoHost [demoCardA] [] demoEvents (by
    intro he hmem t ht
    simp only [demoEvents, List.mem_cons, List.mem_singleton, List.not_mem_nil, or_false] at hmem
    rcases hmem with rfl | rfl | rfl
    · cases ht
    · cases ht
      norm_num
    · cases ht)

/-! ## Edge renderer -/

theorem foldl_drawCardConnection (s : State) (sp : Position) (conns : List Connection)
    (calls : List EdgeCall) :
    conns.foldl (drawCardConnection s sp) calls
      = calls ++ conns.filterMap (fun conn =>
          (nodeOf s conn.targetId).map
            (fun te => { source := sp, target := getNodeCenter te, connection := conn })) := by
  induction conns generalizing calls with
  | nil => simp
  | cons conn conns ih =>
    simp only [List.foldl]
    rw [ih]
    unfold drawCardConnection nodeOf
    cases h1 : mapGet s.nodeElements conn.targetId with
    | none => simp [List.filterMap_cons, h1]
    | some hd =>
      cases h2 : s.elements[hd]? with
      | none => simp [List.filterMap_cons, h1, h2]
      | some te => simp [List.filterMap_cons, h1, h2]

theorem foldl_drawCardConnections (s : State) (cards : List Card) (calls : List EdgeCall) :
    cards.foldl (drawCardConnections s) calls
      = calls ++ cards.flatMap (fun card => card.connections.filterMap (edgeOf s card)) := by
  induction cards generalizing calls with
  | nil => simp
  | cons card cards ih =>
    simp only [List.foldl, List.flatMap_cons]
    rw [ih, ← List.append_assoc]
    congr 1
    unfold drawCardConnections
    cases h1 : mapGet s.nodeElements card.id with
    | none =>
      have hn : nodeOf s card.id = none := by simp [nodeOf, h1]
      have hall : card.connections.filterMap (edgeOf s card) = [] := by
        rw [List.filterMap_eq_nil_iff]
        intro conn _
        simp [edgeOf, hn]
      simp [hall]
    | some hd =>
      cases h2 : s.elements[hd]? with
      | none =>
        have hn : nodeOf s card.id = none := by simp [nodeOf, h1, h2]
        have hall : card.connections.filterMap (edgeOf s card) = [] := by
          rw [List.filterMap_eq_nil_iff]
          intro conn _
          simp [edgeOf, hn]
        simp [hall, h2]
      | some se =>
        have hn : nodeOf s card.id = some se := by simp [nodeOf, h1, h2]
        simp only [h2]
        rw [foldl_drawCardConnection]
        congr 1
        apply List.filterMap_congr
        intro conn _
        simp only [edgeOf, hn]
        cases nodeOf s conn.targetId <;> rfl

theorem drawConnections_eq_expected (s : State) : drawConnections s = expectedEdges s := by
  unfold drawConnections expectedEdges
  rw [foldl_drawCardConnections]
  simp

theorem nodeOf_isSome_iff (s : State) (hv : ∀ e ∈ s.nodeElements, e.2 < s.elements.length)
    (id : String) : (nodeOf s id).isSome = true ↔ id ∈ mapKeys s.nodeElements := by
  unfold nodeOf
  constructor
  · intro h
    by_contra hc
    rw [(mapGet_eq_none_iff _ _).mpr hc] at h
    simp at h
  · intro h
    obtain ⟨hd, hget⟩ := mapGet_of_mem_keys _ _ h
    have hlt := hv _ (mapGet_mem _ _ _ hget)
    rw [hget]
    simp only [Option.some_bind]
    rw [List.getElem?_eq_getElem hlt]
    rfl

theorem edgeOf_connection (s : State) (card : Card) (conn : Connection) (call : EdgeCall)
    (h : edgeOf s card conn = some call) :
    call.connection = conn ∧ (nodeOf s card.id).isSome = true
      ∧ (nodeOf s conn.targetId).isSome = true := by
  unfold edgeOf at h
  cases h1 : nodeOf s card.id with
  | none => simp [h1] at h
  | some se =>
    cases h2 : nodeOf s conn.targetId with
    | none => simp [h1, h2] at h
    | some te =>
      simp only [h1, h2, Option.some.injEq] at h
      subst h
      simp

theorem map_connection_filterMap_edgeOf (s : State)
    (hv : ∀ e ∈ s.nodeElements, e.2 < s.elements.length) (card : Card) (conns : List Connection) :
    (conns.filterMap (edgeOf s card)).map (fun call => call.connection)
      = conns.filter (bothRegistered s card) := by
  induction conns with
  | nil => rfl
  | cons conn conns ih =>
    rw [List.filterMap_cons, List.filter_cons]
    cases hedge : edgeOf s card conn with
    | none =>
      have hb : bothRegistered s card conn = false := by
        by_contra hc
        simp only [Bool.not_eq_false, bothRegistered, Bool.and_eq_true, decide_eq_true_eq] at hc
        have h1 := (nodeOf_isSome_iff s hv card.id).mpr hc.1
        have h2 := (nodeOf_isSome_iff s hv conn.targetId).mpr hc.2
        unfold edgeOf at hedge
        cases h3 : nodeOf s card.id with
        | none => simp [h3] at h1
        | some se =>
          cases h4 : nodeOf s conn.targetId with
          | none => simp [h4] at h2
          | some te => simp [h3, h4] at hedge
      simp only [hb]
      exact ih
    | some call =>
      obtain ⟨hc, h1, h2⟩ := edgeOf_connection s card conn call hedge
      have hb : bothRegistered s card conn = true := by
        simp only [bothRegistered, Bool.and_eq_true, decide_eq_true_eq]
        exact ⟨(nodeOf_isSome_iff s hv card.id).mp h1, (nodeOf_isSome_iff s hv conn.targetId).mp h2⟩
      simp only [hb, List.map_cons, if_true, hc]
      rw [ih]

/-- C8.  Edge skip rule.  `drawConnections` makes exactly the `drawConnection`
calls the rule asks for, in list order: one per pair of a card and one of its
connections whose two ends both have a node, between the centres of the two
nodes (`expectedEdges`).  When every registry entry refers to an allocated
element, the connections drawn are the store's connections filtered by "source
and target are keys of the registry", so no edge is added for a bidirectional
connection; and every drawn edge has its target in the registry, so a
connection to a missing id is never drawn.  The function is total: it cannot
fail. -/
theorem drawConnections_skips_dangling (s : State)
    (hv : ∀ e ∈ s.nodeElements, e.2 < s.elements.length) :
    drawConnections s = expectedEdges s
      ∧ (drawConnections s).map (fun call => call.connection)
          = s.cards.flatMap (fun card => card.connections.filter (bothRegistered s card))
      ∧ ∀ call ∈ drawConnections s, call.connection.targetId ∈ mapKeys s.nodeElements := by
  refine ⟨drawConnections_eq_expected s, ?_, ?_⟩
  · rw [drawConnections_eq_expected]
    unfold expectedEdges
    induction s.cards with
    | nil => rfl
    | cons card cards ih =>
      simp only [List.flatMap_cons, List.map_append]
      rw [ih, map_connection_filterMap_edgeOf s hv]
  · intro call hcall
    rw [drawConnections_eq_expected] at hcall
    unfold expectedEdges at hcall
    rw [List.mem_flatMap] at hcall
    obtain ⟨card, _, hmem⟩ := hcall
    rw [List.mem_filterMap] at hmem
    obtain ⟨conn, _, hedge⟩ := hmem
    obtain ⟨hc, _, h2⟩ := edgeOf_connection s card conn call hedge
    rw [hc]
    exact (nodeOf_isSome_iff s hv conn.targetId).mp h2

/-- Witness for C8 at `demoGraph`: card `a` is connected to the missing id
`ghost` and to `b`; only the edge to `b` is drawn. -/
theorem drawConnections_skips_dangling_witness :
    (drawConnections demoGraph).map (fun call => call.connection)
        = demoGraph.cards.flatMap (fun card => card.connections.filter (bothRegistered demoGraph card))
      ∧ (drawConnections demoGraph).map (fun call => call.connection.targetId) = ["b"] :=
  ⟨(drawConnections_skips_dangling demoGraph (by decide)).2.1, by decide⟩

/-! ## Drag commit -/

theorem renderNodes_writeLog (h : Host) (s : State) : (renderNodes h s).writeLog = s.writeLog := by
  have hf := renderNodes_frame h s
  unfold RenderFrame at hf
  rw [hf]

theorem updateCard_writeLog (h : Host) (s : State) (cardId : String) (p : Position) :
    (updateCard h s cardId p).writeLog = s.writeLog ++ [(cardId, p)] := by
  unfold updateCard
  simp only
  split
  · rfl
  · split
    · rw [refresh, renderNodes_writeLog]
    · rfl

theorem startDragNode_midDrag (s : State) (element : Handle) (card : Card) (press : MouseEvent)
    (rect : Position) :
    MidDrag s element card { x := press.clientX - rect.x, y := press.clientY - rect.y }
      (startDragNode s element card press rect) := by
  unfold startDragNode selectNode
  simp only
  split
  · exact ⟨rfl, rfl, rfl, rfl, rfl, modifyElement_length _ _ _⟩
  · refine ⟨rfl, rfl, rfl, rfl, rfl, ?_⟩
    simp only [modifyElement_length]

theorem handleMouseMove_dragging (h : Host) (t : State) (e : MouseEvent) (dn : DragNode)
    (h1 : t.isDragging = true) (h2 : t.dragNode = some dn) :
    handleMouseMove h t e
      = { t with elements :=
            modifyElement (moveElement (dragX h t e) (dragY h t e)) t.elements dn.element } := by
  unfold handleMouseMove
  rw [h1, h2]
  rfl

theorem handleMouseMove_midDrag (s : State) (element : Handle) (card : Card) (off : Position)
    (t : State) (h : Host) (e : MouseEvent) (hmid : MidDrag s element card off t) :
    MidDrag s element card off (handleMouseMove h t e) := by
  obtain ⟨h1, h2, h3, h4, h5, h6⟩ := hmid
  rw [handleMouseMove_dragging h t e _ h1 h2]
  exact ⟨h1, h2, h3, h4, h5, by rw [← h6]; exact modifyElement_length _ _ _⟩

theorem movePointer_midDrag (s : State) (element : Handle) (card : Card) (off : Position)
    (moves : List (Host × MouseEvent)) (t : State) (hmid : MidDrag s element card off t) :
    MidDrag s element card off (movePointer t moves) := by
  unfold movePointer
  exact foldl_invariant (MidDrag s element card off) _
    (fun b m hb => handleMouseMove_midDrag s element card off b m.1 m.2 hb) moves t hmid

theorem handleMouseMove_position (s : State) (element : Handle) (card : Card) (off : Position)
    (t : State) (h : Host) (e : MouseEvent) (hmid : MidDrag s element card off t)
    (hel : element < s.elements.length) :
    ((handleMouseMove h t e).elements[element]?).map (fun el => (el.left, el.top))
      = some ((e.clientX - h.containerLeft - s.transform.x) / s.transform.scale - off.x,
              (e.clientY - h.containerTop - s.transform.y) / s.transform.scale - off.y) := by
  obtain ⟨h1, h2, h3, h4, h5, h6⟩ := hmid
  rw [handleMouseMove_dragging h t e _ h1 h2]
  simp only [getElem?_modifyElement, if_true]
  have hlt : element < t.elements.length := by rw [h6]; exact hel
  rw [List.getElem?_eq_getElem hlt]
  simp only [Option.map_some', moveElement, dragX, dragY, h3, h4]

theorem handleMouseUp_writeLog (s : State) (element : Handle) (card : Card) (off : Position)
    (t : State) (h : Host) (hmid : MidDrag s element card off t) (p : ℚ × ℚ)
    (hpos : (t.elements[element]?).map (fun el => (el.left, el.top)) = some p) :
    (handleMouseUp h t).writeLog = s.writeLog ++ [(card.id, { x := p.1, y := p.2 })] := by
  obtain ⟨h1, h2, h3, h4, h5, h6⟩ := hmid
  unfold handleMouseUp commitDrag
  rw [h1, h2]
  simp only
  cases hel : t.elements[element]? with
  | none => rw [hel] at hpos; simp at hpos
  | some el =>
    rw [hel] at hpos
    simp only [Option.map_some', Option.some.injEq] at hpos
    simp only [updateCard_writeLog, h5, ← hpos]

/-- C9.  Drag commit.  For a press on an allocated node element, any pointer
moves followed by a last move to `q`, and the release: before the release the
store is not written (whatever the moves), and the whole gesture adds exactly
one call of `DataManager.updateCard` with a position, for the dragged card's
id, with the value `toWorld(q relative to the container) - grabOffset`, where
`grabOffset` is the press point minus the top-left of the node's rectangle. -/
theorem drag_commits_once (s : State) (element : Handle) (card : Card) (press : MouseEvent)
    (rect : Position) (moves : List (Host × MouseEvent)) (last : Host × MouseEvent) (up : Host)
    (hel : element < s.elements.length) :
    (movePointer (startDragNode s element card press rect) (moves ++ [last])).writeLog = s.writeLog
      ∧ (dragGesture s element card press rect moves last up).writeLog
          = s.writeLog ++
            [(card.id,
              { x := (toWorld s.transform
                        { x := last.2.clientX - last.1.containerLeft
                          y := last.2.clientY - last.1.containerTop }).x
                      - (press.clientX - rect.x)
                y := (toWorld s.transform
                        { x := last.2.clientX - last.1.containerLeft
                          y := last.2.clientY - last.1.containerTop }).y
                      - (press.clientY - rect.y) })] := by
  have h0 := startDragNode_midDrag s element card press rect
  have h1 := movePointer_midDrag s element card _ moves _ h0
  have h2 := movePointer_midDrag s element card _ (moves ++ [last]) _ h0
  refine ⟨h2.2.2.2.2.1, ?_⟩
  unfold dragGesture
  have hstep : movePointer (startDragNode s element card press rect) (moves ++ [last])
      = handleMouseMove last.1 (movePointer (startDragNode s element card press rect) moves)
          last.2 := by
    simp [movePointer, List.foldl_append]
  have hpos := handleMouseMove_position s element card _ _ last.1 last.2 h1 hel
  rw [← hstep] at hpos
  rw [handleMouseUp_writeLog s element card _ _ up h2 _ hpos]
  rfl

/-- Witness for C9 at `demoGraph`: node `a` (element `0`, rectangle at
`(10, 20)`) pressed at `(15, 25)`, moved to `(40, 40)` and then to `(60, 71)`. -/
theorem drag_commits_once_witness :
    (0 : Handle) < demoGraph.elements.length
      ∧ (dragGesture demoGraph 0 demoCardA (pointerAt 15 25) { x := 10, y := 20 }
          [(demoHost, pointerAt 40 40)] (demoHost, pointerAt 60 71) demoHost).writeLog
        = demoGraph.writeLog ++
            [(demoCardA.id,
              { x := (toWorld demoGraph.transform
                        { x := (pointerAt 60 71).clientX - demoHost.containerLeft
                          y := (pointerAt 60 71).clientY - demoHost.containerTop }).x
                      - ((pointerAt 15 25).clientX - 10)
                y := (toWorld demoGraph.transform
                        { x := (pointerAt 60 71).clientX - demoHost.containerLeft
                          y := (pointerAt 60 71).clientY - demoHost.containerTop }).y
                      - ((pointerAt 15 25).clientY - 20) })] :=
  ⟨by decide,
    (drag_commits_once demoGraph 0 demoCardA (pointerAt 15 25) { x := 10, y := 20 }
      [(demoHost, pointerAt 40 40)] (demoHost, pointerAt 60 71) demoHost (by decide)).2⟩

/-! ## The working position of a drag -/

/-- C10, the code at the failing input.  In `demoZoomed` (scale `2`) node `a`
is at world position `(10, 20)`, so its rectangle starts at `(20, 40)`.  It is
pressed at `(30, 50)` and the pointer then moves back to `(30, 50)`.  The claim
puts the node at `toWorld(q) - (p - rectTopLeft) / s = (10, 20)`, where it was;
`handleMouseMove` puts it at `(5, 15)`, because it subtracts the grab offset
`(10, 10)` in screen pixels from a world coordinate. -/
theorem handleMouseMove_subtracts_unscaled_offset :
    (demoZoomed.elements[0]?).map (fun el => (el.left, el.top)) = some (10, 20)
      ∧ ((toWorld demoZoomed.transform { x := 30, y := 50 }).x - (30 - 20) / 2,
          (toWorld demoZoomed.transform { x := 30, y := 50 }).y - (50 - 40) / 2) = (10, 20)
      ∧ ((handleMouseMove demoHost
            (nodeMouseDown demoZoomed 0 (pointerAt 30 50) { x := 20, y := 40 })
            (pointerAt 30 50)).elements[0]?).map (fun el => (el.left, el.top)) = some (5, 15) := by
  refine ⟨?_, ?_, ?_⟩ <;> with_unfolding_all decide

/-! ## Release without a drag -/

theorem commitDrag_idle (h : Host) (s : State) (hidle : s.isDragging = false) :
    commitDrag h s = s := by
  unfold commitDrag
  rw [hidle]

/-- C14.  `pointerUp` with no active drag is a no-op on data: for every state
with `isDragging = false` (idle or panning), `handleMouseUp` only resets the
interaction state (`isDragging`, `isPanning`, `dragNode`, and the cursor style);
it makes no call of `DataManager.updateCard` and leaves the transform, the
selection, every element (so every node position) and the card store
unchanged. -/
theorem handleMouseUp_without_drag (h : Host) (s : State) (hidle : s.isDragging = false) :
    handleMouseUp h s
        = { s with isDragging := false, isPanning := false, dragNode := none, cursor := "grab" }
      ∧ (handleMouseUp h s).writeLog = s.writeLog
      ∧ (handleMouseUp h s).transform = s.transform
      ∧ (handleMouseUp h s).selectedNodes = s.selectedNodes
      ∧ (handleMouseUp h s).elements = s.elements
      ∧ (handleMouseUp h s).nodeElements = s.nodeElements
      ∧ (handleMouseUp h s).cards = s.cards := by
  have key : handleMouseUp h s
      = { s with isDragging := false, isPanning := false, dragNode := none, cursor := "grab" } := by
    unfold handleMouseUp
    rw [commitDrag_idle h s hidle]
  refine ⟨key, ?_, ?_, ?_, ?_, ?_, ?_⟩ <;> rw [key]

/-- Witness for C14: `demoGraph` while panning (the background was pressed at
`(5, 5)`). -/
theorem handleMouseUp_without_drag_witness :
    (handleMouseDown demoGraph { clientX := 5, clientY := 5, button := 0, onBackground := true }).isDragging
        = false
      ∧ (handleMouseUp demoHost
          (handleMouseDown demoGraph
            { clientX := 5, clientY := 5, button := 0, onBackground := true })).writeLog
        = (handleMouseDown demoGraph
            { clientX := 5, clientY := 5, button := 0, onBackground := true }).writeLog :=
  ⟨by decide,
    (handleMouseUp_without_drag demoHost
      (handleMouseDown demoGraph { clientX := 5, clientY := 5, button := 0, onBackground := true })
      (by decide)).2.1⟩

/-! ## `centerGraph` -/

/-- C20.  With zero entities `centerGraph` short-circuits to the origin: for
every prior transform and every host (with or without a canvas), on an empty
card list it returns normally with `x = 0`, `y = 0` and the scale unchanged.
The bounding-box accumulators play no part in the result, so no infinite or
undefined value can enter the transform. -/
theorem centerGraph_empty (h : Host) (s : State) (hempty : s.cards = []) :
    centerGraph h s
        = .ok (applyTransform { s with transform := { s.transform with x := 0, y := 0 } })
      ∧ (settle (centerGraph h s)).transform = { x := 0, y := 0, scale := s.transform.scale } := by
  have key : centerGraph h s
      = .ok (applyTransform { s with transform := { s.transform with x := 0, y := 0 } }) := by
    unfold centerGraph
    simp [hempty]
  refine ⟨key, ?_⟩
  rw [key]
  simp [settle]

/-- Witness for C20: the zoomed demo graph after the store lost all its
cards. -/
theorem centerGraph_empty_witness :
    ({ demoZoomed with cards := [] } : State).cards = []
      ∧ (settle (centerGraph demoHost { demoZoomed with cards := [] })).transform
          = { x := 0, y := 0, scale := ({ demoZoomed with cards := [] } : State).transform.scale } :=
  ⟨rfl, (centerGraph_empty demoHost { demoZoomed with cards := [] } rfl).2⟩

/-- The `width` of the loop body of `centerGraph` (graph.js 598-599) is the
node width `widthOf`. -/
theorem growBounds_width (s : State) (card : Card) :
    numberOr (((mapGet s.nodeElements card.id).bind (fun el => s.elements[el]?)).map
      (fun e => e.offsetWidth)) 180 = widthOf s card := by
  unfold widthOf numberOr
  cases hm : mapGet s.nodeElements card.id with
  | none => rfl
  | some el =>
    simp only [Option.some_bind]
    cases he : s.elements[el]? with
    | none => rfl
    | some e => rfl

/-- The `height` of the loop body of `centerGraph` (graph.js 598, 600) is the
node height `heightOf`. -/
theorem growBounds_height (s : State) (card : Card) :
    numberOr (((mapGet s.nodeElements card.id).bind (fun el => s.elements[el]?)).map
      (fun e => e.offsetHeight)) 80 = heightOf s card := by
  unfold heightOf numberOr
  cases hm : mapGet s.nodeElements card.id with
  | none => rfl
  | some el =>
    simp only [Option.some_bind]
    cases he : s.elements[el]? with
    | none => rfl
    | some e => rfl

theorem growBounds_sizes (s : State) (b : Bounds) (card : Card) :
    growBounds s b card
      = { minX := minInto b.minX (positionOrOrigin card).x
          minY := minInto b.minY (positionOrOrigin card).y
          maxX := maxInto b.maxX ((positionOrOrigin card).x + widthOf s card)
          maxY := maxInto b.maxY ((positionOrOrigin card).y + heightOf s card) } := by
  rw [← growBounds_width, ← growBounds_height]
  rfl

theorem foldl_growBounds_fields (s : State) (l : List Card) (b : Bounds) :
    (l.foldl (growBounds s) b).minX
        = l.foldl (fun a c => minInto a (positionOrOrigin c).x) b.minX
      ∧ (l.foldl (growBounds s) b).minY
        = l.foldl (fun a c => minInto a (positionOrOrigin c).y) b.minY
      ∧ (l.foldl (growBounds s) b).maxX
        = l.foldl (fun a c => maxInto a ((positionOrOrigin c).x + widthOf s c)) b.maxX
      ∧ (l.foldl (growBounds s) b).maxY
        = l.foldl (fun a c => maxInto a ((positionOrOrigin c).y + heightOf s c)) b.maxY := by
  induction l generalizing b with
  | nil => exact ⟨rfl, rfl, rfl, rfl⟩
  | cons c l ih =>
    simp only [List.foldl]
    obtain ⟨h1, h2, h3, h4⟩ := ih (growBounds s b c)
    have e3 : (growBounds s b c).maxX
        = maxInto b.maxX ((positionOrOrigin c).x + widthOf s c) := by
      rw [growBounds_sizes]
    have e4 : (growBounds s b c).maxY
        = maxInto b.maxY ((positionOrOrigin c).y + heightOf s c) := by
      rw [growBounds_sizes]
    rw [e3] at h3
    rw [e4] at h4
    exact ⟨h1, h2, h3, h4⟩

theorem foldl_minInto_some (f : Card → ℚ) (l : List Card) (a : ℚ) :
    ∃ m, l.foldl (fun acc c => minInto acc (f c)) (some a) = some m
      ∧ (m = a ∨ ∃ c ∈ l, f c = m) ∧ m ≤ a ∧ ∀ c ∈ l, m ≤ f c := by
  induction l generalizing a with
  | nil => exact ⟨a, rfl, Or.inl rfl, le_refl _, by simp⟩
  | cons c l ih =>
    simp only [List.foldl, minInto]
    obtain ⟨m, hm, hex, hle, hall⟩ := ih (min a (f c))
    refine ⟨m, hm, ?_, le_trans hle (min_le_left _ _), ?_⟩
    · rcases hex with h1 | ⟨c2, hc2, h2⟩
      · rcases min_choice a (f c) with h3 | h3
        · exact Or.inl (h1.trans h3)
        · exact Or.inr ⟨c, List.mem_cons_self _ _, (h1.trans h3).symm⟩
      · exact Or.inr ⟨c2, List.mem_cons_of_mem _ hc2, h2⟩
    · intro c2 hc2
      rcases List.mem_cons.mp hc2 with h1 | h1
      · rw [h1]
        exact le_trans hle (min_le_right _ _)
      · exact hall c2 h1

theorem foldl_maxInto_some (f : Card → ℚ) (l : List Card) (a : ℚ) :
    ∃ m, l.foldl (fun acc c => maxInto acc (f c)) (some a) = some m
      ∧ (m = a ∨ ∃ c ∈ l, f c = m) ∧ a ≤ m ∧ ∀ c ∈ l, f c ≤ m := by
  induction l generalizing a with
  | nil => exact ⟨a, rfl, Or.inl rfl, le_refl _, by simp⟩
  | cons c l ih =>
    simp only [List.foldl, maxInto]
    obtain ⟨m, hm, hex, hle, hall⟩ := ih (max a (f c))
    refine ⟨m, hm, ?_, le_trans (le_max_left _ _) hle, ?_⟩
    · rcases hex with h1 | ⟨c2, hc2, h2⟩
      · rcases max_choice a (f c) with h3 | h3
        · exact Or.inl (h1.trans h3)
        · exact Or.inr ⟨c, List.mem_cons_self _ _, (h1.trans h3).symm⟩
      · exact Or.inr ⟨c2, List.mem_cons_of_mem _ hc2, h2⟩
    · intro c2 hc2
      rcases List.mem_cons.mp hc2 with h1 | h1
      · rw [h1]
        exact le_trans (le_max_right _ _) hle
      · exact hall c2 h1

theorem foldl_minInto_isMin (f : Card → ℚ) (l : List Card) (hne : l ≠ []) :
    ∃ m, l.foldl (fun acc c => minInto acc (f c)) none = some m ∧ IsMinOver l f m := by
  cases l with
  | nil => exact absurd rfl hne
  | cons c l =>
    simp only [List.foldl, minInto]
    obtain ⟨m, hm, hex, hle, hall⟩ := foldl_minInto_some f l (f c)
    refine ⟨m, hm, ?_, ?_⟩
    · rcases hex with h1 | ⟨c2, hc2, h2⟩
      · exact ⟨c, List.mem_cons_self _ _, h1.symm⟩
      · exact ⟨c2, List.mem_cons_of_mem _ hc2, h2⟩
    · intro c2 hc2
      rcases List.mem_cons.mp hc2 with h1 | h1
      · rw [h1]
        exact hle
      · exact hall c2 h1

theorem foldl_maxInto_isMax (f : Card → ℚ) (l : List Card) (hne : l ≠ []) :
    ∃ m, l.foldl (fun acc c => maxInto acc (f c)) none = some m ∧ IsMaxOver l f m := by
  cases l with
  | nil => exact absurd rfl hne
  | cons c l =>
    simp only [List.foldl, maxInto]
    obtain ⟨m, hm, hex, hle, hall⟩ := foldl_maxInto_some f l (f c)
    refine ⟨m, hm, ?_, ?_⟩
    · rcases hex with h1 | ⟨c2, hc2, h2⟩
      · exact ⟨c, List.mem_cons_self _ _, h1.symm⟩
      · exact ⟨c2, List.mem_cons_of_mem _ hc2, h2⟩
    · intro c2 hc2
      rcases List.mem_cons.mp hc2 with h1 | h1
      · rw [h1]
        exact hle
      · exact hall c2 h1

theorem centerGraph_of_cards (h : Host) (s : State) (hne : s.cards ≠ []) (hc : s.canvas = true) :
    centerGraph h s = .ok (applyTransform { s with transform :=
      { s.transform with
        x := h.canvasWidth / 2
          - ((graphBounds s).minX.getD 0 + (graphBounds s).maxX.getD 0) / 2 * s.transform.scale
        y := h.canvasHeight / 2
          - ((graphBounds s).minY.getD 0 + (graphBounds s).maxY.getD 0) / 2 * s.transform.scale } }) := by
  unfold centerGraph
  have hlen : ¬ s.cards.length = 0 := by
    intro h0
    exact hne (List.length_eq_zero.mp h0)
  simp only [hlen, if_false, hc, Bool.not_true, Bool.false_eq_true]
  rfl

/-- C19.  `centerGraph` centers the bounding box: for every non-empty card list
and with a canvas, `centerGraph` returns normally and leaves the scale
unchanged; the accumulators of its loop are the least `pos.x`, the least
`pos.y`, the greatest `pos.x + width` and the greatest `pos.y + height` over
the cards, where `width` and `height` are the layout size of the card's node
(`offsetWidth`, `offsetHeight` of the element registered for the card) and
default to `180` and `80` for a card without a node or with a zero size; and
the midpoint `c` of that box satisfies
`c * scale + (x, y) = (canvas.width / 2, canvas.height / 2)` for the new
transform. -/
theorem centerGraph_centers_box (h : Host) (s : State) (hne : s.cards ≠ [])
    (hc : s.canvas = true) :
    ∃ minX minY maxX maxY : ℚ,
      graphBounds s = { minX := some minX, minY := some minY, maxX := some maxX, maxY := some maxY }
        ∧ IsMinOver s.cards (fun c => (positionOrOrigin c).x) minX
        ∧ IsMinOver s.cards (fun c => (positionOrOrigin c).y) minY
        ∧ IsMaxOver s.cards (fun c => (positionOrOrigin c).x + widthOf s c) maxX
        ∧ IsMaxOver s.cards (fun c => (positionOrOrigin c).y + heightOf s c) maxY
        ∧ centerGraph h s = .ok (settle (centerGraph h s))
        ∧ (settle (centerGraph h s)).transform.scale = s.transform.scale
        ∧ (minX + maxX) / 2 * (settle (centerGraph h s)).transform.scale
            + (settle (centerGraph h s)).transform.x = h.canvasWidth / 2
        ∧ (minY + maxY) / 2 * (settle (centerGraph h s)).transform.scale
            + (settle (centerGraph h s)).transform.y = h.canvasHeight / 2 := by
  obtain ⟨f1, f2, f3, f4⟩ := foldl_growBounds_fields s s.cards
    { minX := none, minY := none, maxX := none, maxY := none }
  obtain ⟨minX, e1, p1⟩ := foldl_minInto_isMin (fun c => (positionOrOrigin c).x) s.cards hne
  obtain ⟨minY, e2, p2⟩ := foldl_minInto_isMin (fun c => (positionOrOrigin c).y) s.cards hne
  obtain ⟨maxX, e3, p3⟩ :=
    foldl_maxInto_isMax (fun c => (positionOrOrigin c).x + widthOf s c) s.cards hne
  obtain ⟨maxY, e4, p4⟩ :=
    foldl_maxInto_isMax (fun c => (positionOrOrigin c).y + heightOf s c) s.cards hne
  have hb : graphBounds s
      = { minX := some minX, minY := some minY, maxX := some maxX, maxY := some maxY } := by
    have g1 : (graphBounds s).minX = some minX := by unfold graphBounds; rw [f1]; exact e1
    have g2 : (graphBounds s).minY = some minY := by unfold graphBounds; rw [f2]; exact e2
    have g3 : (graphBounds s).maxX = some maxX := by unfold graphBounds; rw [f3]; exact e3
    have g4 : (graphBounds s).maxY = some maxY := by unfold graphBounds; rw [f4]; exact e4
    cases hg : graphBounds s
    rw [hg] at g1 g2 g3 g4
    simp only at g1 g2 g3 g4
    rw [g1, g2, g3, g4]
  refine ⟨minX, minY, maxX, maxY, hb, p1, p2, p3, p4, ?_⟩
  rw [centerGraph_of_cards h s hne hc, hb]
  simp only [settle, applyTransform_transform, Option.getD_some]
  refine ⟨trivial, trivial, ?_, ?_⟩ <;> ring

set_option maxRecDepth 20000 in
/-- Witness for C19 at `demoSized`: cards `a` at `(10, 20)` and `b` at
`(300, 40)` with nodes of `200 x 90` on a canvas of `800 x 600`.  The box is
`[10, 500] x [20, 130]`, its midpoint `(255, 75)`, and the new transform is
`(145, 225)` at scale `1`; with the default size `180 x 80` it would be
`(155, 230)`. -/
theorem centerGraph_centers_box_witness :
    demoSized.cards ≠ [] ∧ demoSized.canvas = true
      ∧ widthOf demoSized demoCardA = 200 ∧ heightOf demoSized demoCardA = 90
      ∧ widthOf demoSized demoCardB = 200 ∧ heightOf demoSized demoCardB = 90
      ∧ graphBounds demoSized
          = { minX := some 10, minY := some 20, maxX := some 500, maxY := some 130 }
      ∧ centerGraph demoHostSized demoSized
          = .ok (settle (centerGraph demoHostSized demoSized))
      ∧ (settle (centerGraph demoHostSized demoSized)).transform
          = { x := 145, y := 225, scale := 1 } := by
  obtain ⟨minX, minY, maxX, maxY, hb, _, _, _, _, hok, hs, hx, hy⟩ :=
    centerGraph_centers_box demoHostSized demoSized (by decide) (by decide)
  have hbox : graphBounds demoSized
      = { minX := some 10, minY := some 20, maxX := some 500, maxY := some 130 } := by
    with_unfolding_all decide
  have hscale : demoSized.transform.scale = 1 := by with_unfolding_all decide
  rw [hbox] at hb
  simp only [Bounds.mk.injEq, Option.some.injEq] at hb
  obtain ⟨b1, b2, b3, b4⟩ := hb
  rw [hscale] at hs
  rw [← b1, ← b3, hs] at hx
  rw [← b2, ← b4, hs] at hy
  have hw : demoHostSized.canvasWidth = 800 := rfl
  have hh : demoHostSized.canvasHeight = 600 := rfl
  rw [hw] at hx
  rw [hh] at hy
  refine ⟨by decide, by decide, by with_unfolding_all decide, by with_unfolding_all decide,
    by with_unfolding_all decide, by with_unfolding_all decide, hbox, hok, ?_⟩
  cases ht : (settle (centerGraph demoHostSized demoSized)).transform with
  | mk x y scale =>
    rw [ht] at hs hx hy
    simp only at hs hx hy
    rw [hs]
    congr 1 <;> linarith

/-! ## Selection on press -/

theorem mem_setAdd (sel : List String) (k id : String) :
    id ∈ setAdd sel k ↔ id ∈ sel ∨ id = k := by
  unfold setAdd
  split
  · rename_i hk
    constructor
    · intro h1
      exact Or.inl h1
    · rintro (h1 | h1)
      · exact h1
      · rw [h1]
        exact hk
  · simp

/-- C11 as stated fails.  In `demoClicked` the selection is `{a}`; node `b` is
in the registry; after the press on `b` the selection is `{a, b}`, not
`{b}`. -/
theorem startDragNode_keeps_prior_selection :
    demoClicked.selectedNodes = ["a"]
      ∧ mapGet demoClicked.nodeElements demoCardB.id = some 1
      ∧ (startDragNode demoClicked 1 demoCardB (pointerAt 305 45) { x := 300, y := 40 }).selectedNodes
          = ["a", "b"] := by
  refine ⟨?_, ?_, ?_⟩ <;> with_unfolding_all decide

/-- C11, amended.  Pressing a node adds it to the selection: for every prior
selection and every node `N` in the registry, after the press on `N`
(`startDragNode`) the selection is the prior selection with `N` added (an id is
selected iff it was selected before or is `N`), the element registered for `N`
carries the `selected` mark, and with an empty prior selection the selection is
`{N}`. -/
theorem startDragNode_adds_to_selection (s : State) (element hd : Handle) (card : Card)
    (e : MouseEvent) (rect : Position) (hreg : mapGet s.nodeElements card.id = some hd) :
    (startDragNode s element card e rect).selectedNodes = setAdd s.selectedNodes card.id
      ∧ (∀ id, id ∈ (startDragNode s element card e rect).selectedNodes
          ↔ id ∈ s.selectedNodes ∨ id = card.id)
      ∧ (s.selectedNodes = [] → (startDragNode s element card e rect).selectedNodes = [card.id])
      ∧ (∀ el, s.elements[hd]? = some el →
          ((startDragNode s element card e rect).elements[hd]?).map (fun x => x.selected)
            = some true) := by
  have key : (startDragNode s element card e rect).selectedNodes
      = setAdd s.selectedNodes card.id := by
    unfold startDragNode selectNode
    simp only [hreg]
  refine ⟨key, ?_, ?_, ?_⟩
  · intro id
    rw [key]
    exact mem_setAdd _ _ _
  · intro hempty
    rw [key, hempty]
    rfl
  · intro el hel
    unfold startDragNode selectNode
    simp only [hreg, getElem?_modifyElement, if_true]
    by_cases hj : element = hd
    · simp [hj, hel]
    · simp [hj, hel]

/-- Witness for the amended C11: the press on node `b` in `demoClicked`. -/
theorem startDragNode_adds_to_selection_witness :
    mapGet demoClicked.nodeElements demoCardB.id = some 1
      ∧ (startDragNode demoClicked 1 demoCardB (pointerAt 305 45) { x := 300, y := 40 }).selectedNodes
          = setAdd demoClicked.selectedNodes demoCardB.id :=
  ⟨by with_unfolding_all decide,
    (startDragNode_adds_to_selection demoClicked 1 1 demoCardB (pointerAt 305 45)
      { x := 300, y := 40 } (by with_unfolding_all decide)).1⟩

/-! ## Quiet operations -/

theorem quiet_refl (s : State) : Quiet s s := ⟨rfl, rfl, rfl, rfl, fun _ h => h⟩

theorem quiet_trans {s t u : State} (h1 : Quiet s t) (h2 : Quiet t u) : Quiet s u :=
  ⟨h2.1.trans h1.1, h2.2.1.trans h1.2.1, h2.2.2.1.trans h1.2.2.1, h2.2.2.2.1.trans h1.2.2.2.1,
    fun j hj => h1.2.2.2.2 j (h2.2.2.2.2 j hj)⟩

theorem quiet_foldl {α : Type} (f : State → α → State) (hf : ∀ s a, Quiet s (f s a))
    (l : List α) (s : State) : Quiet s (l.foldl f s) := by
  induction l generalizing s with
  | nil => exact quiet_refl s
  | cons a l ih => exact quiet_trans (hf s a) (ih (f s a))

theorem marked_modifyElement {f : Element → Element} {es : List Element} {i j : Handle}
    (h : Marked (modifyElement f es i) j) (hf : ∀ e, (f e).dragging = e.dragging) :
    Marked es j := by
  obtain ⟨el, hel, hd⟩ := h
  rw [getElem?_modifyElement] at hel
  by_cases hij : i = j
  · rw [if_pos hij] at hel
    cases he : es[j]? with
    | none => rw [he] at hel; simp at hel
    | some e0 =>
      rw [he] at hel
      simp only [Option.map_some', Option.some.injEq] at hel
      refine ⟨e0, he, ?_⟩
      rw [← hf e0, hel]
      exact hd
  · rw [if_neg hij] at hel
    exact ⟨el, hel, hd⟩

theorem marked_append_unmarked {es : List Element} {e : Element} {j : Handle}
    (h : Marked (es ++ [e]) j) (he : e.dragging = false) : Marked es j := by
  obtain ⟨el, hel, hd⟩ := h
  by_cases hlt : j < es.length
  · rw [List.getElem?_append_left hlt] at hel
    exact ⟨el, hel, hd⟩
  · rw [List.getElem?_append_right (not_lt.mp hlt)] at hel
    cases hk : j - es.length with
    | zero =>
      rw [hk] at hel
      simp only [List.getElem?_cons_zero, Option.some.injEq] at hel
      rw [← hel, he] at hd
      exact Bool.noConfusion hd
    | succ n =>
      rw [hk] at hel
      simp at hel

theorem applyTransform_quiet (s : State) : Quiet s (applyTransform s) := by
  unfold applyTransform
  split
  · exact quiet_refl s
  · exact ⟨rfl, rfl, rfl, rfl, fun _ h => h⟩

theorem removeStale_quiet (cards : List Card) (s : State) (e : String × Handle) :
    Quiet s (removeStale cards s e) := by
  unfold removeStale
  split
  · exact ⟨rfl, rfl, rfl, rfl, fun _ hj => marked_modifyElement hj (fun _ => rfl)⟩
  · exact quiet_refl s

theorem addOrUpdate_quiet (h : Host) (s : State) (c : Card) : Quiet s (addOrUpdate h s c) := by
  unfold addOrUpdate
  split
  · exact ⟨rfl, rfl, rfl, rfl, fun _ hj => marked_append_unmarked hj rfl⟩
  · exact ⟨rfl, rfl, rfl, rfl, fun _ hj => marked_modifyElement hj (fun _ => rfl)⟩

theorem renderNodes_quiet (h : Host) (s : State) : Quiet s (renderNodes h s) := by
  unfold renderNodes
  split
  · exact quiet_refl s
  · exact quiet_trans
      (quiet_trans (quiet_foldl _ (removeStale_quiet s.cards) _ s)
        (quiet_foldl _ (addOrUpdate_quiet h) _ _))
      (applyTransform_quiet _)

theorem updateCard_quiet (h : Host) (s : State) (cardId : String) (p : Position) :
    Quiet s (updateCard h s cardId p) := by
  unfold updateCard
  simp only
  split
  · exact ⟨rfl, rfl, rfl, rfl, fun _ hj => hj⟩
  · split
    · exact quiet_trans (s := s) ⟨rfl, rfl, rfl, rfl, fun _ hj => hj⟩ (renderNodes_quiet h _)
    · exact ⟨rfl, rfl, rfl, rfl, fun _ hj => hj⟩

theorem selectNode_quiet (s : State) (cardId : String) : Quiet s (selectNode s cardId) := by
  unfold selectNode
  split
  · exact quiet_refl s
  · exact ⟨rfl, rfl, rfl, rfl, fun _ hj => marked_modifyElement hj (fun _ => rfl)⟩

theorem deselectOne_quiet (s : State) (id : String) : Quiet s (deselectOne s id) := by
  unfold deselectOne
  split
  · exact quiet_refl s
  · exact ⟨rfl, rfl, rfl, rfl, fun _ hj => marked_modifyElement hj (fun _ => rfl)⟩

theorem deselectAll_quiet (s : State) : Quiet s (deselectAll s) := by
  have h1 := quiet_foldl deselectOne deselectOne_quiet s.selectedNodes s
  unfold deselectAll
  exact ⟨h1.1, h1.2.1, h1.2.2.1, h1.2.2.2.1, h1.2.2.2.2⟩

theorem zoomAt_quiet (s : State) (d px py : ℚ) : Quiet s (zoomAt s d px py) := by
  unfold zoomAt
  exact quiet_trans (s := s) ⟨rfl, rfl, rfl, rfl, fun _ hj => hj⟩ (applyTransform_quiet _)

theorem zoom_quiet (h : Host) (s : State) (d : ℚ) : Quiet s (settle (zoom h s d)) := by
  unfold zoom
  split
  · exact quiet_refl s
  · exact zoomAt_quiet _ _ _ _

theorem resetZoom_quiet (s : State) : Quiet s (resetZoom s) := by
  unfold resetZoom
  exact quiet_trans (s := s) ⟨rfl, rfl, rfl, rfl, fun _ hj => hj⟩ (applyTransform_quiet _)

theorem setTransform_quiet (s : State) (t : Transform) : Quiet s (setTransform s t) := by
  unfold setTransform
  exact quiet_trans (s := s) ⟨rfl, rfl, rfl, rfl, fun _ hj => hj⟩ (applyTransform_quiet _)

theorem centerGraph_quiet (h : Host) (s : State) : Quiet s (settle (centerGraph h s)) := by
  unfold centerGraph
  simp only
  split
  · exact quiet_trans (s := s) ⟨rfl, rfl, rfl, rfl, fun _ hj => hj⟩ (applyTransform_quiet _)
  · split
    · exact quiet_refl s
    · exact quiet_trans (s := s) ⟨rfl, rfl, rfl, rfl, fun _ hj => hj⟩ (applyTransform_quiet _)

theorem focusOnCard_quiet (h : Host) (s : State) (cardId : String) :
    Quiet s (settle (focusOnCard h s cardId)) := by
  unfold focusOnCard
  split
  · exact quiet_refl s
  · simp only
    split
    · exact quiet_refl s
    · simp only [settle]
      refine quiet_trans ?_ (selectNode_quiet _ _)
      refine quiet_trans ?_ (applyTransform_quiet _)
      exact ⟨rfl, rfl, rfl, rfl, fun _ hj => hj⟩

theorem layoutCard_quiet (h : Host) (columnX : ℚ) (s : State) (entry : Nat × Card) :
    Quiet s (layoutCard h columnX s entry) := by
  unfold layoutCard
  simp only
  split
  · exact updateCard_quiet _ _ _ _
  · exact quiet_trans (updateCard_quiet h s _ _)
      ⟨rfl, rfl, rfl, rfl, fun _ hj => marked_modifyElement hj (fun _ => rfl)⟩

theorem layoutGroup_quiet (h : Host) (acc : State × ℚ) (entry : String × List Card) :
    Quiet acc.1 (layoutGroup h acc entry).1 := by
  unfold layoutGroup
  split
  · exact quiet_refl _
  · exact quiet_foldl _ (layoutCard_quiet h acc.2) _ _

theorem autoLayout_quiet (h : Host) (s : State) : Quiet s (settle (autoLayout h s)) := by
  unfold autoLayout
  simp only
  split
  · exact quiet_refl s
  · refine quiet_trans ?_ (centerGraph_quiet h _)
    exact foldl_invariant (fun (acc : State × ℚ) => Quiet s acc.1) (layoutGroup h)
      (fun b a hb => quiet_trans hb (layoutGroup_quiet h b a))
      (objectEntries (groupByType s.cards s.types)) (s, 50) (quiet_refl s)

theorem handleMouseMove_quiet (h : Host) (s : State) (e : MouseEvent) :
    Quiet s (handleMouseMove h s e) := by
  unfold handleMouseMove
  split
  · exact ⟨rfl, rfl, rfl, rfl, fun _ hj => marked_modifyElement hj (fun _ => rfl)⟩
  · split
    · exact quiet_trans (s := s) ⟨rfl, rfl, rfl, rfl, fun _ hj => hj⟩ (applyTransform_quiet _)
    · exact quiet_refl s

theorem handleWheel_quiet (h : Host) (s : State) (e : WheelEvent) :
    Quiet s (handleWheel h s e) := by
  unfold handleWheel
  exact zoomAt_quiet _ _ _ _

/-! ## The interaction state along alternating gestures -/

theorem GestureInv.of_quiet {p : Bool} {s t : State} (hq : Quiet s t) (hi : GestureInv p s) :
    GestureInv p t := by
  obtain ⟨q1, q2, q3, q4, q5⟩ := hq
  obtain ⟨a, b, c, d⟩ := hi
  refine ⟨?_, ?_, ?_, ?_⟩
  · rw [q2, q4]
    exact a
  · rw [q1, q2, q4]
    intro hl hp
    obtain ⟨b1, b2, b3⟩ := b hl hp
    exact ⟨b1, b2, fun j hj => b3 j (q5 j hj)⟩
  · rw [q1, q2]
    exact c
  · rw [q1, q3, q4]
    intro hl j hj
    exact d hl j (q5 j hj)

theorem GestureInv.pending {p : Bool} {s : State} (hi : GestureInv p s) : GestureInv true s := by
  obtain ⟨a, _, c, d⟩ := hi
  exact ⟨a, fun _ hp => Bool.noConfusion hp, c, d⟩

theorem init_gestureInv (h : Host) (cards : List Card) (types : List CardType) :
    GestureInv false (init h (initialState cards types)) := by
  have hflags : (init h (initialState cards types)).isDragging = false
      ∧ (init h (initialState cards types)).isPanning = false
      ∧ (init h (initialState cards types)).elements = [] := by
    unfold init
    simp only
    split <;> exact ⟨rfl, rfl, rfl⟩
  obtain ⟨h1, h2, h3⟩ := hflags
  have hnone : ∀ j, ¬ Marked (init h (initialState cards types)).elements j := by
    intro j hj
    obtain ⟨el, hel, _⟩ := hj
    rw [h3] at hel
    simp at hel
  refine ⟨?_, ?_, ?_, ?_⟩
  · intro hp
    rw [h2] at hp
    exact Bool.noConfusion hp
  · intro _ _
    exact ⟨h1, h2, hnone⟩
  · intro hb
    rw [h1] at hb
    exact Bool.noConfusion hb.1
  · intro _ j hj
    exact absurd hj (hnone j)

theorem handleMouseDown_gestureInv (s : State) (e : MouseEvent) (hl : s.listening = true)
    (hi : GestureInv false s) : GestureInv true (handleMouseDown s e) := by
  unfold handleMouseDown
  split
  · obtain ⟨_, b, _, _⟩ := hi
    obtain ⟨b1, _, b3⟩ := b hl rfl
    have hq := deselectAll_quiet { s with
      isPanning := true
      lastMousePos := { x := e.clientX, y := e.clientY }
      cursor := "grabbing" }
    obtain ⟨q1, q2, q3, q4, q5⟩ := hq
    refine ⟨?_, ?_, ?_, ?_⟩
    · intro _
      rw [q4]
      exact hl
    · intro _ hp
      exact Bool.noConfusion hp
    · intro hb
      rw [q1] at hb
      have h1 : s.isDragging = true := hb.1
      rw [b1] at h1
      exact Bool.noConfusion h1
    · intro _ j hj
      exact absurd (q5 j hj) (b3 j)
  · exact GestureInv.pending hi

theorem startDragNode_flags (s : State) (element : Handle) (card : Card) (e : MouseEvent)
    (rect : Position) :
    (startDragNode s element card e rect).isDragging = true
      ∧ (startDragNode s element card e rect).isPanning = s.isPanning
      ∧ (startDragNode s element card e rect).dragNode = some { element := element, card := card }
      ∧ (startDragNode s element card e rect).listening = s.listening
      ∧ ∀ j, Marked (startDragNode s element card e rect).elements j →
          j = element ∨ Marked s.elements j := by
  have hq := selectNode_quiet { s with
    isDragging := true
    dragNode := some { element := element, card := card }
    dragOffset := { x := e.clientX - rect.x, y := e.clientY - rect.y }
    elements := modifyElement (fun el => { el with dragging := true }) s.elements element } card.id
  obtain ⟨q1, q2, q3, q4, q5⟩ := hq
  unfold startDragNode
  refine ⟨q1, q2, q3, q4, ?_⟩
  intro j hj
  have hj2 := q5 j hj
  by_cases hje : j = element
  · exact Or.inl hje
  · right
    obtain ⟨el, hel, hd⟩ := hj2
    simp only [getElem?_modifyElement] at hel
    have hne : ¬ element = j := fun hh => hje hh.symm
    rw [if_neg hne] at hel
    exact ⟨el, hel, hd⟩

theorem nodeMouseDown_gestureInv (s : State) (element : Handle) (e : MouseEvent)
    (rect : Position) (hi : GestureInv false s) :
    GestureInv true (nodeMouseDown s element e rect) := by
  unfold nodeMouseDown
  split
  · exact GestureInv.pending hi
  · rename_i el _
    split
    · exact GestureInv.pending hi
    · split
      · obtain ⟨a, b, _, _⟩ := hi
        obtain ⟨f1, f2, f3, f4, f5⟩ := startDragNode_flags s element el.card e rect
        have hpan : s.isPanning = false := by
          cases hl : s.listening with
          | true => exact (b hl rfl).2.1
          | false =>
            cases hp : s.isPanning with
            | false => rfl
            | true =>
              have := a hp
              rw [hl] at this
              exact Bool.noConfusion this
        refine ⟨?_, ?_, ?_, ?_⟩
        · intro hp
          rw [f2, hpan] at hp
          exact Bool.noConfusion hp
        · intro _ hp
          exact Bool.noConfusion hp
        · intro hb
          have h2 := hb.2
          rw [f2, hpan] at h2
          exact Bool.noConfusion h2
        · intro hl j hj
          rw [f4] at hl
          refine ⟨f1, { element := element, card := el.card }, f3, ?_⟩
          rcases f5 j hj with h1 | h1
          · exact h1.symm
          · exact absurd h1 ((b hl rfl).2.2 j)
      · split
        · simp only [handleMouseDown, Bool.false_eq_true, if_false]
          exact GestureInv.pending hi
        · exact GestureInv.pending hi

theorem handleMouseUp_flags (h : Host) (s : State) :
    (handleMouseUp h s).isDragging = false ∧ (handleMouseUp h s).isPanning = false
      ∧ (handleMouseUp h s).dragNode = none := ⟨rfl, rfl, rfl⟩

theorem handleMouseUp_no_marks (h : Host) (s : State)
    (hd : ∀ j, Marked s.elements j →
      s.isDragging = true ∧ ∃ dn, s.dragNode = some dn ∧ dn.element = j) :
    ∀ j, ¬ Marked (handleMouseUp h s).elements j := by
  intro j hj
  have hj2 : Marked (commitDrag h s).elements j := hj
  cases hdrag : s.isDragging with
  | false =>
    rw [commitDrag_idle h s hdrag] at hj2
    have := (hd j hj2).1
    rw [hdrag] at this
    exact Bool.noConfusion this
  | true =>
    cases hdn : s.dragNode with
    | none =>
      have hc : commitDrag h s = s := by
        unfold commitDrag
        rw [hdrag, hdn]
      rw [hc] at hj2
      obtain ⟨_, dn, h1, _⟩ := hd j hj2
      rw [hdn] at h1
      exact Option.noConfusion h1
    | some dn =>
      cases hel : s.elements[dn.element]? with
      | none =>
        have hc : commitDrag h s = s := by
          unfold commitDrag
          rw [hdrag, hdn]
          simp only [hel]
        rw [hc] at hj2
        obtain ⟨_, dn2, h1, h2⟩ := hd j hj2
        rw [hdn] at h1
        have hdd : dn = dn2 := Option.some.inj h1
        obtain ⟨el, hel2, _⟩ := hj2
        rw [← h2, ← hdd, hel] at hel2
        exact Option.noConfusion hel2
      | some el0 =>
        have hc : (commitDrag h s).elements
            = modifyElement (fun e => { e with dragging := false })
                (updateCard h s dn.card.id { x := el0.left, y := el0.top }).elements
                dn.element := by
          unfold commitDrag
          rw [hdrag, hdn]
          simp only [hel]
        rw [hc] at hj2
        obtain ⟨el, hel2, hmark⟩ := hj2
        rw [getElem?_modifyElement] at hel2
        by_cases hje : dn.element = j
        · rw [if_pos hje] at hel2
          cases hx : (updateCard h s dn.card.id { x := el0.left, y := el0.top }).elements[j]? with
          | none => rw [hx] at hel2; simp at hel2
          | some e1 =>
            rw [hx] at hel2
            simp only [Option.map_some', Option.some.injEq] at hel2
            rw [← hel2] at hmark
            exact Bool.noConfusion hmark
        · rw [if_neg hje] at hel2
          have hq := updateCard_quiet h s dn.card.id { x := el0.left, y := el0.top }
          obtain ⟨_, dn2, h1, h2⟩ := hd j (hq.2.2.2.2 j ⟨el, hel2, hmark⟩)
          rw [hdn] at h1
          have hdd : dn = dn2 := Option.some.inj h1
          exact hje (hdd ▸ h2)

theorem handleMouseUp_gestureInv (h : Host) (s : State) (p : Bool) (hl : s.listening = true)
    (hi : GestureInv p s) : GestureInv false (handleMouseUp h s) := by
  obtain ⟨_, _, _, d⟩ := hi
  have hnone := handleMouseUp_no_marks h s (d hl)
  refine ⟨?_, ?_, ?_, ?_⟩
  · intro hp
    exact Bool.noConfusion hp
  · intro _ _
    exact ⟨rfl, rfl, hnone⟩
  · intro hb
    exact Bool.noConfusion hb.1
  · intro _ j hj
    exact absurd hj (hnone j)

theorem GestureInv.released {p : Bool} {s : State} (hl : s.listening = false)
    (hi : GestureInv p s) : GestureInv false s := by
  obtain ⟨a, _, c, d⟩ := hi
  refine ⟨a, ?_, c, d⟩
  intro hl2
  rw [hl] at hl2
  exact Bool.noConfusion hl2

theorem step_gestureInv (h : Host) (s : State) (ev : Event) (p : Bool)
    (rest : List (Host × Event)) (hi : GestureInv p s)
    (ha : alternates p ((h, ev) :: rest) = true) :
    ∃ p2, GestureInv p2 (step h s ev) ∧ alternates p2 rest = true := by
  cases ev with
  | refresh => exact ⟨p, GestureInv.of_quiet (renderNodes_quiet h s) hi, ha⟩
  | render => exact ⟨p, hi, ha⟩
  | zoom d => exact ⟨p, GestureInv.of_quiet (zoom_quiet h s d) hi, ha⟩
  | resetZoom => exact ⟨p, GestureInv.of_quiet (resetZoom_quiet s) hi, ha⟩
  | centerGraph => exact ⟨p, GestureInv.of_quiet (centerGraph_quiet h s) hi, ha⟩
  | autoLayout => exact ⟨p, GestureInv.of_quiet (autoLayout_quiet h s) hi, ha⟩
  | focusOnCard cardId => exact ⟨p, GestureInv.of_quiet (focusOnCard_quiet h s cardId) hi, ha⟩
  | setTransform t => exact ⟨p, GestureInv.of_quiet (setTransform_quiet s t) hi, ha⟩
  | nodeMouseDown el e rect =>
    simp only [alternates, Bool.and_eq_true, Bool.not_eq_true'] at ha
    obtain ⟨hp, hrest⟩ := ha
    subst hp
    exact ⟨true, nodeMouseDown_gestureInv s el e rect hi, hrest⟩
  | mouseDown e =>
    simp only [alternates, Bool.and_eq_true, Bool.not_eq_true'] at ha
    obtain ⟨hp, hrest⟩ := ha
    subst hp
    refine ⟨true, ?_, hrest⟩
    simp only [step]
    cases hl : s.listening with
    | true => exact handleMouseDown_gestureInv s e hl hi
    | false => exact GestureInv.pending hi
  | mouseMove e =>
    refine ⟨p, ?_, ha⟩
    simp only [step]
    split
    · exact GestureInv.of_quiet (handleMouseMove_quiet h s e) hi
    · exact hi
  | mouseUp =>
    refine ⟨false, ?_, ha⟩
    simp only [step]
    cases hl : s.listening with
    | true => exact handleMouseUp_gestureInv h s p hl hi
    | false => exact GestureInv.released hl hi
  | mouseLeave =>
    refine ⟨false, ?_, ha⟩
    simp only [step]
    cases hl : s.listening with
    | true => exact handleMouseUp_gestureInv h s p hl hi
    | false => exact GestureInv.released hl hi
  | wheel e =>
    refine ⟨p, ?_, ha⟩
    simp only [step]
    split
    · exact GestureInv.of_quiet (handleWheel_quiet h s e) hi
    · exact hi
  | storeChanged cards types notify =>
    refine ⟨p, ?_, ha⟩
    simp only [step]
    split
    · exact GestureInv.of_quiet
        (quiet_trans (s := s) ⟨rfl, rfl, rfl, rfl, fun _ hj => hj⟩ (renderNodes_quiet h _)) hi
    · exact GestureInv.of_quiet (s := s) ⟨rfl, rfl, rfl, rfl, fun _ hj => hj⟩ hi

theorem run_gestureInv (evs : List (Host × Event)) (s : State) (p : Bool)
    (hi : GestureInv p s) (ha : alternates p evs = true) : ∃ p2, GestureInv p2 (run s evs) := by
  induction evs generalizing s p with
  | nil => exact ⟨p, hi⟩
  | cons he evs ih =>
    obtain ⟨h, ev⟩ := he
    obtain ⟨p2, hi2, ha2⟩ := step_gestureInv h s ev p evs hi ha
    exact ih (step h s ev) p2 hi2 ha2

theorem step_listening (h : Host) (s : State) (ev : Event) :
    (step h s ev).listening = s.listening := by
  cases ev with
  | refresh => exact (renderNodes_quiet h s).2.2.2.1
  | render => rfl
  | zoom d => exact (zoom_quiet h s d).2.2.2.1
  | resetZoom => exact (resetZoom_quiet s).2.2.2.1
  | centerGraph => exact (centerGraph_quiet h s).2.2.2.1
  | autoLayout => exact (autoLayout_quiet h s).2.2.2.1
  | focusOnCard cardId => exact (focusOnCard_quiet h s cardId).2.2.2.1
  | setTransform t => exact (setTransform_quiet s t).2.2.2.1
  | nodeMouseDown el e rect =>
    simp only [step, nodeMouseDown]
    split
    · rfl
    · split
      · rfl
      · split
        · exact (startDragNode_flags s el _ e rect).2.2.2.1
        · split
          · simp only [handleMouseDown, Bool.false_eq_true, if_false]
          · rfl
  | mouseDown e =>
    simp only [step]
    split
    · unfold handleMouseDown
      split
      · exact (deselectAll_quiet _).2.2.2.1
      · rfl
    · rfl
  | mouseMove e =>
    simp only [step]
    split
    · exact (handleMouseMove_quiet h s e).2.2.2.1
    · rfl
  | mouseUp =>
    simp only [step]
    split
    · have hq : (commitDrag h s).listening = s.listening := by
        unfold commitDrag
        split
        · split
          · rfl
          · exact (updateCard_quiet h s _ _).2.2.2.1
        · rfl
      exact hq
    · rfl
  | mouseLeave =>
    simp only [step]
    split
    · have hq : (commitDrag h s).listening = s.listening := by
        unfold commitDrag
        split
        · split
          · rfl
          · exact (updateCard_quiet h s _ _).2.2.2.1
        · rfl
      exact hq
    · rfl
  | wheel e =>
    simp only [step]
    split
    · exact (handleWheel_quiet h s e).2.2.2.1
    · rfl
  | storeChanged cards types notify =>
    simp only [step]
    split
    · exact (renderNodes_quiet h _).2.2.2.1
    · rfl

theorem run_listening (evs : List (Host × Event)) (s : State) :
    (run s evs).listening = s.listening := by
  induction evs generalizing s with
  | nil => rfl
  | cons he evs ih =>
    have h1 : run s (he :: evs) = run (step he.1 s he.2) evs := rfl
    rw [h1, ih, step_listening]

/-- C12 as stated fails.  After `init` and a first `refresh`, the secondary
button is pressed on the background (`handleMouseDown` does not look at the
button) and, while it is held, the primary button is pressed on node `a`: both
`isPanning` and `isDragging` are true. -/
theorem press_during_pan_sets_both_flags :
    (run demoState demoTwoButtons).isDragging = true
      ∧ (run demoState demoTwoButtons).isPanning = true := by
  refine ⟨?_, ?_⟩ <;> with_unfolding_all decide

/-- C12, amended.  Panning and node dragging are mutually exclusive along
gestures that do not overlap: in every state reachable from the state after
`init`, over any store, by a sequence of public operations, DOM events and
store changes in which no `mousedown` (on the background or on a node, with any
button) arrives while an earlier one has not been followed by a `mouseup` or
`mouseleave`, `isDragging` and `isPanning` are not both true. -/
theorem drag_and_pan_exclusive (h0 : Host) (cards : List Card) (types : List CardType)
    (evs : List (Host × Event)) (ha : alternates false evs = true) :
    ¬ ((run (init h0 (initialState cards types)) evs).isDragging = true
        ∧ (run (init h0 (initialState cards types)) evs).isPanning = true) := by
  obtain ⟨p, hi⟩ := run_gestureInv evs _ false (init_gestureInv h0 cards types) ha
  exact hi.2.2.1

/-- Witness for the amended C12 on `demoGestures`. -/
theorem drag_and_pan_exclusive_witness :
    alternates false demoGestures = true
      ∧ ¬ ((run (init demoHost (initialState [demoCardA, demoCardB] [])) demoGestures).isDragging
            = true
          ∧ (run (init demoHost (initialState [demoCardA, demoCardB] [])) demoGestures).isPanning
            = true) :=
  ⟨by decide, drag_and_pan_exclusive demoHost [demoCardA, demoCardB] [] demoGestures (by decide)⟩

/-- C13 as stated fails.  After `init` and a first `refresh`, node `a` is
pressed, node `b` is pressed with no release in between, and the button is
released: the flags are reset, but the element registered for `a` still carries
the `dragging` class, because `handleMouseUp` clears it only on the element of
the latest `dragNode`. -/
theorem second_press_leaves_dragging_mark :
    (run demoState demoTwoPresses).isDragging = false
      ∧ (run demoState demoTwoPresses).dragNode = none
      ∧ mapGet (run demoState demoTwoPresses).nodeElements "a" = some 0
      ∧ ((run demoState demoTwoPresses).elements[0]?).map (fun el => el.dragging) = some true := by
  refine ⟨?_, ?_, ?_, ?_⟩ <;> with_unfolding_all decide

/-- C13, amended.  After `handleMouseUp` (the handler of both `mouseup` and
`mouseleave`), from every state, `isDragging = false`, `isPanning = false` and
`dragNode = null`.  When `init` found the container and the canvas, in every
state reachable by a sequence of events in which no `mousedown` arrives while
an earlier one has not been followed by a `mouseup` or `mouseleave`, after
`handleMouseUp` no element carries the `dragging` mark, in particular no node
of the registry. -/
theorem handleMouseUp_clears_drag (h0 h : Host) (cards : List Card) (types : List CardType)
    (evs : List (Host × Event)) (hc : h0.graphContainer = true) (hv : h0.graphCanvas = true)
    (ha : alternates false evs = true) :
    (∀ s : State, (handleMouseUp h s).isDragging = false ∧ (handleMouseUp h s).isPanning = false
        ∧ (handleMouseUp h s).dragNode = none)
      ∧ (∀ j, ¬ Marked (handleMouseUp h (run (init h0 (initialState cards types)) evs)).elements j)
      ∧ ∀ id hd el,
          mapGet (handleMouseUp h (run (init h0 (initialState cards types)) evs)).nodeElements id
            = some hd →
          (handleMouseUp h (run (init h0 (initialState cards types)) evs)).elements[hd]? = some el →
          el.dragging = false := by
  have hl0 : (init h0 (initialState cards types)).listening = true := by
    simp [init, hc, hv]
  have hl : (run (init h0 (initialState cards types)) evs).listening = true := by
    rw [run_listening, hl0]
  obtain ⟨p, hi⟩ := run_gestureInv evs _ false (init_gestureInv h0 cards types) ha
  have hnone := handleMouseUp_no_marks h _ (hi.2.2.2 hl)
  refine ⟨fun s => handleMouseUp_flags h s, hnone, ?_⟩
  intro id hd el _ hel
  cases hdr : el.dragging with
  | false => rfl
  | true => exact absurd ⟨el, hel, hdr⟩ (hnone hd)

/-- Witness for the amended C13 on `demoGestures`, whose last gesture is a drag
of node `a` still in progress. -/
theorem handleMouseUp_clears_drag_witness :
    demoHost.graphContainer = true ∧ demoHost.graphCanvas = true
      ∧ alternates false demoGestures = true
      ∧ ¬ Marked (handleMouseUp demoHost
            (run (init demoHost (initialState [demoCardA, demoCardB] [])) demoGestures)).elements 0 :=
  ⟨rfl, rfl, by decide,
    (handleMouseUp_clears_drag demoHost demoHost [demoCardA, demoCardB] [] demoGestures rfl rfl
      (by decide)).2.1 0⟩

/-! ## After a failed `init` -/

/-- C18, the code at the failing input.  On a page with a container but no
canvas `init` returns early, installing no listener.  Afterwards `zoom(1)`,
`centerGraph()` and `focusOnCard('a')` throw, each at its unguarded read of
`canvas.width` (graph.js 541, 612, 734), and leave the transform as it was;
`autoLayout()` writes its two positions to the store and then throws inside
`centerGraph`.  `resizeCanvas` and `render` guard the same `canvas`
(graph.js 84, 186).  `refresh` creates the two nodes, the nodes element being
present. -/
theorem operations_after_failed_init :
    demoDisabled.listening = false
      ∧ demoDisabled.canvas = false
      ∧ threw (zoom demoHostNoCanvas demoDisabled 1) = true
      ∧ threw (centerGraph demoHostNoCanvas demoDisabled) = true
      ∧ threw (focusOnCard demoHostNoCanvas demoDisabled "a") = true
      ∧ threw (autoLayout demoHostNoCanvas demoDisabled) = true
      ∧ (settle (zoom demoHostNoCanvas demoDisabled 1)).transform = demoDisabled.transform
      ∧ (settle (centerGraph demoHostNoCanvas demoDisabled)).transform = demoDisabled.transform
      ∧ demoDisabled.cards.map (fun c => c.position)
          = [some { x := 10, y := 20 }, some { x := 300, y := 40 }]
      ∧ (settle (autoLayout demoHostNoCanvas demoDisabled)).cards.map (fun c => c.position)
          = [some { x := 50, y := 50 }, some { x := 50, y := 180 }]
      ∧ mapKeys (refresh demoHostNoCanvas demoDisabled).nodeElements = ["a", "b"] := by
  refine ⟨?_, ?_, ?_, ?_, ?_, ?_, ?_, ?_, ?_, ?_, ?_⟩ <;> with_unfolding_all decide

theorem applyTransform_cards (s : State) : (applyTransform s).cards = s.cards := by
  unfold applyTransform
  split <;> rfl

theorem resetZoom_of_scale_one (s : State) (hn : s.nodesContainer = false)
    (hs : s.transform.scale = 1) : resetZoom s = s := by
  cases s with
  | mk container nodesContainer canvas ctx minimapCanvas minimapCtx listening subscribed transform
      isDragging isPanning dragNode dragOffset lastMousePos selectedNodes nodeElements elements
      nodesTransform cursor cards types createdLog removedLog writeLog =>
    cases transform with
    | mk x y scale =>
      simp only at hn hs
      subst hn
      subst hs
      rfl

theorem run_passive (evs : List (Host × Event)) (s : State) (hn : s.nodesContainer = false)
    (hs : s.transform.scale = 1) (hp : ∀ he ∈ evs, isPassiveOp he.2 = true) : run s evs = s := by
  induction evs with
  | nil => rfl
  | cons he evs ih =>
    have hstep : step he.1 s he.2 = s := by
      have h1 := hp he (List.mem_cons_self _ _)
      cases hev : he.2 with
      | refresh => simp [step, refresh, renderNodes, hn]
      | render => rfl
      | resetZoom => exact resetZoom_of_scale_one s hn hs
      | zoom d => rw [hev] at h1; exact Bool.noConfusion h1
      | centerGraph => rw [hev] at h1; exact Bool.noConfusion h1
      | autoLayout => rw [hev] at h1; exact Bool.noConfusion h1
      | focusOnCard cardId => rw [hev] at h1; exact Bool.noConfusion h1
      | setTransform t => rw [hev] at h1; exact Bool.noConfusion h1
      | nodeMouseDown el e rect => rw [hev] at h1; exact Bool.noConfusion h1
      | mouseDown e => rw [hev] at h1; exact Bool.noConfusion h1
      | mouseMove e => rw [hev] at h1; exact Bool.noConfusion h1
      | mouseUp => rw [hev] at h1; exact Bool.noConfusion h1
      | mouseLeave => rw [hev] at h1; exact Bool.noConfusion h1
      | wheel e => rw [hev] at h1; exact Bool.noConfusion h1
      | storeChanged cards types notify => rw [hev] at h1; exact Bool.noConfusion h1
    have h2 : run s (he :: evs) = run (step he.1 s he.2) evs := rfl
    rw [h2, hstep]
    exact ih (fun he2 hm => hp he2 (List.mem_cons_of_mem _ hm))

theorem step_emptyGraph (h : Host) (s : State) (ev : Event) (he : EmptyGraph s)
    (hop : isOpExceptZoom ev = true) : EmptyGraph (step h s ev) ∧ stepThrew h s ev = false := by
  obtain ⟨hc, hr, ht⟩ := he
  cases ev with
  | refresh =>
    refine ⟨?_, rfl⟩
    simp only [step, refresh]
    have hf := renderNodes_frame h s
    unfold RenderFrame at hf
    refine ⟨by rw [hf]; exact hc, ?_, by rw [hf]; exact ht⟩
    unfold renderNodes
    split
    · exact hr
    · rw [applyTransform_nodeElements, hc, hr]
      simp only [List.foldl_nil]
      exact hr
  | render => exact ⟨⟨hc, hr, ht⟩, rfl⟩
  | resetZoom =>
    refine ⟨⟨?_, ?_, ?_⟩, rfl⟩
    · simp only [step, resetZoom, applyTransform_cards]
      exact hc
    · simp only [step, resetZoom, applyTransform_nodeElements]
      exact hr
    · simp only [step, resetZoom, applyTransform_transform, ht]
  | centerGraph =>
    obtain ⟨h1, h2⟩ := centerGraph_empty h s hc
    refine ⟨⟨?_, ?_, ?_⟩, ?_⟩
    · simp only [step, h1, settle, applyTransform_cards]
      exact hc
    · simp only [step, h1, settle, applyTransform_nodeElements]
      exact hr
    · simp only [step]
      rw [h2, ht]
    · simp only [stepThrew, h1, threw]
  | autoLayout =>
    have h1 : autoLayout h s = .ok s := by
      unfold autoLayout
      simp [hc]
    simp only [step, stepThrew, h1, settle, threw]
    exact ⟨⟨hc, hr, ht⟩, trivial⟩
  | focusOnCard cardId =>
    have h1 : focusOnCard h s cardId = .ok s := by
      unfold focusOnCard getCardById
      simp [hc]
    simp only [step, stepThrew, h1, settle, threw]
    exact ⟨⟨hc, hr, ht⟩, trivial⟩
  | zoom d => exact Bool.noConfusion hop
  | setTransform t => exact Bool.noConfusion hop
  | nodeMouseDown el e rect => exact Bool.noConfusion hop
  | mouseDown e => exact Bool.noConfusion hop
  | mouseMove e => exact Bool.noConfusion hop
  | mouseUp => exact Bool.noConfusion hop
  | mouseLeave => exact Bool.noConfusion hop
  | wheel e => exact Bool.noConfusion hop
  | storeChanged cards types notify => exact Bool.noConfusion hop

theorem run_emptyGraph (evs : List (Host × Event)) (s : State) (he : EmptyGraph s)
    (hop : ∀ x ∈ evs, isOpExceptZoom x.2 = true) : EmptyGraph (run s evs) := by
  induction evs generalizing s with
  | nil => exact he
  | cons x evs ih =>
    have h2 : run s (x :: evs) = run (step x.1 s x.2) evs := rfl
    rw [h2]
    exact ih _ (step_emptyGraph x.1 s x.2 he (hop x (List.mem_cons_self _ _))).1
      (fun y hm => hop y (List.mem_cons_of_mem _ hm))

theorem init_failed (h0 : Host) (cards : List Card) (types : List CardType)
    (hfail : h0.graphContainer = false ∨ h0.graphCanvas = false) :
    init h0 (initialState cards types)
      = { initialState cards types with
          container := h0.graphContainer
          nodesContainer := h0.graphNodes
          canvas := h0.graphCanvas
          minimapCanvas := h0.minimapCanvas } := by
  unfold init
  rcases hfail with h1 | h1 <;> simp [h1]

/-- What does hold after an `init` that found no container or no canvas: no
listener and no bus subscription is installed; without a nodes element any
sequence of `refresh`, `render` and `resetZoom` leaves the whole module state
unchanged; and over an empty store any sequence of `refresh`, `render`,
`resetZoom`, `centerGraph`, `autoLayout` and `focusOnCard` leaves the
transform, the node registry and the store unchanged, none of them throwing. -/
theorem quiet_after_failed_init (h0 : Host) (cards : List Card)
    (types : List CardType) (hfail : h0.graphContainer = false ∨ h0.graphCanvas = false) :
    (init h0 (initialState cards types)).listening = false
      ∧ (init h0 (initialState cards types)).subscribed = false
      ∧ (h0.graphNodes = false → ∀ evs : List (Host × Event),
          (∀ x ∈ evs, isPassiveOp x.2 = true) →
          run (init h0 (initialState cards types)) evs = init h0 (initialState cards types))
      ∧ (cards = [] → ∀ evs : List (Host × Event),
          (∀ x ∈ evs, isOpExceptZoom x.2 = true) →
          (run (init h0 (initialState cards types)) evs).transform
              = (init h0 (initialState cards types)).transform
            ∧ (run (init h0 (initialState cards types)) evs).nodeElements
              = (init h0 (initialState cards types)).nodeElements
            ∧ (run (init h0 (initialState cards types)) evs).cards
              = (init h0 (initialState cards types)).cards
            ∧ ∀ (h : Host) (ev : Event), isOpExceptZoom ev = true →
                stepThrew h (run (init h0 (initialState cards types)) evs) ev = false) := by
  have hinit := init_failed h0 cards types hfail
  refine ⟨by rw [hinit]; rfl, by rw [hinit]; rfl, ?_, ?_⟩
  · intro hn evs hp
    apply run_passive evs _ _ _ hp
    · rw [hinit]
      exact hn
    · rw [hinit]
      rfl
  · intro hc evs hop
    have he0 : EmptyGraph (init h0 (initialState cards types)) := by
      rw [hinit]
      exact ⟨hc, rfl, rfl⟩
    have he := run_emptyGraph evs _ he0 hop
    refine ⟨he.2.2.trans he0.2.2.symm, he.2.1.trans he0.2.1.symm, he.1.trans he0.1.symm, ?_⟩
    intro h ev hev
    exact (step_emptyGraph h _ ev he hev).2

/-- On the page with neither canvas nor nodes element, over cards `a` and `b`,
`refresh`, `resetZoom` and `render` change nothing. -/
theorem quiet_after_failed_init_demo :
    (demoHostBare.graphContainer = false ∨ demoHostBare.graphCanvas = false)
      ∧ run (init demoHostBare (initialState [demoCardA, demoCardB] [demoType]))
          [(demoHostBare, Event.refresh), (demoHostBare, Event.resetZoom),
            (demoHostBare, Event.render)]
        = init demoHostBare (initialState [demoCardA, demoCardB] [demoType]) :=
  ⟨Or.inr rfl,
    (quiet_after_failed_init demoHostBare [demoCardA, demoCardB] [demoType]
      (Or.inr rfl)).2.2.1 rfl
      [(demoHostBare, Event.refresh), (demoHostBare, Event.resetZoom), (demoHostBare, Event.render)]
      (by decide)⟩

/-! ## The writes of `autoLayout` -/

theorem layoutCard_writeLog (h : Host) (x : ℚ) (s : State) (e : Nat × Card) :
    (layoutCard h x s e).writeLog
      = s.writeLog ++ [(e.2.id, { x := x, y := 50 + (e.1 : ℚ) * (100 + 30) })] := by
  unfold layoutCard
  simp only
  split
  · rw [updateCard_writeLog]
  · simp only
    rw [updateCard_writeLog]

theorem foldl_layoutCard_writeLog (h : Host) (x : ℚ) (l : List (Nat × Card)) (s : State) :
    (l.foldl (layoutCard h x) s).writeLog
      = s.writeLog ++ l.map (fun e => (e.2.id, { x := x, y := 50 + (e.1 : ℚ) * (100 + 30) })) := by
  induction l generalizing s with
  | nil => simp
  | cons e l ih =>
    simp only [List.foldl, List.map_cons]
    rw [ih, layoutCard_writeLog, List.append_assoc]
    rfl

theorem foldl_layoutGroup_writeLog (h : Host) (gs : List (String × List Card))
    (acc : State × ℚ) :
    (gs.foldl (layoutGroup h) acc).1.writeLog = acc.1.writeLog ++ planFrom acc.2 gs := by
  induction gs generalizing acc with
  | nil => simp [planFrom]
  | cons g gs ih =>
    simp only [List.foldl]
    rw [ih]
    unfold layoutGroup
    by_cases hg : g.2.length = 0
    · simp only [hg, if_true, planFrom]
    · simp only [hg, if_false, planFrom]
      rw [foldl_layoutCard_writeLog, List.append_assoc]

theorem planFrom_enumFrom (x0 : ℚ) (gs : List (String × List Card)) (n : Nat) :
    planFrom (x0 + 250 * (n : ℚ)) gs
      = ((gs.filter (fun g => !g.2.isEmpty)).enumFrom n).flatMap
          (fun e => e.2.2.enum.map
            (fun c => (c.2.id, { x := x0 + 250 * (e.1 : ℚ), y := 50 + 130 * (c.1 : ℚ) }))) := by
  induction gs generalizing n with
  | nil => rfl
  | cons g gs ih =>
    unfold planFrom
    cases hg : g.2 with
    | nil =>
      simp only [List.length_nil, if_true, List.filter_cons, hg, List.isEmpty_nil, Bool.not_true,
        Bool.false_eq_true, if_false]
      exact ih n
    | cons c cs =>
      have hlen : ¬ (c :: cs).length = 0 := by simp
      simp only [hlen, if_false, List.filter_cons, hg, List.isEmpty_cons, Bool.not_false, if_true,
        List.enumFrom_cons, List.flatMap_cons]
      have hx : x0 + 250 * (n : ℚ) + 250 = x0 + 250 * ((n + 1 : Nat) : ℚ) := by
        push_cast
        ring
      rw [hx, ih (n + 1)]
      congr 1
      apply List.map_congr_left
      intro e _
      have hy : (50 : ℚ) + (e.1 : ℚ) * (100 + 30) = 50 + 130 * (e.1 : ℚ) := by ring
      rw [hy]

theorem planFrom_eq_layoutPlan (cards : List Card) (types : List CardType) :
    planFrom 50 (objectEntries (groupByType cards types)) = layoutPlan cards types := by
  have h := planFrom_enumFrom 50 (objectEntries (groupByType cards types)) 0
  simp only [Nat.cast_zero, mul_zero, add_zero] at h
  rw [h]
  rfl

theorem centerGraph_writeLog (h : Host) (s : State) :
    (settle (centerGraph h s)).writeLog = s.writeLog := by
  unfold centerGraph
  simp only
  split
  · simp only [settle]
    have hf := applyTransform_frame { s with transform := { s.transform with x := 0, y := 0 } }
    unfold RenderFrame at hf
    rw [hf]
  · split
    · rfl
    · simp only [settle]
      generalize hs1 : ({ s with transform := _ } : State) = s1
      have hf := applyTransform_frame s1
      unfold RenderFrame at hf
      rw [hf, ← hs1]

theorem autoLayout_writeLog (h : Host) (s : State) (hne : s.cards ≠ []) :
    (settle (autoLayout h s)).writeLog = s.writeLog ++ layoutPlan s.cards s.types := by
  unfold autoLayout
  have hlen : ¬ s.cards.length = 0 := fun h0 => hne (List.length_eq_zero.mp h0)
  simp only [hlen, if_false]
  rw [centerGraph_writeLog, foldl_layoutGroup_writeLog, planFrom_eq_layoutPlan]

/-! ## The groups of `autoLayout` -/

theorem mapKeys_mapSet {α : Type} (m : List (String × α)) (k : String) (v : α) :
    mapKeys (mapSet m k v) = if k ∈ mapKeys m then mapKeys m else mapKeys m ++ [k] := by
  induction m with
  | nil => simp [mapSet, mapKeys]
  | cons e m ih =>
    obtain ⟨k0, v0⟩ := e
    unfold mapSet
    by_cases hk : k0 = k
    · simp [hk, mapKeys]
    · have hk2 : ¬ k = k0 := fun hh => hk hh.symm
      simp only [hk, if_false, mapKeys, List.map_cons, List.mem_cons, hk2, false_or]
      simp only [mapKeys] at ih
      rw [ih]
      split <;> simp

theorem mem_mapSet {α : Type} (m : List (String × α)) (k : String) (v : α) (e : String × α)
    (h : e ∈ mapSet m k v) : e ∈ m ∨ e = (k, v) := by
  induction m with
  | nil =>
    simp only [mapSet, List.mem_singleton] at h
    exact Or.inr h
  | cons e0 m ih =>
    obtain ⟨k0, v0⟩ := e0
    unfold mapSet at h
    by_cases hk : k0 = k
    · simp only [hk, if_true, List.mem_cons] at h
      rcases h with h1 | h1
      · exact Or.inr h1
      · exact Or.inl (List.mem_cons_of_mem _ h1)
    · simp only [hk, if_false, List.mem_cons] at h
      rcases h with h1 | h1
      · exact Or.inl (h1 ▸ List.mem_cons_self _ _)
      · rcases ih h1 with h2 | h2
        · exact Or.inl (List.mem_cons_of_mem _ h2)
        · exact Or.inr h2

/-- The groups are keyed by distinct type ids, each holding the cards of that
type in card-list order; the keys are the declared type ids other than
`__proto__`. -/
theorem groupByType_spec (cards : List Card) (types : List CardType) :
    (mapKeys (groupByType cards types)).Nodup
      ∧ (∀ e ∈ groupByType cards types,
          e.2 = cards.filter (fun c => decide (c.typeId = e.1)))
      ∧ ∀ key, key ∈ mapKeys (groupByType cards types)
          ↔ key ∈ types.map (fun t => t.id) ∧ key ≠ "__proto__" := by
  unfold groupByType
  have hgen : ∀ (ts : List CardType) (g0 : List (String × List Card)),
      (mapKeys g0).Nodup →
      (∀ e ∈ g0, e.2 = cards.filter (fun c => decide (c.typeId = e.1))) →
      (mapKeys (ts.foldl (fun groups type => objectAssign groups type.id
          (cards.filter (fun c => decide (c.typeId = type.id)))) g0)).Nodup
        ∧ (∀ e ∈ ts.foldl (fun groups type => objectAssign groups type.id
            (cards.filter (fun c => decide (c.typeId = type.id)))) g0,
            e.2 = cards.filter (fun c => decide (c.typeId = e.1)))
        ∧ ∀ key, key ∈ mapKeys (ts.foldl (fun groups type => objectAssign groups type.id
            (cards.filter (fun c => decide (c.typeId = type.id)))) g0)
            ↔ key ∈ mapKeys g0 ∨ (key ∈ ts.map (fun t => t.id) ∧ key ≠ "__proto__") := by
    intro ts
    induction ts with
    | nil =>
      intro g0 h1 h2
      exact ⟨h1, h2, fun key => by simp⟩
    | cons t ts ih =>
      intro g0 h1 h2
      simp only [List.foldl]
      have hstep : (mapKeys (objectAssign g0 t.id
            (cards.filter (fun c => decide (c.typeId = t.id))))).Nodup
          ∧ (∀ e ∈ objectAssign g0 t.id (cards.filter (fun c => decide (c.typeId = t.id))),
              e.2 = cards.filter (fun c => decide (c.typeId = e.1)))
          ∧ ∀ key, key ∈ mapKeys (objectAssign g0 t.id
                (cards.filter (fun c => decide (c.typeId = t.id))))
              ↔ key ∈ mapKeys g0 ∨ (key = t.id ∧ key ≠ "__proto__") := by
        unfold objectAssign
        by_cases hp : t.id = "__proto__"
        · simp only [hp, if_true]
          refine ⟨h1, h2, ?_⟩
          intro key
          constructor
          · exact fun hk => Or.inl hk
          · rintro (hk | ⟨hk1, hk2⟩)
            · exact hk
            · exact absurd hk1 hk2
        · simp only [hp, if_false]
          refine ⟨?_, ?_, ?_⟩
          · rw [mapKeys_mapSet]
            split
            · exact h1
            · rename_i hnot
              rw [List.nodup_append]
              refine ⟨h1, List.nodup_singleton _, ?_⟩
              intro x hx hx2
              rw [List.mem_singleton] at hx2
              exact hnot (hx2 ▸ hx)
          · intro e he
            rcases mem_mapSet _ _ _ _ he with h3 | h3
            · exact h2 e h3
            · rw [h3]
          · intro key
            rw [mapKeys_mapSet]
            split
            · rename_i hin
              constructor
              · exact fun hk => Or.inl hk
              · rintro (hk | ⟨hk1, _⟩)
                · exact hk
                · rw [hk1]
                  exact hin
            · simp only [List.mem_append, List.mem_singleton]
              constructor
              · rintro (hk | hk)
                · exact Or.inl hk
                · exact Or.inr ⟨hk, hk ▸ hp⟩
              · rintro (hk | ⟨hk1, _⟩)
                · exact Or.inl hk
                · exact Or.inr hk1
      obtain ⟨s1, s2, s3⟩ := hstep
      obtain ⟨i1, i2, i3⟩ := ih _ s1 s2
      refine ⟨i1, i2, ?_⟩
      intro key
      rw [i3, s3]
      simp only [List.map_cons, List.mem_cons]
      tauto
  obtain ⟨r1, r2, r3⟩ := hgen types [] (by simp [mapKeys]) (by simp)
  refine ⟨r1, r2, ?_⟩
  intro key
  rw [r3]
  simp [mapKeys]

theorem objectEntries_perm (groups : List (String × List Card)) :
    (objectEntries groups).Perm groups := by
  unfold objectEntries
  have h1 := List.perm_insertionSort
    (fun (a b : String × List Card) => (arrayIndex a.1).getD 0 ≤ (arrayIndex b.1).getD 0)
    (groups.filter (fun e => (arrayIndex e.1).isSome))
  have h2 : groups.filter (fun e => (arrayIndex e.1).isNone)
      = groups.filter (fun e => !(arrayIndex e.1).isSome) := by
    apply List.filter_congr
    intro e _
    cases arrayIndex e.1 <;> rfl
  rw [h2]
  exact (List.Perm.append h1 (List.Perm.refl _)).trans (List.filter_append_perm _ _)

theorem placedGroups_perm (cards : List Card) (types : List CardType) :
    (placedGroups cards types).Perm
      ((groupByType cards types).filter (fun g => !g.2.isEmpty)) := by
  unfold placedGroups
  exact List.Perm.filter _ (objectEntries_perm _)

theorem placedGroups_mem (cards : List Card) (types : List CardType) (g : String × List Card)
    (hg : g ∈ placedGroups cards types) :
    g.2 = cards.filter (fun c => decide (c.typeId = g.1)) ∧ g.2 ≠ []
      ∧ g.1 ∈ types.map (fun t => t.id) := by
  have h1 := (placedGroups_perm cards types).subset hg
  rw [List.mem_filter] at h1
  obtain ⟨r1, r2, r3⟩ := groupByType_spec cards types
  refine ⟨r2 g h1.1, ?_, ?_⟩
  · intro hnil
    rw [hnil] at h1
    simp at h1
  · exact ((r3 g.1).mp (List.mem_map_of_mem Prod.fst h1.1)).1

theorem layoutPlan_columns (cards : List Card) (types : List CardType) :
    ((layoutPlan cards types).map (fun w => w.2.x)).toFinset.card
      = (placedGroups cards types).length := by
  have himg : ((layoutPlan cards types).map (fun w => w.2.x)).toFinset
      = (Finset.range (placedGroups cards types).length).image
          (fun k : Nat => (50 : ℚ) + 250 * (k : ℚ)) := by
    ext q
    simp only [List.mem_toFinset, List.mem_map, Finset.mem_image, Finset.mem_range, layoutPlan,
      List.mem_flatMap, columnWrites]
    constructor
    · rintro ⟨w, ⟨e, he, c, _, hw⟩, hq⟩
      obtain ⟨k, g⟩ := e
      have hk := List.mk_mem_enum_iff_getElem?.mp he
      refine ⟨k, ?_, ?_⟩
      · by_contra hge
        rw [List.getElem?_eq_none (not_lt.mp hge)] at hk
        exact Option.noConfusion hk
      · rw [← hq, ← hw]
    · rintro ⟨k, hk, hq⟩
      have hg : (placedGroups cards types)[k]? = some ((placedGroups cards types)[k]) :=
        List.getElem?_eq_getElem hk
      have hmem : (placedGroups cards types)[k] ∈ placedGroups cards types :=
        List.getElem_mem hk
      obtain ⟨_, hne, _⟩ := placedGroups_mem cards types _ hmem
      cases hcs : ((placedGroups cards types)[k]).2 with
      | nil => exact absurd hcs hne
      | cons c cs =>
        refine ⟨(c.id, { x := 50 + 250 * (k : ℚ), y := 50 + 130 * ((0 : Nat) : ℚ) }), ?_, hq⟩
        refine ⟨(k, (placedGroups cards types)[k]), List.mk_mem_enum_iff_getElem?.mpr hg,
          (0, c), ?_, rfl⟩
        rw [hcs]
        exact List.mk_mem_enum_iff_getElem?.mpr (by simp)
  rw [himg, Finset.card_image_of_injective, Finset.card_range]
  intro a b hab
  simp only at hab
  have h1 : (a : ℚ) = (b : ℚ) := by linarith
  exact_mod_cast h1

/-! ## Column order and unplaced cards -/

/-- C16, the code at the failing input.  The types are declared in the order
`10`, `2`, each with one card.  `Object.entries` lists the array-index keys in
ascending numeric order, so the card of type `2` is written first, to
`x = 50`, and the card of type `10`, declared first, goes to `x = 300`. -/
theorem autoLayout_reorders_index_ids :
    demoIndexState.types.map (fun t => t.id) = ["10", "2"]
      ∧ demoIndexState.cards.map (fun c => (c.id, c.typeId)) = [("k10", "10"), ("k2", "2")]
      ∧ (settle (autoLayout demoHost demoIndexState)).writeLog
          = [("k2", { x := 50, y := 50 }), ("k10", { x := 300, y := 50 })]
      ∧ (settle (autoLayout demoHost demoIndexState)).cards.map (fun c => (c.id, c.position))
          = [("k10", some { x := 300, y := 50 }), ("k2", some { x := 50, y := 50 })] := by
  refine ⟨?_, ?_, ?_, ?_⟩ <;> with_unfolding_all decide

/-- C17 as stated fails.  Card `o1` has a type id that matches no type:
`autoLayout` issues one write, for `a1`, none for `o1`, and `o1` stays at
`(7, 7)`. -/
theorem autoLayout_skips_undeclared_type :
    demoOrphanState.cards.map (fun c => (c.id, c.position))
        = [("a1", some { x := 7, y := 7 }), ("o1", some { x := 7, y := 7 })]
      ∧ (settle (autoLayout demoHost demoOrphanState)).writeLog = [("a1", { x := 50, y := 50 })]
      ∧ (settle (autoLayout demoHost demoOrphanState)).cards.map (fun c => (c.id, c.position))
          = [("a1", some { x := 50, y := 50 }), ("o1", some { x := 7, y := 7 })] := by
  refine ⟨?_, ?_, ?_⟩ <;> with_unfolding_all decide

/-! ## Which cards `autoLayout` writes -/

theorem columnWrites_ids (k : Nat) (cs : List Card) :
    (columnWrites k cs).map Prod.fst = cs.map (fun c => c.id) := by
  unfold columnWrites
  rw [List.map_map]
  have h1 : (Prod.fst ∘ fun (e : Nat × Card) =>
      (e.2.id, ({ x := 50 + 250 * (k : ℚ), y := 50 + 130 * (e.1 : ℚ) } : Position)))
      = (fun c : Card => c.id) ∘ Prod.snd := rfl
  rw [h1, ← List.map_map, List.enum_map_snd]

theorem enumFrom_flatMap_columnWrites_ids (gs : List (String × List Card)) (n : Nat) :
    ((gs.enumFrom n).flatMap (fun e => columnWrites e.1 e.2.2)).map Prod.fst
      = gs.flatMap (fun g => g.2.map (fun c => c.id)) := by
  induction gs generalizing n with
  | nil => rfl
  | cons g gs ih =>
    simp only [List.enumFrom_cons, List.flatMap_cons, List.map_append]
    rw [ih (n + 1), columnWrites_ids]

theorem layoutPlan_ids (cards : List Card) (types : List CardType) :
    (layoutPlan cards types).map Prod.fst
      = (placedGroups cards types).flatMap (fun g => g.2.map (fun c => c.id)) :=
  enumFrom_flatMap_columnWrites_ids _ 0

theorem flatMap_filter_nonempty (gs : List (String × List Card)) :
    (gs.filter (fun g => !g.2.isEmpty)).flatMap (fun g => g.2.map (fun c => c.id))
      = gs.flatMap (fun g => g.2.map (fun c => c.id)) := by
  induction gs with
  | nil => rfl
  | cons g gs ih =>
    rw [List.filter_cons]
    cases hg : g.2 with
    | nil => simp [hg, ih]
    | cons c cs => simp [hg, ih]

theorem filter_or_perm (l : List Card) (p q : Card → Bool)
    (hpq : ∀ c, ¬ (p c = true ∧ q c = true)) :
    (l.filter p ++ l.filter q).Perm (l.filter (fun c => p c || q c)) := by
  induction l with
  | nil => exact List.Perm.refl _
  | cons c l ih =>
    cases hp : p c <;> cases hq : q c
    · simpa [List.filter_cons, hp, hq] using ih
    · simp only [List.filter_cons, hp, hq, Bool.false_eq_true, if_false, if_true, Bool.or_true]
      exact (List.perm_middle).trans (List.Perm.cons c ih)
    · simp only [List.filter_cons, hp, hq, Bool.false_eq_true, if_false, if_true, Bool.or_false,
        List.cons_append]
      exact List.Perm.cons c ih
    · exact absurd ⟨hp, hq⟩ (hpq c)

theorem flatMap_filter_perm (cards : List Card) (keys : List String) (hnd : keys.Nodup) :
    (keys.flatMap (fun k => cards.filter (fun c => decide (c.typeId = k)))).Perm
      (cards.filter (fun c => decide (c.typeId ∈ keys))) := by
  induction keys with
  | nil => simp
  | cons k keys ih =>
    rw [List.nodup_cons] at hnd
    rw [List.flatMap_cons]
    refine (List.Perm.append (List.Perm.refl _) (ih hnd.2)).trans ?_
    refine (filter_or_perm cards _ _ ?_).trans ?_
    · intro c hc
      simp only [decide_eq_true_eq] at hc
      exact hnd.1 (hc.1 ▸ hc.2)
    · have hcongr : cards.filter (fun c => decide (c.typeId = k) || decide (c.typeId ∈ keys))
          = cards.filter (fun c => decide (c.typeId ∈ k :: keys)) := by
        apply List.filter_congr
        intro c _
        simp [List.mem_cons]
      rw [hcongr]

theorem groups_flatMap_eq (cards : List Card) (groups : List (String × List Card))
    (hg : ∀ e ∈ groups, e.2 = cards.filter (fun c => decide (c.typeId = e.1))) :
    groups.flatMap (fun g => g.2)
      = (mapKeys groups).flatMap (fun k => cards.filter (fun c => decide (c.typeId = k))) := by
  induction groups with
  | nil => rfl
  | cons e groups ih =>
    simp only [List.flatMap_cons, mapKeys, List.map_cons]
    rw [hg e (List.mem_cons_self _ _)]
    simp only [mapKeys] at ih
    rw [ih (fun e2 he2 => hg e2 (List.mem_cons_of_mem _ he2))]

theorem flatMap_map_ids (gs : List (String × List Card)) :
    gs.flatMap (fun g => g.2.map (fun c => c.id))
      = (gs.flatMap (fun g => g.2)).map (fun c => c.id) := by
  induction gs with
  | nil => rfl
  | cons g gs ih => simp only [List.flatMap_cons, List.map_append, ih]

/-- The ids written by a layout are, up to order, the ids of the cards whose
type id is a key of the groups. -/
theorem layoutPlan_ids_perm (cards : List Card) (types : List CardType)
    (hproto : ∀ t ∈ types, t.id ≠ "__proto__") :
    ((layoutPlan cards types).map Prod.fst).Perm
      ((cards.filter (hasDeclaredType types)).map (fun c => c.id)) := by
  obtain ⟨r1, r2, r3⟩ := groupByType_spec cards types
  rw [layoutPlan_ids]
  have h1 : ((placedGroups cards types).flatMap (fun g => g.2.map (fun c => c.id))).Perm
      ((groupByType cards types).flatMap (fun g => g.2.map (fun c => c.id))) := by
    have hp := List.Perm.flatMap_right (fun (g : String × List Card) => g.2.map (fun c => c.id))
      (placedGroups_perm cards types)
    rw [flatMap_filter_nonempty] at hp
    exact hp
  refine h1.trans ?_
  rw [flatMap_map_ids, groups_flatMap_eq cards _ r2]
  refine List.Perm.map _ ?_
  refine (flatMap_filter_perm cards _ r1).trans ?_
  have hcongr : cards.filter (fun c => decide (c.typeId ∈ mapKeys (groupByType cards types)))
      = cards.filter (hasDeclaredType types) := by
    apply List.filter_congr
    intro c _
    unfold hasDeclaredType
    have hiff := r3 c.typeId
    by_cases hin : c.typeId ∈ types.map (fun t => t.id)
    · have hne : c.typeId ≠ "__proto__" := by
        rw [List.mem_map] at hin
        obtain ⟨t, ht, hid⟩ := hin
        rw [← hid]
        exact hproto t ht
      simp [hin, hiff.mpr ⟨hin, hne⟩]
    · have hnot : c.typeId ∉ mapKeys (groupByType cards types) := fun hk => hin (hiff.mp hk).1
      simp [hin, hnot]
  rw [hcongr]

/-! ## The store after `autoLayout` -/

theorem replaceCard_of_not_found (cards : List Card) (cardId : String) (f : Card → Card)
    (h : getCardById cards cardId = none) : replaceCard cards cardId f = cards := by
  induction cards with
  | nil => rfl
  | cons c cards ih =>
    unfold getCardById at h
    unfold replaceCard
    by_cases hc : c.id = cardId
    · simp [List.find?, hc] at h
    · simp only [hc, if_false]
      rw [ih]
      unfold getCardById
      simpa [List.find?, hc] using h

theorem getCardById_replaceCard (cards : List Card) (k id : String) (f : Card → Card)
    (hf : ∀ c, (f c).id = c.id) :
    getCardById (replaceCard cards k f) id
      = if k = id then (getCardById cards id).map f else getCardById cards id := by
  induction cards with
  | nil => simp [replaceCard, getCardById]
  | cons c cards ih =>
    unfold replaceCard
    by_cases hck : c.id = k
    · simp only [hck, if_true]
      by_cases hki : k = id
      · subst hki
        simp [getCardById, List.find?, hf, hck]
      · have h1 : ¬ c.id = id := fun hh => hki (hck ▸ hh)
        simp [getCardById, List.find?, hf, h1, hki]
    · simp only [hck, if_false]
      by_cases hci : c.id = id
      · have hki : ¬ k = id := fun hh => hck (hh ▸ hci)
        simp [getCardById, List.find?, hci, hki]
      · have h2 : getCardById (c :: replaceCard cards k f) id
            = getCardById (replaceCard cards k f) id := by
          simp [getCardById, List.find?, hci]
        have h3 : getCardById (c :: cards) id = getCardById cards id := by
          simp [getCardById, List.find?, hci]
        rw [h2, h3, ih]

theorem updateCard_cards (h : Host) (s : State) (cardId : String) (p : Position) :
    (updateCard h s cardId p).cards = replaceCard s.cards cardId (withPosition h.now p) := by
  unfold updateCard
  simp only
  split
  · rename_i hnone
    rw [replaceCard_of_not_found _ _ _ hnone]
  · split
    · rw [refresh, (renderNodes_fields h _).1]
      rfl
    · rfl

theorem layoutCard_cards (h : Host) (x : ℚ) (s : State) (e : Nat × Card) :
    (layoutCard h x s e).cards
      = applyWrites h.now s.cards [(e.2.id, { x := x, y := 50 + (e.1 : ℚ) * (100 + 30) })] := by
  unfold layoutCard
  simp only
  split
  · rw [updateCard_cards]
    rfl
  · simp only
    rw [updateCard_cards]
    rfl

theorem applyWrites_append (now : Nat) (cards : List Card) (w1 w2 : List (String × Position)) :
    applyWrites now (applyWrites now cards w1) w2 = applyWrites now cards (w1 ++ w2) := by
  unfold applyWrites
  rw [List.foldl_append]

theorem foldl_layoutCard_cards (h : Host) (x : ℚ) (l : List (Nat × Card)) (s : State) :
    (l.foldl (layoutCard h x) s).cards
      = applyWrites h.now s.cards
          (l.map (fun e => (e.2.id, { x := x, y := 50 + (e.1 : ℚ) * (100 + 30) }))) := by
  induction l generalizing s with
  | nil => rfl
  | cons e l ih =>
    simp only [List.foldl, List.map_cons]
    rw [ih, layoutCard_cards, applyWrites_append]
    rfl

theorem foldl_layoutGroup_cards (h : Host) (gs : List (String × List Card)) (acc : State × ℚ) :
    (gs.foldl (layoutGroup h) acc).1.cards = applyWrites h.now acc.1.cards (planFrom acc.2 gs) := by
  induction gs generalizing acc with
  | nil => rfl
  | cons g gs ih =>
    simp only [List.foldl]
    rw [ih]
    unfold layoutGroup
    by_cases hg : g.2.length = 0
    · simp only [hg, if_true, planFrom]
    · simp only [hg, if_false, planFrom]
      rw [foldl_layoutCard_cards, applyWrites_append]

theorem centerGraph_cards (h : Host) (s : State) :
    (settle (centerGraph h s)).cards = s.cards := by
  unfold centerGraph
  simp only
  split
  · simp only [settle, applyTransform_cards]
  · split
    · rfl
    · simp only [settle, applyTransform_cards]

theorem autoLayout_cards (h : Host) (s : State) (hne : s.cards ≠ []) :
    (settle (autoLayout h s)).cards = applyWrites h.now s.cards (layoutPlan s.cards s.types) := by
  unfold autoLayout
  have hlen : ¬ s.cards.length = 0 := fun h0 => hne (List.length_eq_zero.mp h0)
  simp only [hlen, if_false]
  rw [centerGraph_cards, foldl_layoutGroup_cards, planFrom_eq_layoutPlan]

theorem getCardById_applyWrites_of_not_mem (now : Nat) (writes : List (String × Position))
    (cards : List Card) (id : String) (hid : id ∉ writes.map Prod.fst) :
    getCardById (applyWrites now cards writes) id = getCardById cards id := by
  induction writes generalizing cards with
  | nil => rfl
  | cons w writes ih =>
    simp only [List.map_cons, List.mem_cons, not_or] at hid
    have h1 : applyWrites now cards (w :: writes)
        = applyWrites now (replaceCard cards w.1 (withPosition now w.2)) writes := rfl
    rw [h1, ih _ hid.2, getCardById_replaceCard cards w.1 id (withPosition now w.2) (fun _ => rfl)]
    have hne : ¬ w.1 = id := fun hh => hid.1 hh.symm
    rw [if_neg hne]

theorem getCardById_applyWrites_of_mem (now : Nat) (writes : List (String × Position))
    (cards : List Card) (id : String) (p : Position) (hnd : (writes.map Prod.fst).Nodup)
    (hmem : (id, p) ∈ writes) :
    getCardById (applyWrites now cards writes) id
      = (getCardById cards id).map (withPosition now p) := by
  induction writes generalizing cards with
  | nil => simp at hmem
  | cons w writes ih =>
    simp only [List.map_cons, List.nodup_cons] at hnd
    have h1 : applyWrites now cards (w :: writes)
        = applyWrites now (replaceCard cards w.1 (withPosition now w.2)) writes := rfl
    rw [h1]
    rcases List.mem_cons.mp hmem with heq | hin
    · have hnot : id ∉ writes.map Prod.fst := by
        rw [← heq] at hnd
        exact hnd.1
      rw [getCardById_applyWrites_of_not_mem now writes _ id hnot,
        getCardById_replaceCard cards w.1 id (withPosition now w.2) (fun _ => rfl), ← heq]
      simp
    · have hne : ¬ w.1 = id := by
        intro hh
        apply hnd.1
        rw [hh]
        exact List.mem_map_of_mem Prod.fst hin
      rw [ih _ hnd.2 hin, getCardById_replaceCard cards w.1 id (withPosition now w.2) (fun _ => rfl), if_neg hne]

theorem getCardById_of_mem (cards : List Card) (c : Card) (hc : c ∈ cards)
    (hnd : (cards.map (fun c => c.id)).Nodup) : getCardById cards c.id = some c := by
  induction cards with
  | nil => simp at hc
  | cons c0 cards ih =>
    simp only [List.map_cons, List.nodup_cons] at hnd
    rcases List.mem_cons.mp hc with heq | hin
    · rw [heq]
      simp [getCardById, List.find?]
    · have hne : ¬ c0.id = c.id := by
        intro hh
        apply hnd.1
        rw [hh]
        exact List.mem_map_of_mem (fun c => c.id) hin
      have h1 : getCardById (c0 :: cards) c.id = getCardById cards c.id := by
        simp [getCardById, List.find?, hne]
      rw [h1]
      exact ih hin hnd.2

/-- C17, amended.  Auto-layout writes a new position to every card of a
declared type: for every non-empty card list with pairwise distinct ids, and a
type list in which no id is `__proto__`, `autoLayout` issues exactly one
position write (`DataManager.updateCard` with a position) for each card whose
`typeId` is the id of a type in the list, and none for a card whose `typeId`
matches no type; afterwards a written card has the position the layout
assigned to it (and the new `updatedAt`), and an unwritten card is unchanged. -/
theorem autoLayout_writes_declared_cards (h : Host) (s : State) (hne : s.cards ≠ [])
    (hproto : ∀ t ∈ s.types, t.id ≠ "__proto__")
    (hnd : (s.cards.map (fun c => c.id)).Nodup) :
    (settle (autoLayout h s)).writeLog = s.writeLog ++ layoutPlan s.cards s.types
      ∧ (∀ c ∈ s.cards, hasDeclaredType s.types c = true →
          ((layoutPlan s.cards s.types).map Prod.fst).count c.id = 1
            ∧ ∃ p, (c.id, p) ∈ layoutPlan s.cards s.types
              ∧ getCardById (settle (autoLayout h s)).cards c.id = some (withPosition h.now p c))
      ∧ (∀ c ∈ s.cards, hasDeclaredType s.types c = false →
          ((layoutPlan s.cards s.types).map Prod.fst).count c.id = 0
            ∧ getCardById (settle (autoLayout h s)).cards c.id = some c) := by
  have hperm := layoutPlan_ids_perm s.cards s.types hproto
  have hsub : ((s.cards.filter (hasDeclaredType s.types)).map (fun c => c.id)).Sublist
      (s.cards.map (fun c => c.id)) := List.Sublist.map _ (List.filter_sublist _)
  have hnd2 : ((s.cards.filter (hasDeclaredType s.types)).map (fun c => c.id)).Nodup :=
    List.Nodup.sublist hsub hnd
  have hnd3 : ((layoutPlan s.cards s.types).map Prod.fst).Nodup := hperm.nodup_iff.mpr hnd2
  have hcards := autoLayout_cards h s hne
  refine ⟨autoLayout_writeLog h s hne, ?_, ?_⟩
  · intro c hc hdecl
    have hin : c.id ∈ (s.cards.filter (hasDeclaredType s.types)).map (fun c => c.id) :=
      List.mem_map_of_mem (fun c => c.id) (List.mem_filter.mpr ⟨hc, hdecl⟩)
    have hin2 : c.id ∈ (layoutPlan s.cards s.types).map Prod.fst := hperm.symm.subset hin
    refine ⟨List.count_eq_one_of_mem hnd3 hin2, ?_⟩
    rw [List.mem_map] at hin2
    obtain ⟨w, hw, hwid⟩ := hin2
    refine ⟨w.2, ?_, ?_⟩
    · rw [← hwid]
      exact hw
    · have hw2 : (c.id, w.2) ∈ layoutPlan s.cards s.types := by
        rw [← hwid]
        exact hw
      rw [hcards, getCardById_applyWrites_of_mem h.now _ s.cards c.id w.2 hnd3 hw2,
        getCardById_of_mem s.cards c hc hnd]
      rfl
  · intro c hc hdecl
    have hnot : c.id ∉ (layoutPlan s.cards s.types).map Prod.fst := by
      intro hin
      have hin2 := hperm.subset hin
      rw [List.mem_map] at hin2
      obtain ⟨c2, hc2, hid⟩ := hin2
      rw [List.mem_filter] at hc2
      have heq : c2 = c := by
        have h1 := getCardById_of_mem s.cards c2 hc2.1 hnd
        have h2 := getCardById_of_mem s.cards c hc hnd
        rw [hid, h2] at h1
        exact (Option.some.inj h1).symm
      rw [heq, hdecl] at hc2
      exact Bool.noConfusion hc2.2
    refine ⟨List.count_eq_zero_of_not_mem hnot, ?_⟩
    rw [hcards, getCardById_applyWrites_of_not_mem h.now _ s.cards c.id hnot,
      getCardById_of_mem s.cards c hc hnd]

/-- Witness for the amended C17 at `demoOrphanState`: one write, for `a1`. -/
theorem autoLayout_writes_declared_cards_witness :
    demoOrphanState.cards ≠ []
      ∧ (demoOrphanState.cards.map (fun c => c.id)).Nodup
      ∧ (settle (autoLayout demoHost demoOrphanState)).writeLog
          = demoOrphanState.writeLog ++ layoutPlan demoOrphanState.cards demoOrphanState.types :=
  ⟨by decide, by decide,
    (autoLayout_writes_declared_cards demoHost demoOrphanState (by decide) (by decide)
      (by decide)).1⟩

/-! ## Pan and reset -/

/-- C23.  Panning is additive: while panning without a drag, moving the pointer
by `a` and then by `b` (from `lastMousePos`) gives the same transform as moving it
by `a + b` at once, namely `x + (a.x + b.x)`, `y + (a.y + b.y)` with the scale
unchanged; the sum is taken as it is, whatever its size. -/
theorem pan_additive (h : Host) (s : State) (a b : Position)
    (hpan : s.isPanning = true) (hdrag : s.isDragging = false) :
    (handleMouseMove h
        (handleMouseMove h s (panTo (s.lastMousePos.x + a.x) (s.lastMousePos.y + a.y)))
        (panTo (s.lastMousePos.x + a.x + b.x) (s.lastMousePos.y + a.y + b.y))).transform
      = (handleMouseMove h s
          (panTo (s.lastMousePos.x + (a.x + b.x)) (s.lastMousePos.y + (a.y + b.y)))).transform
    ∧ (handleMouseMove h s
          (panTo (s.lastMousePos.x + (a.x + b.x)) (s.lastMousePos.y + (a.y + b.y)))).transform
      = { x := s.transform.x + (a.x + b.x)
          y := s.transform.y + (a.y + b.y)
          scale := s.transform.scale } := by
  have step : ∀ (t : State) (e : MouseEvent), t.isPanning = true → t.isDragging = false →
      handleMouseMove h t e = applyTransform { t with
        transform := { t.transform with
          x := t.transform.x + (e.clientX - t.lastMousePos.x)
          y := t.transform.y + (e.clientY - t.lastMousePos.y) }
        lastMousePos := { x := e.clientX, y := e.clientY } } := by
    intro t e hp hd
    unfold handleMouseMove
    rw [hd]
    simp only [hp, if_true]
  have flags : ∀ (t : State), (applyTransform t).isPanning = t.isPanning
      ∧ (applyTransform t).isDragging = t.isDragging
      ∧ (applyTransform t).lastMousePos = t.lastMousePos := by
    intro t
    unfold applyTransform
    split <;> exact ⟨rfl, rfl, rfl⟩
  have h1 := step s (panTo (s.lastMousePos.x + a.x) (s.lastMousePos.y + a.y)) hpan hdrag
  have hp1 : (handleMouseMove h s
      (panTo (s.lastMousePos.x + a.x) (s.lastMousePos.y + a.y))).isPanning = true := by
    rw [h1, (flags _).1]
    exact hpan
  have hd1 : (handleMouseMove h s
      (panTo (s.lastMousePos.x + a.x) (s.lastMousePos.y + a.y))).isDragging = false := by
    rw [h1, (flags _).2.1]
    exact hdrag
  constructor
  · rw [step _ (panTo (s.lastMousePos.x + a.x + b.x) (s.lastMousePos.y + a.y + b.y)) hp1 hd1,
      step s (panTo (s.lastMousePos.x + (a.x + b.x)) (s.lastMousePos.y + (a.y + b.y))) hpan hdrag,
      h1]
    simp only [applyTransform_transform, (flags _).2.2, panTo]
    congr 1 <;> ring
  · rw [step s (panTo (s.lastMousePos.x + (a.x + b.x)) (s.lastMousePos.y + (a.y + b.y))) hpan hdrag]
    simp only [applyTransform_transform, panTo]
    congr 1 <;> ring

/-- Witness for C23: `demoGraph` after a press on the background at `(5, 5)`,
panned by `(3, 4)` and then by `(-10, 2)`. -/
theorem pan_additive_witness :
    (handleMouseDown demoGraph (panTo 5 5)).isPanning = true
      ∧ (handleMouseDown demoGraph (panTo 5 5)).isDragging = false
      ∧ (handleMouseMove demoHost (handleMouseDown demoGraph (panTo 5 5))
          (panTo ((handleMouseDown demoGraph (panTo 5 5)).lastMousePos.x + ((3 : ℚ) + (-10)))
            ((handleMouseDown demoGraph (panTo 5 5)).lastMousePos.y + ((4 : ℚ) + 2)))).transform
        = { x := (handleMouseDown demoGraph (panTo 5 5)).transform.x + ((3 : ℚ) + (-10))
            y := (handleMouseDown demoGraph (panTo 5 5)).transform.y + ((4 : ℚ) + 2)
            scale := (handleMouseDown demoGraph (panTo 5 5)).transform.scale } :=
  ⟨by decide, by decide,
    (pan_additive demoHost (handleMouseDown demoGraph (panTo 5 5)) { x := 3, y := 4 }
      { x := -10, y := 2 } (by decide) (by decide)).2⟩

/-- C24.  `resetZoom` sets the scale to `1` and leaves `x` and `y` unchanged,
for every prior transform. -/
theorem resetZoom_keeps_offset (s : State) :
    (resetZoom s).transform = { x := s.transform.x, y := s.transform.y, scale := 1 } := by
  unfold resetZoom
  rw [applyTransform_transform]

/-! ## Edge geometry -/

/-- C26.  Edge label rule: `drawConnection` draws the relation label if and only
if the relation is not empty and `transform.scale > 3/5`; a drawn label carries
the relation and sits at `((from.x + to.x)/2, (from.y + to.y)/2 - 5)`. -/
theorem drawConnection_label (s : State) (a b : Position) (conn : Connection) :
    ((drawConnection s a b conn).label.isSome
        ↔ conn.relation ≠ "" ∧ 3 / 5 < s.transform.scale)
      ∧ ((drawConnection s a b conn).label = none
          ∨ (drawConnection s a b conn).label
            = some { text := conn.relation, x := (a.x + b.x) / 2, y := (a.y + b.y) / 2 - 5 }) := by
  unfold drawConnection
  simp only [gt_iff_lt]
  by_cases hc : conn.relation ≠ "" ∧ 3 / 5 < s.transform.scale
  · rw [if_pos hc]
    exact ⟨⟨fun _ => hc, fun _ => rfl⟩, Or.inr rfl⟩
  · rw [if_neg hc]
    exact ⟨⟨fun hh => absurd hh (by simp), fun hh => absurd hh hc⟩, Or.inl rfl⟩

/-- C27.  Edge curve geometry: the curve of `drawConnection` starts at `from`,
ends at `to`, and has the control points `(midX, from.y + offset)` and
`(midX, to.y - offset)` with `midX = (from.x + to.x)/2` and
`offset = (3/10) * min(|dx|, |dy|)`. -/
theorem drawConnection_curve (s : State) (a b : Position) (conn : Connection) :
    (drawConnection s a b conn).curve
      = { start := a
          control1 := { x := (a.x + b.x) / 2
                        y := a.y + 3 / 10 * min (abs (b.x - a.x)) (abs (b.y - a.y)) }
          control2 := { x := (a.x + b.x) / 2
                        y := b.y - 3 / 10 * min (abs (b.x - a.x)) (abs (b.y - a.y)) }
          stop := b } := by
  unfold drawConnection
  simp only [mul_comm (min _ _) (3 / 10 : ℚ)]

/-- C29.  The label anchor is the midpoint of the curve: the cubic Bezier drawn
by `drawConnection`, evaluated at `t = 1/2`, is the chord midpoint
`((from.x + to.x)/2, (from.y + to.y)/2)`. -/
theorem drawConnection_midpoint (s : State) (a b : Position) (conn : Connection) :
    bezierPoint (drawConnection s a b conn).curve (1 / 2)
      = { x := (a.x + b.x) / 2, y := (a.y + b.y) / 2 } := by
  unfold bezierPoint drawConnection
  simp only
  congr 1 <;> ring

/-! ## Straight edges -/

theorem offset_pos_of_ne (dx dy : ℚ) (hx : dx ≠ 0) (hy : dy ≠ 0) :
    0 < min (abs dx) (abs dy) * (3 / 10) := by
  have h1 : 0 < abs dx := abs_pos.mpr hx
  have h2 : 0 < abs dy := abs_pos.mpr hy
  have h3 : 0 < min (abs dx) (abs dy) := lt_min h1 h2
  positivity

theorem offset_lt_half (dx dy : ℚ) (hy : dy ≠ 0) :
    min (abs dx) (abs dy) * (3 / 10) < abs dy / 2 := by
  have h2 : 0 < abs dy := abs_pos.mpr hy
  have h3 : min (abs dx) (abs dy) ≤ abs dy := min_le_right _ _
  linarith

/-- When the endpoints differ in both coordinates the first control point of
`drawConnection` lies off the line through them. -/
theorem control1_off_line (s : State) (a b : Position) (conn : Connection)
    (hx : a.x ≠ b.x) (hy : a.y ≠ b.y) :
    ¬ onLine a b (drawConnection s a b conn).curve.control1 := by
  unfold onLine drawConnection
  simp only
  intro heq
  have hdx : b.x - a.x ≠ 0 := fun h0 => hx (by linarith)
  have hdy : b.y - a.y ≠ 0 := fun h0 => hy (by linarith)
  have hlt := offset_lt_half (b.x - a.x) (b.y - a.y) hdy
  have hpos := offset_pos_of_ne (b.x - a.x) (b.y - a.y) hdx hdy
  have h2 : (b.x - a.x) * (min (abs (b.x - a.x)) (abs (b.y - a.y)) * (3 / 10))
      = (b.x - a.x) * ((b.y - a.y) / 2) := by
    have e1 : a.y + min (abs (b.x - a.x)) (abs (b.y - a.y)) * (3 / 10) - a.y
        = min (abs (b.x - a.x)) (abs (b.y - a.y)) * (3 / 10) := by ring
    have e2 : (a.x + b.x) / 2 - a.x = (b.x - a.x) / 2 := by ring
    rw [e1, e2] at heq
    rw [heq]
    ring
  have h3 := mul_left_cancel₀ hdx h2
  have h4 : (b.y - a.y) / 2 ≤ abs (b.y - a.y) / 2 := by
    have := le_abs_self (b.y - a.y)
    linarith
  rcases le_or_lt 0 (b.y - a.y) with hnn | hneg
  · have ha : abs (b.y - a.y) = b.y - a.y := abs_of_nonneg hnn
    linarith
  · linarith

/-- With endpoints that share a coordinate the whole curve of `drawConnection`
lies on the line through them. -/
theorem drawConnection_aligned_on_line (s : State) (a b : Position) (conn : Connection)
    (hal : a.x = b.x ∨ a.y = b.y) (t : ℚ) :
    onLine a b (bezierPoint (drawConnection s a b conn).curve t) := by
  unfold onLine bezierPoint drawConnection
  simp only
  rcases hal with h1 | h1
  · rw [h1]
    simp only [sub_self, abs_zero]
    have hm : min (0 : ℚ) (abs (b.y - a.y)) = 0 := min_eq_left (abs_nonneg _)
    rw [hm]
    ring
  · rw [h1]
    simp only [sub_self, abs_zero]
    have hm : min (abs (b.x - a.x)) (0 : ℚ) = 0 := min_eq_right (abs_nonneg _)
    rw [hm]
    ring

/-- With endpoints that share a coordinate the offset is zero and both control
points of `drawConnection` lie on the line through the endpoints. -/
theorem drawConnection_aligned_controls (s : State) (a b : Position) (conn : Connection)
    (hal : a.x = b.x ∨ a.y = b.y) :
    onLine a b (drawConnection s a b conn).curve.control1
      ∧ onLine a b (drawConnection s a b conn).curve.control2 := by
  unfold onLine drawConnection
  simp only
  rcases hal with h1 | h1
  · rw [h1]
    simp only [sub_self, abs_zero]
    have hm : min (0 : ℚ) (abs (b.y - a.y)) = 0 := min_eq_left (abs_nonneg _)
    rw [hm]
    constructor <;> ring
  · rw [h1]
    simp only [sub_self, abs_zero]
    have hm : min (abs (b.x - a.x)) (0 : ℚ) = 0 := min_eq_right (abs_nonneg _)
    rw [hm]
    constructor <;> ring

/-- C28 as stated fails.  The endpoints `(0, 0)` and `(0, 100)` are distinct and
share their x-coordinate; both control points of the curve are on the line
through them (they are the endpoints themselves). -/
theorem drawConnection_vertical_is_straight :
    ({ x := 0, y := 0 } : Position) ≠ { x := 0, y := 100 }
      ∧ (drawConnection demoGraph { x := 0, y := 0 } { x := 0, y := 100 }
          { targetId := "b", relation := "", bidirectional := false }).curve
        = { start := { x := 0, y := 0 }
            control1 := { x := 0, y := 0 }
            control2 := { x := 0, y := 100 }
            stop := { x := 0, y := 100 } }
      ∧ onLine { x := 0, y := 0 } { x := 0, y := 100 } { x := 0, y := 0 }
      ∧ onLine { x := 0, y := 0 } { x := 0, y := 100 } { x := 0, y := 100 } := by
  refine ⟨by decide, ?_, ?_, ?_⟩
  · with_unfolding_all decide
  · unfold onLine
    norm_num
  · unfold onLine
    norm_num

/-- C28, amended.  Edges between axis-aligned nodes are drawn straight: both
control points of `drawConnection` lie on the line through `from` and `to` if
and only if the endpoints share an x-coordinate or a y-coordinate, and the same
holds of the whole curve. -/
theorem drawConnection_straight_iff_aligned (s : State) (a b : Position) (conn : Connection) :
    ((onLine a b (drawConnection s a b conn).curve.control1
          ∧ onLine a b (drawConnection s a b conn).curve.control2)
        ↔ (a.x = b.x ∨ a.y = b.y))
      ∧ ((∀ t : ℚ, onLine a b (bezierPoint (drawConnection s a b conn).curve t))
        ↔ (a.x = b.x ∨ a.y = b.y)) := by
  have hc1 : onLine a b (drawConnection s a b conn).curve.control1 → (a.x = b.x ∨ a.y = b.y) := by
    intro h1
    by_contra hne
    rw [not_or] at hne
    exact control1_off_line s a b conn hne.1 hne.2 h1
  have hctl : ∀ p1 p2 : Position,
      onLine a b (bezierPoint { start := a, control1 := p1, control2 := p2, stop := b } (1 / 3))
      → onLine a b (bezierPoint { start := a, control1 := p1, control2 := p2, stop := b } (2 / 3))
      → onLine a b p1 := by
    intro p1 p2 h1 h2
    unfold onLine bezierPoint at h1 h2
    simp only at h1 h2
    unfold onLine
    linear_combination (3 : ℚ) * h1 - (3 / 2 : ℚ) * h2
  refine ⟨⟨fun hh => hc1 hh.1, fun hal => ?_⟩, ⟨fun hall => hc1 ?_, fun hal t => ?_⟩⟩
  · exact drawConnection_aligned_controls s a b conn hal
  · exact hctl _ _ (hall (1 / 3)) (hall (2 / 3))
  · exact drawConnection_aligned_on_line s a b conn hal t

/-! ## Minimap -/

/-- C21.  Minimap degeneracy: for every transform and canvas size, with an
empty card list `updateMinimap` returns normally, having issued nothing without
a minimap context and the one `clearRect` otherwise; no call fills or
strokes. -/
theorem updateMinimap_empty (h : Host) (s : State) (hempty : s.cards = []) :
    updateMinimap h s
        = .ok (if !s.minimapCtx || !s.minimapCanvas then []
               else [DrawOp.clearRect 0 0 160 120])
      ∧ (issued (updateMinimap h s)).all (fun op => !op.draws) = true := by
  unfold updateMinimap
  simp only [hempty, List.length_nil, if_true, minimapWidth, minimapHeight]
  by_cases hg : (!s.minimapCtx || !s.minimapCanvas) = true
  · simp only [hg, if_true]
    exact ⟨trivial, rfl⟩
  · simp only [hg, if_false]
    refine ⟨by simp, rfl⟩

/-- Witness for C21: the module after `init` with an empty store. -/
theorem updateMinimap_empty_witness :
    demoEmpty.cards = []
      ∧ updateMinimap demoHost demoEmpty
          = .ok (if !demoEmpty.minimapCtx || !demoEmpty.minimapCanvas then []
                 else [DrawOp.clearRect 0 0 160 120])
      ∧ (issued (updateMinimap demoHost demoEmpty)).all (fun op => !op.draws) = true :=
  ⟨by decide, updateMinimap_empty demoHost demoEmpty (by decide)⟩

theorem foldl_minimapGrow_fields (l : List Card) (b : Bounds) :
    (l.foldl minimapGrow b).minX
        = l.foldl (fun a c => minInto a (positionOrOrigin c).x) b.minX
      ∧ (l.foldl minimapGrow b).minY
        = l.foldl (fun a c => minInto a (positionOrOrigin c).y) b.minY
      ∧ (l.foldl minimapGrow b).maxX
        = l.foldl (fun a c => maxInto a ((positionOrOrigin c).x + 180)) b.maxX
      ∧ (l.foldl minimapGrow b).maxY
        = l.foldl (fun a c => maxInto a ((positionOrOrigin c).y + 80)) b.maxY := by
  induction l generalizing b with
  | nil => exact ⟨rfl, rfl, rfl, rfl⟩
  | cons c l ih =>
    simp only [List.foldl]
    obtain ⟨h1, h2, h3, h4⟩ := ih (minimapGrow b c)
    exact ⟨h1, h2, h3, h4⟩

/-- With cards present the accumulators of `updateMinimap` are the true minima
and maxima. -/
theorem minimapBounds_spec (cards : List Card) (hne : cards ≠ []) :
    ∃ minX minY maxX maxY : ℚ,
      minimapBounds cards
          = { minX := some minX, minY := some minY, maxX := some maxX, maxY := some maxY }
        ∧ IsMinOver cards (fun c => (positionOrOrigin c).x) minX
        ∧ IsMinOver cards (fun c => (positionOrOrigin c).y) minY
        ∧ IsMaxOver cards (fun c => (positionOrOrigin c).x + 180) maxX
        ∧ IsMaxOver cards (fun c => (positionOrOrigin c).y + 80) maxY := by
  obtain ⟨f1, f2, f3, f4⟩ := foldl_minimapGrow_fields cards
    { minX := none, minY := none, maxX := none, maxY := none }
  obtain ⟨minX, e1, p1⟩ := foldl_minInto_isMin (fun c => (positionOrOrigin c).x) cards hne
  obtain ⟨minY, e2, p2⟩ := foldl_minInto_isMin (fun c => (positionOrOrigin c).y) cards hne
  obtain ⟨maxX, e3, p3⟩ := foldl_maxInto_isMax (fun c => (positionOrOrigin c).x + 180) cards hne
  obtain ⟨maxY, e4, p4⟩ := foldl_maxInto_isMax (fun c => (positionOrOrigin c).y + 80) cards hne
  refine ⟨minX, minY, maxX, maxY, ?_, p1, p2, p3, p4⟩
  have g1 : (minimapBounds cards).minX = some minX := by unfold minimapBounds; rw [f1]; exact e1
  have g2 : (minimapBounds cards).minY = some minY := by unfold minimapBounds; rw [f2]; exact e2
  have g3 : (minimapBounds cards).maxX = some maxX := by unfold minimapBounds; rw [f3]; exact e3
  have g4 : (minimapBounds cards).maxY = some maxY := by unfold minimapBounds; rw [f4]; exact e4
  cases hg : minimapBounds cards
  rw [hg] at g1 g2 g3 g4
  simp only at g1 g2 g3 g4
  rw [g1, g2, g3, g4]

theorem fillRects_append (l1 l2 : List DrawOp) :
    fillRects (l1 ++ l2) = fillRects l1 ++ fillRects l2 := by
  unfold fillRects
  rw [List.filterMap_append]

theorem fillRects_minimapNode (types : List CardType) (minX minY sc : ℚ) (l : List Card) :
    fillRects (l.map (minimapNode types minX minY sc))
      = l.map (fun c => (((positionOrOrigin c).x - minX) * sc + 5,
          ((positionOrOrigin c).y - minY) * sc + 5, 180 * sc, 80 * sc)) := by
  induction l with
  | nil => rfl
  | cons c l ih =>
    have hcons : fillRects ((c :: l).map (minimapNode types minX minY sc))
        = (((positionOrOrigin c).x - minX) * sc + 5,
            ((positionOrOrigin c).y - minY) * sc + 5, 180 * sc, 80 * sc)
          :: fillRects (l.map (minimapNode types minX minY sc)) := by
      simp [fillRects, minimapNode]
    rw [hcons, ih]
    rfl

/-- The fill rectangles that `updateMinimap` issues with cards present, whether
it returns or throws at `canvas.width`. -/
theorem updateMinimap_fillRects (h : Host) (s : State) (hne : s.cards ≠ [])
    (hctx : s.minimapCtx = true) (hcv : s.minimapCanvas = true) :
    fillRects (issued (updateMinimap h s))
      = s.cards.map (fun c =>
          (((positionOrOrigin c).x - (minimapBounds s.cards).minX.getD 0)
              * minimapScale ((minimapBounds s.cards).minX.getD 0)
                  ((minimapBounds s.cards).minY.getD 0) ((minimapBounds s.cards).maxX.getD 0)
                  ((minimapBounds s.cards).maxY.getD 0) + 5,
            ((positionOrOrigin c).y - (minimapBounds s.cards).minY.getD 0)
              * minimapScale ((minimapBounds s.cards).minX.getD 0)
                  ((minimapBounds s.cards).minY.getD 0) ((minimapBounds s.cards).maxX.getD 0)
                  ((minimapBounds s.cards).maxY.getD 0) + 5,
            180 * minimapScale ((minimapBounds s.cards).minX.getD 0)
                  ((minimapBounds s.cards).minY.getD 0) ((minimapBounds s.cards).maxX.getD 0)
                  ((minimapBounds s.cards).maxY.getD 0),
            80 * minimapScale ((minimapBounds s.cards).minX.getD 0)
                  ((minimapBounds s.cards).minY.getD 0) ((minimapBounds s.cards).maxX.getD 0)
                  ((minimapBounds s.cards).maxY.getD 0))) := by
  have hlen : ¬ s.cards.length = 0 := fun h0 => hne (List.length_eq_zero.mp h0)
  unfold updateMinimap
  simp only [hctx, hcv, Bool.not_true, Bool.or_self, Bool.false_eq_true, if_false, hlen]
  split
  · simp only [issued, fillRects_append, fillRects_minimapNode]
    rfl
  · simp only [issued, fillRects_append, fillRects_minimapNode]
    simp [fillRects]

/-- C22.  Minimap projection: for every non-empty card list (and a minimap
context), the accumulators of `updateMinimap` are the least `pos.x`, the least
`pos.y`, the greatest `pos.x + 180` and the greatest `pos.y + 80`; with
`worldWidth = maxX - minX + 100` and `worldHeight = maxY - minY + 100` both
divisors are positive (`worldWidth ≥ 280`, `worldHeight ≥ 180`), the scale
`mm = min(160/worldWidth, 120/worldHeight)` is positive, and the fill
rectangles are, card by card, `((pos.x - minX)*mm + 5, (pos.y - minY)*mm + 5)`
with size `(180*mm, 80*mm)`. -/
theorem updateMinimap_projection (h : Host) (s : State) (hne : s.cards ≠ [])
    (hctx : s.minimapCtx = true) (hcv : s.minimapCanvas = true) :
    ∃ minX minY maxX maxY : ℚ,
      IsMinOver s.cards (fun c => (positionOrOrigin c).x) minX
        ∧ IsMinOver s.cards (fun c => (positionOrOrigin c).y) minY
        ∧ IsMaxOver s.cards (fun c => (positionOrOrigin c).x + 180) maxX
        ∧ IsMaxOver s.cards (fun c => (positionOrOrigin c).y + 80) maxY
        ∧ 280 ≤ maxX - minX + 100
        ∧ 180 ≤ maxY - minY + 100
        ∧ 0 < min (160 / (maxX - minX + 100)) (120 / (maxY - minY + 100))
        ∧ fillRects (issued (updateMinimap h s))
          = s.cards.map (fun c =>
              (((positionOrOrigin c).x - minX)
                  * min (160 / (maxX - minX + 100)) (120 / (maxY - minY + 100)) + 5,
                ((positionOrOrigin c).y - minY)
                  * min (160 / (maxX - minX + 100)) (120 / (maxY - minY + 100)) + 5,
                180 * min (160 / (maxX - minX + 100)) (120 / (maxY - minY + 100)),
                80 * min (160 / (maxX - minX + 100)) (120 / (maxY - minY + 100)))) := by
  obtain ⟨minX, minY, maxX, maxY, hb, p1, p2, p3, p4⟩ := minimapBounds_spec s.cards hne
  have hw : 280 ≤ maxX - minX + 100 := by
    obtain ⟨c, hc, hcx⟩ := p1.1
    have := p3.2 c hc
    simp only at this hcx
    linarith
  have hh : 180 ≤ maxY - minY + 100 := by
    obtain ⟨c, hc, hcy⟩ := p2.1
    have := p4.2 c hc
    simp only at this hcy
    linarith
  refine ⟨minX, minY, maxX, maxY, p1, p2, p3, p4, hw, hh, ?_, ?_⟩
  · exact lt_min (div_pos (by norm_num) (by linarith)) (div_pos (by norm_num) (by linarith))
  · rw [updateMinimap_fillRects h s hne hctx hcv, hb]
    simp only [Option.getD_some, minimapScale, minimapWidth, minimapHeight]

/-- Witness for C22 at `demoGraph`: cards `a` at `(10, 20)` and `b` at
`(300, 40)`, so `worldWidth = 570`, `worldHeight = 200` and `mm = 16/57`. -/
theorem updateMinimap_projection_witness :
    demoGraph.cards ≠ [] ∧ demoGraph.minimapCtx = true ∧ demoGraph.minimapCanvas = true
      ∧ ∃ minX minY maxX maxY : ℚ,
        IsMinOver demoGraph.cards (fun c => (positionOrOrigin c).x) minX
          ∧ IsMinOver demoGraph.cards (fun c => (positionOrOrigin c).y) minY
          ∧ IsMaxOver demoGraph.cards (fun c => (positionOrOrigin c).x + 180) maxX
          ∧ IsMaxOver demoGraph.cards (fun c => (positionOrOrigin c).y + 80) maxY
          ∧ 280 ≤ maxX - minX + 100
          ∧ 180 ≤ maxY - minY + 100
          ∧ 0 < min (160 / (maxX - minX + 100)) (120 / (maxY - minY + 100))
          ∧ fillRects (issued (updateMinimap demoHost demoGraph))
            = demoGraph.cards.map (fun c =>
                (((positionOrOrigin c).x - minX)
                    * min (160 / (maxX - minX + 100)) (120 / (maxY - minY + 100)) + 5,
                  ((positionOrOrigin c).y - minY)
                    * min (160 / (maxX - minX + 100)) (120 / (maxY - minY + 100)) + 5,
                  180 * min (160 / (maxX - minX + 100)) (120 / (maxY - minY + 100)),
                  80 * min (160 / (maxX - minX + 100)) (120 / (maxY - minY + 100)))) :=
  ⟨by decide, by decide, by decide,
    updateMinimap_projection demoHost demoGraph (by decide) (by decide) (by decide)⟩

/-- The cards of `demoWide`. -/
theorem demoWide_cards :
    demoWide.cards
      = [ { demoCardB with id := "w0", position := some { x := 0, y := 0 } },
          { demoCardB with id := "w1", position := some { x := 4000, y := 0 } } ] := rfl

/-- The accumulators of `updateMinimap` on `demoWide`. -/
theorem demoWide_bounds :
    minimapBounds demoWide.cards
      = { minX := some 0, minY := some 0, maxX := some 4180, maxY := some 80 } := by
  rw [demoWide_cards]
  simp only [minimapBounds, List.foldl, minimapGrow, minInto, maxInto, positionOrOrigin]
  norm_num

/-- C30 fails on `demoWide`, cards at `(0, 0)` and `(4000, 0)`: the scale is
`160/4280 = 4/107`, the rectangle of the second card starts at
`x = 16535/107` and is `720/107` wide, so its right edge `17255/107` is beyond
the minimap width `160`. -/
theorem updateMinimap_rect_leaves_minimap :
    fillRects (issued (updateMinimap demoHost demoWide))
        = [ (5, 5, 720 / 107, 320 / 107), (16535 / 107, 5, 720 / 107, 320 / 107) ]
      ∧ ¬ insideMinimap (16535 / 107, 5, 720 / 107, 320 / 107) := by
  constructor
  · rw [updateMinimap_fillRects demoHost demoWide (by decide) (by decide) (by decide),
      demoWide_bounds, demoWide_cards]
    simp only [Option.getD_some, minimapScale, minimapWidth, minimapHeight, List.map,
      positionOrOrigin]
    norm_num
  · unfold insideMinimap minimapWidth minimapHeight
    norm_num

/-- C30, amended.  Minimap rectangles stay near the minimap: for every
non-empty card list, every card rectangle drawn by `updateMinimap` has its
top-left corner at or beyond `(5, 5)` and its right and bottom edges strictly
below `165` and `125`; the right edge is within the width `160` when
`worldWidth ≤ 3200` and the bottom edge within the height `120` when
`worldHeight ≤ 2400`, so with both the rectangle lies within the minimap
canvas. -/
theorem updateMinimap_rects_bounded (h : Host) (s : State) (hne : s.cards ≠ [])
    (hctx : s.minimapCtx = true) (hcv : s.minimapCanvas = true) :
    ∀ r ∈ fillRects (issued (updateMinimap h s)),
      5 ≤ r.1 ∧ 5 ≤ r.2.1 ∧ r.1 + r.2.2.1 < 165 ∧ r.2.1 + r.2.2.2 < 125
        ∧ (worldWidth s.cards ≤ 3200 → r.1 + r.2.2.1 ≤ 160)
        ∧ (worldHeight s.cards ≤ 2400 → r.2.1 + r.2.2.2 ≤ 120)
        ∧ (worldWidth s.cards ≤ 3200 → worldHeight s.cards ≤ 2400 → insideMinimap r) := by
  obtain ⟨minX, minY, maxX, maxY, hb, p1, p2, p3, p4⟩ := minimapBounds_spec s.cards hne
  have hw : 280 ≤ maxX - minX + 100 := by
    obtain ⟨c, hc, hcx⟩ := p1.1
    have := p3.2 c hc
    simp only at this hcx
    linarith
  have hh : 180 ≤ maxY - minY + 100 := by
    obtain ⟨c, hc, hcy⟩ := p2.1
    have := p4.2 c hc
    simp only at this hcy
    linarith
  have hWpos : 0 < maxX - minX + 100 := by linarith
  have hHpos : 0 < maxY - minY + 100 := by linarith
  intro r hr
  rw [updateMinimap_fillRects h s hne hctx hcv] at hr
  unfold worldWidth worldHeight
  rw [hb] at hr ⊢
  simp only [Option.getD_some, minimapScale, minimapWidth, minimapHeight] at hr ⊢
  obtain ⟨c, hc, hrc⟩ := List.mem_map.mp hr
  have hx1 := p1.2 c hc
  have hy1 := p2.2 c hc
  have hx2 := p3.2 c hc
  have hy2 := p4.2 c hc
  simp only at hx1 hy1 hx2 hy2
  have hmm : 0 < min (160 / (maxX - minX + 100)) (120 / (maxY - minY + 100)) :=
    lt_min (div_pos (by norm_num) hWpos) (div_pos (by norm_num) hHpos)
  have hmW : min (160 / (maxX - minX + 100)) (120 / (maxY - minY + 100)) * (maxX - minX + 100)
      ≤ 160 := by
    have h1 : min (160 / (maxX - minX + 100)) (120 / (maxY - minY + 100))
        ≤ 160 / (maxX - minX + 100) := min_le_left _ _
    have h2 := mul_le_mul_of_nonneg_right h1 (le_of_lt hWpos)
    rw [div_mul_cancel₀ _ (ne_of_gt hWpos)] at h2
    exact h2
  have hmH : min (160 / (maxX - minX + 100)) (120 / (maxY - minY + 100)) * (maxY - minY + 100)
      ≤ 120 := by
    have h1 : min (160 / (maxX - minX + 100)) (120 / (maxY - minY + 100))
        ≤ 120 / (maxY - minY + 100) := min_le_right _ _
    have h2 := mul_le_mul_of_nonneg_right h1 (le_of_lt hHpos)
    rw [div_mul_cancel₀ _ (ne_of_gt hHpos)] at h2
    exact h2
  generalize min (160 / (maxX - minX + 100)) (120 / (maxY - minY + 100)) = mm at hrc hmm hmW hmH
  have e1 : 0 ≤ ((positionOrOrigin c).x - minX) * mm :=
    mul_nonneg (by linarith) (le_of_lt hmm)
  have e2 : 0 ≤ ((positionOrOrigin c).y - minY) * mm :=
    mul_nonneg (by linarith) (le_of_lt hmm)
  have e3 : 0 ≤ (maxX - ((positionOrOrigin c).x + 180)) * mm :=
    mul_nonneg (by linarith) (le_of_lt hmm)
  have e4 : 0 ≤ (maxY - ((positionOrOrigin c).y + 80)) * mm :=
    mul_nonneg (by linarith) (le_of_lt hmm)
  have right_le : ∀ W : ℚ, 280 ≤ W → W ≤ 3200 → mm * W ≤ 160 → (W - 100) * mm ≤ 155 := by
    intro W h280 h3200 hm
    nlinarith
  have bottom_le : ∀ H : ℚ, 180 ≤ H → H ≤ 2400 → mm * H ≤ 120 → (H - 100) * mm ≤ 115 := by
    intro H h180 h2400 hm
    nlinarith
  rw [← hrc]
  simp only
  have kx : maxX - minX + 100 ≤ 3200
      → ((positionOrOrigin c).x - minX) * mm + 5 + 180 * mm ≤ 160 := by
    intro hle
    have := right_le _ hw hle hmW
    nlinarith
  have ky : maxY - minY + 100 ≤ 2400
      → ((positionOrOrigin c).y - minY) * mm + 5 + 80 * mm ≤ 120 := by
    intro hle
    have := bottom_le _ hh hle hmH
    nlinarith
  refine ⟨by linarith, by linarith, by nlinarith, by nlinarith, kx, ky, ?_⟩
  intro hle1 hle2
  unfold insideMinimap minimapWidth minimapHeight
  simp only
  exact ⟨by linarith, by linarith, kx hle1, ky hle2⟩

/-- Witness for C30, amended, at `demoGraph`: `worldWidth = 570` and
`worldHeight = 200`. -/
theorem updateMinimap_rects_bounded_witness :
    demoGraph.cards ≠ [] ∧ demoGraph.minimapCtx = true ∧ demoGraph.minimapCanvas = true
      ∧ ∀ r ∈ fillRects (issued (updateMinimap demoHost demoGraph)),
        5 ≤ r.1 ∧ 5 ≤ r.2.1 ∧ r.1 + r.2.2.1 < 165 ∧ r.2.1 + r.2.2.2 < 125
          ∧ (worldWidth demoGraph.cards ≤ 3200 → r.1 + r.2.2.1 ≤ 160)
          ∧ (worldHeight demoGraph.cards ≤ 2400 → r.2.1 + r.2.2.2 ≤ 120)
          ∧ (worldWidth demoGraph.cards ≤ 3200 → worldHeight demoGraph.cards ≤ 2400
              → insideMinimap r) :=
  ⟨by decide, by decide, by decide,
    updateMinimap_rects_bounded demoHost demoGraph (by decide) (by decide) (by decide)⟩

/-- The world of `demoGraph` is `570 x 200`, within `3200 x 2400`. -/
theorem demoGraph_world :
    worldWidth demoGraph.cards = 570 ∧ worldHeight demoGraph.cards = 200 := by
  have hc : demoGraph.cards = [demoCardA, demoCardB] := by decide
  rw [hc]
  simp only [worldWidth, worldHeight, minimapBounds, List.foldl, minimapGrow, minInto, maxInto,
    positionOrOrigin, demoCardA, demoCardB, Option.getD_some]
  norm_num

/-! ## Writes to the card store -/

/-- The store's `updateCard` replaces the first card with the id and returns
it; without such a card it returns `null` and leaves the array alone. -/
theorem dataUpdateCard_eq (now : Nat) (cards : List Card) (cardId : String) (p : Position) :
    dataUpdateCard now cards cardId p
      = (replaceCard cards cardId (withPosition now p),
          (getCardById cards cardId).map (withPosition now p)) := by
  induction cards with
  | nil => rfl
  | cons c rest ih =>
    by_cases hc : c.id = cardId
    · simp [dataUpdateCard, replaceCard, getCardById, List.findIdx?_cons, hc, withPosition]
    · have hget : getCardById (c :: rest) cardId = getCardById rest cardId := by
        simp [getCardById, List.find?, hc]
      have hrep : replaceCard (c :: rest) cardId (withPosition now p)
          = c :: replaceCard rest cardId (withPosition now p) := by
        simp [replaceCard, hc]
      rw [hget, hrep]
      unfold dataUpdateCard at ih ⊢
      rw [List.findIdx?_cons, List.findIdx?_succ]
      simp only [hc, decide_False, Bool.false_eq_true, if_false]
      cases hf : List.findIdx? (fun c => decide (c.id = cardId)) rest with
      | none =>
        rw [hf] at ih
        simp only [Option.map_none'] at ih ⊢
        have h1 := congrArg Prod.fst ih
        have h2 := congrArg Prod.snd ih
        simp only at h1 h2
        rw [← h1, ← h2]
      | some k =>
        rw [hf] at ih
        simp only [Option.map_some', List.getElem?_cons_succ] at ih ⊢
        cases hk : rest[k]? with
        | none =>
          rw [hk] at ih
          simp only at ih ⊢
          have h1 := congrArg Prod.fst ih
          have h2 := congrArg Prod.snd ih
          simp only at h1 h2
          rw [← h1, ← h2]
        | some d =>
          rw [hk] at ih
          simp only [List.set_cons_succ] at ih ⊢
          have h1 := congrArg Prod.fst ih
          have h2 := congrArg Prod.snd ih
          simp only at h1 h2
          rw [← h1, ← h2]

theorem sameButPosition_refl (c : Card) : sameButPosition c c :=
  ⟨rfl, rfl, rfl, rfl, rfl, rfl, rfl⟩

theorem sameButPosition_trans {c d e : Card} (h1 : sameButPosition c d)
    (h2 : sameButPosition d e) : sameButPosition c e := by
  obtain ⟨a1, a2, a3, a4, a5, a6, a7⟩ := h1
  obtain ⟨b1, b2, b3, b4, b5, b6, b7⟩ := h2
  exact ⟨b1.trans a1, b2.trans a2, b3.trans a3, b4.trans a4, b5.trans a5, b6.trans a6,
    b7.trans a7⟩

theorem sameButPosition_withPosition (now : Nat) (p : Position) (c : Card) :
    sameButPosition c (withPosition now p c) :=
  ⟨rfl, rfl, rfl, rfl, rfl, rfl, rfl⟩

theorem forall2_sameButPosition_refl (l : List Card) : List.Forall₂ sameButPosition l l :=
  List.forall₂_same.mpr (fun c _ => sameButPosition_refl c)

theorem forall2_sameButPosition_trans {l1 l2 l3 : List Card}
    (h1 : List.Forall₂ sameButPosition l1 l2) (h2 : List.Forall₂ sameButPosition l2 l3) :
    List.Forall₂ sameButPosition l1 l3 := by
  induction h1 generalizing l3 with
  | nil =>
    cases h2
    exact List.Forall₂.nil
  | cons hab _ ih =>
    cases h2 with
    | cons hbc hrest => exact List.Forall₂.cons (sameButPosition_trans hab hbc) (ih hrest)

/-- One position write changes at most the cards with the written id, and
those only in `position` and `updatedAt`. -/
theorem forall2_replaceCard (now : Nat) (p : Position) (cardId : String) (cards : List Card) :
    List.Forall₂
      (fun c d => d = c ∨ (c.id = cardId ∧ sameButPosition c d ∧ d.position = some p))
      cards (replaceCard cards cardId (withPosition now p)) := by
  induction cards with
  | nil => exact List.Forall₂.nil
  | cons c rest ih =>
    unfold replaceCard
    by_cases hc : c.id = cardId
    · simp only [hc, if_true]
      exact List.Forall₂.cons
        (Or.inr ⟨hc, sameButPosition_withPosition now p c, rfl⟩)
        (List.forall₂_same.mpr (fun _ _ => Or.inl rfl))
    · simp only [hc, if_false]
      exact List.Forall₂.cons (Or.inl rfl) ih

theorem forall2_sameButPosition_replaceCard (now : Nat) (p : Position) (cardId : String)
    (cards : List Card) :
    List.Forall₂ sameButPosition cards (replaceCard cards cardId (withPosition now p)) := by
  refine List.Forall₂.imp ?_ (forall2_replaceCard now p cardId cards)
  intro c d hcd
  rcases hcd with h1 | ⟨_, h2, _⟩
  · rw [h1]
    exact sameButPosition_refl c
  · exact h2

theorem forall2_sameButPosition_applyWrites (now : Nat) (writes : List (String × Position))
    (cards : List Card) :
    List.Forall₂ sameButPosition cards (applyWrites now cards writes) := by
  induction writes generalizing cards with
  | nil => exact forall2_sameButPosition_refl cards
  | cons w writes ih =>
    have h1 : applyWrites now cards (w :: writes)
        = applyWrites now (replaceCard cards w.1 (withPosition now w.2)) writes := rfl
    rw [h1]
    exact forall2_sameButPosition_trans
      (forall2_sameButPosition_replaceCard now w.2 w.1 cards) (ih _)

theorem commitDrag_cards (h : Host) (s : State) :
    (commitDrag h s).cards = s.cards
      ∨ ∃ p : Position, ∃ cardId : String,
          (commitDrag h s).cards = replaceCard s.cards cardId (withPosition h.now p) := by
  unfold commitDrag
  split
  · split
    · exact Or.inl rfl
    · rename_i dn _ _ _ el _
      refine Or.inr ⟨{ x := el.left, y := el.top }, dn.card.id, ?_⟩
      simp only
      rw [updateCard_cards]
  · exact Or.inl rfl

/-- C25.  The graph core's writes to the card store change only position.  A
call `DataManager.updateCard(id, { position })` from the graph view leaves the
store as the store's own `updateCard` does; card by card, the card afterwards is
the card before, or the card before had the id `id` and the two agree on every
field other than `position` and `updatedAt` (id, title, typeId, summary, color,
isFavorite, connections) while the new position is the written one; the value
returned is the updated card, and with no card of that id it is `null` and the
store is as before.  A release of the mouse (drag commit) and an `autoLayout`
pass leave every card equal to the card before in every field other than
`position` and `updatedAt`. -/
theorem updateCard_changes_only_position (h : Host) (s : State) (cardId : String)
    (p : Position) :
    (updateCard h s cardId p).cards = (dataUpdateCard h.now s.cards cardId p).1
      ∧ List.Forall₂
          (fun c d => d = c ∨ (c.id = cardId ∧ sameButPosition c d ∧ d.position = some p))
          s.cards (updateCard h s cardId p).cards
      ∧ (dataUpdateCard h.now s.cards cardId p).2
          = (getCardById s.cards cardId).map (withPosition h.now p)
      ∧ ((getCardById s.cards cardId).isSome = true
          ∨ dataUpdateCard h.now s.cards cardId p = (s.cards, none))
      ∧ List.Forall₂ sameButPosition s.cards (handleMouseUp h s).cards
      ∧ List.Forall₂ sameButPosition s.cards (settle (autoLayout h s)).cards := by
  refine ⟨?_, ?_, ?_, ?_, ?_, ?_⟩
  · rw [updateCard_cards, dataUpdateCard_eq]
  · rw [updateCard_cards]
    exact forall2_replaceCard h.now p cardId s.cards
  · rw [dataUpdateCard_eq]
  · cases hg : getCardById s.cards cardId with
    | some c => exact Or.inl rfl
    | none =>
      refine Or.inr ?_
      rw [dataUpdateCard_eq, hg, replaceCard_of_not_found _ _ _ hg]
      rfl
  · have hup : (handleMouseUp h s).cards = (commitDrag h s).cards := rfl
    rw [hup]
    rcases commitDrag_cards h s with h1 | ⟨q, k, h1⟩
    · rw [h1]
      exact forall2_sameButPosition_refl _
    · rw [h1]
      exact forall2_sameButPosition_replaceCard h.now q k s.cards
  · by_cases hne : s.cards = []
    · have h0 : autoLayout h s = .ok s := by
        unfold autoLayout
        simp [hne]
      rw [h0]
      exact forall2_sameButPosition_refl _
    · rw [autoLayout_cards h s hne]
      exact forall2_sameButPosition_applyWrites h.now _ s.cards

/-- The store of `demoGraph` after the write of `(7, 8)` to card `b`: card `a`
is untouched and card `b` differs in `position` and `updatedAt` only; a write
to the unknown id `zz` returns `null` and changes nothing. -/
theorem updateCard_demoGraph :
    (updateCard demoHost demoGraph "b" { x := 7, y := 8 }).cards
        = [demoCardA, { demoCardB with position := some { x := 7, y := 8 }, updatedAt := 1 }]
      ∧ dataUpdateCard 1 demoGraph.cards "zz" { x := 7, y := 8 } = (demoGraph.cards, none) := by
  constructor
  · rw [updateCard_cards]
    decide
  · decide

/-! ## The positions in the store after `autoLayout` -/

/-- The ids written by a layout are pairwise distinct when the card ids are. -/
theorem layoutPlan_ids_nodup (cards : List Card) (types : List CardType)
    (hnd : (cards.map (fun c => c.id)).Nodup) :
    ((layoutPlan cards types).map Prod.fst).Nodup := by
  obtain ⟨r1, r2, _⟩ := groupByType_spec cards types
  have h1 : ((placedGroups cards types).flatMap (fun g => g.2.map (fun c => c.id))).Perm
      ((groupByType cards types).flatMap (fun g => g.2.map (fun c => c.id))) := by
    have hp := List.Perm.flatMap_right (fun (g : String × List Card) => g.2.map (fun c => c.id))
      (placedGroups_perm cards types)
    rw [flatMap_filter_nonempty] at hp
    exact hp
  have h2 : ((groupByType cards types).flatMap (fun g => g.2.map (fun c => c.id))).Perm
      ((cards.filter (fun c => decide (c.typeId ∈ mapKeys (groupByType cards types)))).map
        (fun c => c.id)) := by
    rw [flatMap_map_ids, groups_flatMap_eq cards _ r2]
    exact List.Perm.map _ (flatMap_filter_perm cards _ r1)
  rw [layoutPlan_ids]
  refine (h1.trans h2).nodup_iff.mpr ?_
  exact List.Nodup.sublist (List.Sublist.map _ (List.filter_sublist _)) hnd

/-- The card of index `i` in the `k`-th placed group is written to
`(50 + 250 * k, 50 + 130 * i)`. -/
theorem mem_layoutPlan (cards : List Card) (types : List CardType) (k i : Nat)
    (g : String × List Card) (c : Card) (hg : (placedGroups cards types)[k]? = some g)
    (hc : g.2[i]? = some c) :
    (c.id, ({ x := 50 + 250 * (k : ℚ), y := 50 + 130 * (i : ℚ) } : Position))
      ∈ layoutPlan cards types := by
  unfold layoutPlan
  rw [List.mem_flatMap]
  refine ⟨(k, g), List.mk_mem_enum_iff_getElem?.mpr hg, ?_⟩
  unfold columnWrites
  rw [List.mem_map]
  exact ⟨(i, c), List.mk_mem_enum_iff_getElem?.mpr hc, rfl⟩

/-- The types of the placed groups are pairwise distinct. -/
theorem placedGroups_keys_nodup (cards : List Card) (types : List CardType) :
    ((placedGroups cards types).map Prod.fst).Nodup := by
  obtain ⟨r1, _, _⟩ := groupByType_spec cards types
  have hp := List.Perm.map Prod.fst (placedGroups_perm cards types)
  refine hp.nodup_iff.mpr ?_
  exact List.Nodup.sublist (List.Sublist.map _ (List.filter_sublist _)) r1

/-- With distinct card ids, the card of index `i` in the `k`-th placed group is
stored at `(50 + 250 * k, 50 + 130 * i)` after `autoLayout`. -/
theorem autoLayout_store_position (h : Host) (s : State) (hne : s.cards ≠ [])
    (hnd : (s.cards.map (fun c => c.id)).Nodup) (k i : Nat) (g : String × List Card)
    (c : Card) (hg : (placedGroups s.cards s.types)[k]? = some g) (hc : g.2[i]? = some c) :
    c ∈ s.cards
      ∧ getCardById (settle (autoLayout h s)).cards c.id
        = some { c with
            position := some { x := 50 + 250 * (k : ℚ), y := 50 + 130 * (i : ℚ) }
            updatedAt := h.now } := by
  have hgm : g ∈ placedGroups s.cards s.types := List.getElem?_mem hg
  have hcm : c ∈ g.2 := List.getElem?_mem hc
  have hcs : c ∈ s.cards := by
    rw [(placedGroups_mem s.cards s.types g hgm).1] at hcm
    exact (List.mem_filter.mp hcm).1
  refine ⟨hcs, ?_⟩
  rw [autoLayout_cards h s hne,
    getCardById_applyWrites_of_mem h.now _ s.cards c.id _
      (layoutPlan_ids_nodup s.cards s.types hnd) (mem_layoutPlan s.cards s.types k i g c hg hc),
    getCardById_of_mem s.cards c hcs hnd]
  rfl

/-- C15 as stated fails.  Two cards share the id `x` and the type `t1`; they
form the one placed group, so the second is due at `(50, 180)`.  Both writes of
`autoLayout` go to the first card with that id: the first card ends at
`(50, 180)` and the second stays at `(7, 7)`. -/
theorem autoLayout_misses_twin_card :
    demoTwinState.cards.map (fun c => (c.id, c.typeId, c.position))
        = [("x", "t1", some { x := 7, y := 7 }), ("x", "t1", some { x := 7, y := 7 })]
      ∧ placedGroups demoTwinState.cards demoTwinState.types
          = [("t1", [cardOf "x" "t1", cardOf "x" "t1"])]
      ∧ (settle (autoLayout demoHost demoTwinState)).writeLog
          = [("x", { x := 50, y := 50 }), ("x", { x := 50, y := 180 })]
      ∧ (settle (autoLayout demoHost demoTwinState)).cards.map (fun c => c.position)
          = [some { x := 50, y := 180 }, some { x := 7, y := 7 }] := by
  refine ⟨?_, ?_, ?_, ?_⟩ <;> with_unfolding_all decide

/-- C15, amended.  Auto-layout positions.  For every non-empty card list with
pairwise distinct ids and every type list: after `autoLayout` (whether it
returns or throws in the closing `centerGraph`) the card of index `i` in the
`k`-th placed group is in the store with position
`(50 + 250 * k, 50 + 130 * i)`, its other fields but `updatedAt` unchanged.
The placed groups are the non-empty groups in the order of the loop; each
holds the cards of one declared type id, in card-list order, and no two share
a type id.  Hence the number of distinct x-coordinates among the stored
positions of the placed cards is the number of non-empty groups, and in a
column the y-coordinates are `50, 180, 310, ...`.  The position writes issued
are those of `layoutPlan`, in order. -/
theorem autoLayout_positions (h : Host) (s : State) (hne : s.cards ≠ [])
    (hnd : (s.cards.map (fun c => c.id)).Nodup) :
    (∀ (k i : Nat) (g : String × List Card) (c : Card),
        (placedGroups s.cards s.types)[k]? = some g → g.2[i]? = some c →
          c ∈ s.cards
            ∧ getCardById (settle (autoLayout h s)).cards c.id
              = some { c with
                  position := some { x := 50 + 250 * (k : ℚ), y := 50 + 130 * (i : ℚ) }
                  updatedAt := h.now })
      ∧ (∀ g ∈ placedGroups s.cards s.types,
          g.2 = s.cards.filter (fun c => decide (c.typeId = g.1)) ∧ g.2 ≠ []
            ∧ g.1 ∈ s.types.map (fun t => t.id))
      ∧ ((placedGroups s.cards s.types).map Prod.fst).Nodup
      ∧ (((placedGroups s.cards s.types).flatMap (fun g => g.2)).filterMap
            (fun c => ((getCardById (settle (autoLayout h s)).cards c.id).bind
              (fun d => d.position)).map (fun p => p.x))).toFinset.card
          = (placedGroups s.cards s.types).length
      ∧ (settle (autoLayout h s)).writeLog = s.writeLog ++ layoutPlan s.cards s.types := by
  refine ⟨fun k i g c hg hc => autoLayout_store_position h s hne hnd k i g c hg hc,
    placedGroups_mem s.cards s.types, placedGroups_keys_nodup s.cards s.types, ?_,
    autoLayout_writeLog h s hne⟩
  have himg : (((placedGroups s.cards s.types).flatMap (fun g => g.2)).filterMap
        (fun c => ((getCardById (settle (autoLayout h s)).cards c.id).bind
          (fun d => d.position)).map (fun p => p.x))).toFinset
      = (Finset.range (placedGroups s.cards s.types).length).image
          (fun k : Nat => (50 : ℚ) + 250 * (k : ℚ)) := by
    ext q
    simp only [List.mem_toFinset, List.mem_filterMap, List.mem_flatMap, Finset.mem_image,
      Finset.mem_range]
    constructor
    · rintro ⟨c, ⟨g, hg, hc⟩, hq⟩
      obtain ⟨k, hk, hgk⟩ := List.getElem_of_mem hg
      obtain ⟨i, hi, hci⟩ := List.getElem_of_mem hc
      have hg2 : (placedGroups s.cards s.types)[k]? = some g := by
        rw [List.getElem?_eq_getElem hk, hgk]
      have hc2 : g.2[i]? = some c := by
        rw [List.getElem?_eq_getElem hi, hci]
      have hpos := (autoLayout_store_position h s hne hnd k i g c hg2 hc2).2
      rw [hpos] at hq
      simp only [Option.some_bind, Option.map_some', Option.some.injEq] at hq
      exact ⟨k, hk, hq⟩
    · rintro ⟨k, hk, hq⟩
      have hg2 : (placedGroups s.cards s.types)[k]? = some ((placedGroups s.cards s.types)[k]) :=
        List.getElem?_eq_getElem hk
      have hmem : (placedGroups s.cards s.types)[k] ∈ placedGroups s.cards s.types :=
        List.getElem_mem hk
      obtain ⟨_, hnonempty, _⟩ := placedGroups_mem s.cards s.types _ hmem
      cases hcs : ((placedGroups s.cards s.types)[k]).2 with
      | nil => exact absurd hcs hnonempty
      | cons c cs =>
        have hc2 : ((placedGroups s.cards s.types)[k]).2[0]? = some c := by
          rw [hcs]
          simp
        have hpos := (autoLayout_store_position h s hne hnd k 0 _ c hg2 hc2).2
        refine ⟨c, ⟨_, hmem, ?_⟩, ?_⟩
        · rw [hcs]
          exact List.mem_cons_self _ _
        · rw [hpos]
          simp only [Option.some_bind, Option.map_some']
          rw [hq]
  rw [himg, Finset.card_image_of_injective, Finset.card_range]
  intro a b hab
  simp only at hab
  have h1 : (a : ℚ) = (b : ℚ) := by linarith
  exact_mod_cast h1

/-- Witness for the amended C15: three types with two, zero and three cards
give two columns; `c1`, `c3` end at `(50, 50)`, `(50, 180)` and `c2`, `c4`, `c5`
at `(300, 50)`, `(300, 180)`, `(300, 310)`. -/
theorem autoLayout_positions_witness :
    demoLayoutState.cards ≠ []
      ∧ (demoLayoutState.cards.map (fun c => c.id)).Nodup
      ∧ (placedGroups demoLayoutState.cards demoLayoutState.types).map
          (fun g => (g.1, g.2.map (fun c => c.id)))
        = [("t1", ["c1", "c3"]), ("t3", ["c2", "c4", "c5"])]
      ∧ getCardById (settle (autoLayout demoHost demoLayoutState)).cards (cardOf "c5" "t3").id
          = some { cardOf "c5" "t3" with
              position := some { x := 50 + 250 * ((1 : Nat) : ℚ), y := 50 + 130 * ((2 : Nat) : ℚ) }
              updatedAt := demoHost.now }
      ∧ (settle (autoLayout demoHost demoLayoutState)).cards.map (fun c => (c.id, c.position))
          = [ ("c1", some { x := 50, y := 50 }), ("c2", some { x := 300, y := 50 }),
              ("c3", some { x := 50, y := 180 }), ("c4", some { x := 300, y := 180 }),
              ("c5", some { x := 300, y := 310 }) ] :=
  ⟨by decide, by decide, by with_unfolding_all decide,
    ((autoLayout_positions demoHost demoLayoutState (by decide) (by decide)).1 1 2
      ("t3", [cardOf "c2" "t3", cardOf "c4" "t3", cardOf "c5" "t3"]) (cardOf "c5" "t3")
      (by with_unfolding_all decide) (by decide)).2,
    by with_unfolding_all decide⟩

end GraphView
